import Mathlib

/-!
# Aggregation, projection, label placement and contacts of `map-erm`

Shallow embedding of the functions of `src/map.js` (aggregation, projection,
geometry primitives, label boxes, label placement, contact resolution) and of
`parseCsvLine` and `validateCompleteness` of `src/scripts/build-contacts.mjs`.

JavaScript numbers are modelled as exact rationals (`ℚ`): every arithmetic
operation is the exact one, there is no rounding, no `NaN` and no `Infinity`.
`Math.cos` / `Math.sin` cannot be evaluated over `ℚ`; the two functions are
taken as parameters `cosDeg`, `sinDeg` giving the value for an angle written
in whole degrees, which is the only way the source uses them.  The projector
is written over an arbitrary ordered field with `Math.PI`, `Math.tan` and
`Math.log` as parameters, so that it can be read over the reals.  The string
functions `toUpperCase`, `toLowerCase` and `Number.parseFloat` are parameters
as well; `trim` and `padStart` are written out.

Where a statement over exact arithmetic does not carry over to the doubles
the source computes with, the function is embedded a second time over `Dbl`,
a model of the finite IEEE 754 binary64 numbers with round to nearest even
(`estimateLabelBoxDbl`, `createProjectorDbl`, `pointInRingDbl`), and evaluated
at an input where the rounding shows.
-/

namespace MapErm

/-! ## Constants -/

/-- Source: `const VIEW_WIDTH = 860`. -/
def VIEW_WIDTH : ℚ := 860

/-- Source: `const VIEW_HEIGHT = 900`. -/
def VIEW_HEIGHT : ℚ := 900

/-- Source: `const PADDING = 22`. -/
def PADDING : ℚ := 22

/-! ## Data model -/

/-- A canvas point `{ x, y }` (the label anchor `base`). -/
structure Point where
  x : ℚ
  y : ℚ
  deriving DecidableEq, Repr

/-- A label box `{ left, right, top, bottom }`. -/
structure LabelBox where
  left : ℚ
  right : ℚ
  top : ℚ
  bottom : ℚ
  deriving DecidableEq, Repr

/-- Bounds `{ minX, maxX, minY, maxY }` of a projected region. -/
structure Bounds where
  minX : ℚ
  maxX : ℚ
  minY : ℚ
  maxY : ℚ
  deriving DecidableEq, Repr

/-- A placement `{ x, y, box, fontSize }`. -/
structure Placement where
  x : ℚ
  y : ℚ
  box : LabelBox
  fontSize : ℚ
  deriving DecidableEq, Repr

/-- A candidate offset `{ dx, dy }`. -/
structure Offset where
  dx : ℚ
  dy : ℚ
  deriving DecidableEq, Repr

/-- A projected ring: a list of `[x, y]` pairs. -/
abbrev Ring := List (ℚ × ℚ)

/-- A projected polygon: ring 0 is the outer ring, the others are holes. -/
abbrev Polygon := List Ring

/-- The `regionShape` argument of `findLabelPlacement`, which reads
`projectedPolygons` and `bounds` from it. -/
structure RegionShape where
  projectedPolygons : List Polygon
  bounds : Bounds

/-- The entry pushed on `labelCandidates` by `drawRegions`; the same object is
passed to `findLabelPlacement` as `regionShape`. -/
structure LabelCandidate extends RegionShape where
  code : String
  base : Point
  priority : ℚ

/-! ## Label boxes -/

/-- The value of `text.length` in JavaScript: the number of UTF-16 code units. -/
def jsLength (text : String) : ℕ :=
  (text.toList.map fun c => if c.toNat < 65536 then 1 else 2).sum

/-- Source: `estimateLabelBox(x, y, text, fontSize)`. -/
def estimateLabelBox (x y : ℚ) (text : String) (fontSize : ℚ) : LabelBox :=
  let width : ℚ := max 14 ((jsLength text : ℚ) * (fontSize * 0.72) + 6)
  let height : ℚ := fontSize + 3
  { left := x - width / 2
    right := x + width / 2
    top := y - height + 1
    bottom := y + 1 }

/-- Source: `overlapsAny(box, placedBoxes)`. -/
def overlapsAny (box : LabelBox) (placedBoxes : List LabelBox) : Bool :=
  placedBoxes.any fun other =>
    decide (box.left < other.right) &&
    decide (box.right > other.left) &&
    decide (box.top < other.bottom) &&
    decide (box.bottom > other.top)

/-! ## Point-in-polygon tests -/

/-- Source: `isPointOnSegment(px, py, ax, ay, bx, by)`. -/
def isPointOnSegment (px py ax ay bx by_ : ℚ) : Bool :=
  let cross := (px - ax) * (by_ - ay) - (py - ay) * (bx - ax)
  if |cross| > 0.001 then false
  else
    let dot := (px - ax) * (px - bx) + (py - ay) * (py - by_)
    decide (dot ≤ 0)

/-- The body of the `for` loop of `pointInRing`, started at index `i`: the
first argument holds `ring[i], ring[i+1], ...`, `pj` is `ring[j]` (the point
visited just before, `j = i++`) and `inside` is the running parity flag. -/
def pointInRingLoop (x y : ℚ) : List (ℚ × ℚ) → ℚ × ℚ → Bool → Bool
  | [], _, inside => inside
  | pi :: rest, pj, inside =>
    let xi := pi.1
    let yi := pi.2
    let xj := pj.1
    let yj := pj.2
    if isPointOnSegment x y xi yi xj yj then true
    else
      let intersects : Bool :=
        (decide (yi > y) != decide (yj > y)) &&
          decide (x < ((xj - xi) * (y - yi)) / (yj - yi) + xi)
      pointInRingLoop x y rest pi (if intersects then !inside else inside)

/-- Source: `pointInRing(x, y, ring)`.  The loop starts with `i = 0` and
`j = ring.length - 1`, so `ring[j]` is the last point; on the empty ring the
body never runs and the default point is not read. -/
def pointInRing (x y : ℚ) (ring : Ring) : Bool :=
  pointInRingLoop x y ring (ring.getLastD (0, 0)) false

/-- The hole loop of `pointInProjectedPolygon`: `for (i = 1; ...)` returning
`false` at the first hole that contains the point and `true` at the end. -/
def holesLoop (x y : ℚ) : List Ring → Bool
  | [] => true
  | hole :: rest => if pointInRing x y hole then false else holesLoop x y rest

/-- Source: `pointInProjectedPolygon(x, y, polygon)`. -/
def pointInProjectedPolygon (x y : ℚ) (polygon : Polygon) : Bool :=
  match polygon with
  | [] => false
  | outer :: holes =>
    if !pointInRing x y outer then false else holesLoop x y holes

/-- Source: `pointInProjectedRegion(x, y, projectedPolygons)`. -/
def pointInProjectedRegion (x y : ℚ) : List Polygon → Bool
  | [] => false
  | polygon :: rest =>
    if pointInProjectedPolygon x y polygon then true
    else pointInProjectedRegion x y rest

/-- Source: `isBoxInsideRegion(box, projectedPolygons, strict)`. -/
def isBoxInsideRegion (box : LabelBox) (projectedPolygons : List Polygon)
    (strict : Bool) : Bool :=
  let centerX := (box.left + box.right) / 2
  let centerY := (box.top + box.bottom) / 2
  let samplePoints : List (ℚ × ℚ) :=
    if strict then
      [ (centerX, centerY),
        (box.left + 1, centerY),
        (box.right - 1, centerY),
        (centerX, box.top + 1),
        (centerX, box.bottom - 1) ]
    else [(centerX, centerY)]
  samplePoints.all fun p => pointInProjectedRegion p.1 p.2 projectedPolygons

/-! ## Candidate offsets -/

/-- Source: `buildCandidateOffsets()`.  `cosDeg degree` and `sinDeg degree`
stand for `Math.cos((degree * Math.PI) / 180)` and
`Math.sin((degree * Math.PI) / 180)`.  The radii are `5, 10, ..., 70`
(`radius <= 72`, step 5) and the degrees `0, 24, ..., 336` (`degree < 360`,
step 24). -/
def buildCandidateOffsets (cosDeg sinDeg : ℕ → ℚ) : List Offset :=
  ({ dx := 0, dy := 0 } : Offset) ::
    ((List.range 14).map fun k => 5 + 5 * k).flatMap fun (radius : ℕ) =>
      ((List.range 15).map fun k => 24 * k).map fun (degree : ℕ) =>
        ({ dx := cosDeg degree * (radius : ℚ), dy := sinDeg degree * (radius : ℚ) } : Offset)

/-- Source: `const labelOffsets = buildCandidateOffsets()`. -/
def labelOffsets (cosDeg sinDeg : ℕ → ℚ) : List Offset :=
  buildCandidateOffsets cosDeg sinDeg

/-! ## Grid scan -/

/-- The values taken by the loop variable of
`for (let v = lo; v <= hi; v += step)` for a positive `step`:
`lo, lo + step, lo + 2 * step, ...` as long as the value is `<= hi`.
(For `step <= 0` and `lo <= hi` the source loop does not end; the grid scan is
only called with the steps 5, 3 and 2.) -/
def forRange (lo hi step : ℚ) : List ℚ :=
  if lo ≤ hi then
    (List.range (⌊(hi - lo) / step⌋.toNat + 1)).map fun (k : ℕ) => lo + (k : ℚ) * step
  else []

/-- The body of the inner loop of `tryFindPlacementWithGrid` at the cell
`(x, y)`.  The state is `(bestCandidate, bestDistance)`; `bestDistance = none`
stands for `Infinity`, below which every distance lies. -/
def gridBody (base : Point) (code : String) (placedBoxes : List LabelBox)
    (projectedPolygons : List Polygon) (fontSize : ℚ) (strict : Bool)
    (best : Option Placement × Option ℚ) (x y : ℚ) : Option Placement × Option ℚ :=
  let box := estimateLabelBox x y code fontSize
  if box.left < PADDING ∨ box.right > VIEW_WIDTH - PADDING ∨
      box.top < PADDING ∨ box.bottom > VIEW_HEIGHT - PADDING then best
  else if !isBoxInsideRegion box projectedPolygons strict then best
  else if overlapsAny box placedBoxes then best
  else
    let dx := x - base.x
    let dy := y - base.y
    let distance := dx * dx + dy * dy
    let closer : Bool :=
      match best.2 with
      | none => true
      | some bestDistance => decide (distance < bestDistance)
    if closer then
      (some { x := x, y := y, box := box, fontSize := fontSize }, some distance)
    else best

/-- Source: `tryFindPlacementWithGrid(base, code, placedBoxes,
projectedPolygons, bounds, fontSize, strict, step)`. -/
def tryFindPlacementWithGrid (base : Point) (code : String)
    (placedBoxes : List LabelBox) (projectedPolygons : List Polygon)
    (bounds : Bounds) (fontSize : ℚ) (strict : Bool) (step : ℚ) :
    Option Placement :=
  let minX : ℚ := max PADDING (⌊bounds.minX⌋ : ℚ)
  let maxX : ℚ := min (VIEW_WIDTH - PADDING) (⌈bounds.maxX⌉ : ℚ)
  let minY : ℚ := max PADDING (⌊bounds.minY⌋ : ℚ)
  let maxY : ℚ := min (VIEW_HEIGHT - PADDING) (⌈bounds.maxY⌉ : ℚ)
  ((forRange minY maxY step).foldl
    (fun best y =>
      (forRange minX maxX step).foldl
        (fun best x =>
          gridBody base code placedBoxes projectedPolygons fontSize strict best x y)
        best)
    (none, none)).1

/-! ## The degradation ladder -/

/-- The radial loop `for (const offset of labelOffsets)` of
`findLabelPlacement`, which the source writes out twice: with
`isBoxInsideRegion(box, projectedPolygons, true)` for the first four font
sizes and with `false` for the next two.  It returns at the first offset that
passes the three checks. -/
def radialSearch (offsets : List Offset) (base : Point) (code : String)
    (placedBoxes : List LabelBox) (projectedPolygons : List Polygon)
    (fontSize : ℚ) (strict : Bool) : Option Placement :=
  offsets.findSome? fun offset =>
    let x := base.x + offset.dx
    let y := base.y + offset.dy
    let box := estimateLabelBox x y code fontSize
    if box.left < PADDING ∨ box.right > VIEW_WIDTH - PADDING ∨
        box.top < PADDING ∨ box.bottom > VIEW_HEIGHT - PADDING then none
    else if !isBoxInsideRegion box projectedPolygons strict then none
    else if overlapsAny box placedBoxes then none
    else some { x := x, y := y, box := box, fontSize := fontSize }

/-- Source: `findLabelPlacement(base, code, placedBoxes, regionShape)`;
`none` is `null`. -/
def findLabelPlacement (cosDeg sinDeg : ℕ → ℚ) (base : Point) (code : String)
    (placedBoxes : List LabelBox) (regionShape : RegionShape) : Option Placement :=
  let projectedPolygons := regionShape.projectedPolygons
  let bounds := regionShape.bounds
  let fontSizes : List ℚ := [8.6, 8.0, 7.4, 6.8]
  ((((fontSizes.findSome? fun fontSize =>
        (radialSearch (labelOffsets cosDeg sinDeg) base code placedBoxes
            projectedPolygons fontSize true).or
          (tryFindPlacementWithGrid base code placedBoxes projectedPolygons
            bounds fontSize true 5)).or
      (([7.0, 6.6] : List ℚ).findSome? fun fontSize =>
        (radialSearch (labelOffsets cosDeg sinDeg) base code placedBoxes
            projectedPolygons fontSize false).or
          (tryFindPlacementWithGrid base code placedBoxes projectedPolygons
            bounds fontSize false 5))).or
      (([6.2, 5.8, 5.2] : List ℚ).findSome? fun fontSize =>
        tryFindPlacementWithGrid base code placedBoxes projectedPolygons
          bounds fontSize false 3)).or
      (([4.8, 4.4, 4.0] : List ℚ).findSome? fun fontSize =>
        tryFindPlacementWithGrid base code placedBoxes projectedPolygons
          bounds fontSize false 2))

/-! ## The placement pass of `drawRegions` -/

/-- The label loop of `drawRegions` (`for (const candidate of sortedLabels)`),
started from a given `placedBoxes`: a returned placement appends its box, a
`null` result leaves the list as it is. -/
def placementLoop (cosDeg sinDeg : ℕ → ℚ) (placedBoxes : List LabelBox)
    (sortedLabels : List LabelCandidate) : List LabelBox :=
  sortedLabels.foldl
    (fun placedBoxes candidate =>
      match findLabelPlacement cosDeg sinDeg candidate.base candidate.code
          placedBoxes candidate.toRegionShape with
      | none => placedBoxes
      | some placement => placedBoxes ++ [placement.box])
    placedBoxes

/-- The placement pass of `drawRegions`: `const placedBoxes = []` followed by
the label loop. -/
def placementPass (cosDeg sinDeg : ℕ → ℚ) (sortedLabels : List LabelCandidate) :
    List LabelBox :=
  placementLoop cosDeg sinDeg [] sortedLabels

/-! ## Notions used to state the properties -/

/-- The polygon whose only ring is the square `[(0,0),(0,10),(10,10),(10,0)]`. -/
def unitSquare : Polygon := [[(0, 0), (0, 10), (10, 10), (10, 0)]]

/-- A box is inside the canvas margins: none of the four guards
`box.left < PADDING`, `box.right > VIEW_WIDTH - PADDING`, `box.top < PADDING`,
`box.bottom > VIEW_HEIGHT - PADDING` fires. -/
def insideMargins (box : LabelBox) : Prop :=
  PADDING ≤ box.left ∧ box.right ≤ VIEW_WIDTH - PADDING ∧
    PADDING ≤ box.top ∧ box.bottom ≤ VIEW_HEIGHT - PADDING

instance (box : LabelBox) : Decidable (insideMargins box) := by
  unfold insideMargins; infer_instance

/-- A candidate position `(x, y)` is acceptable at a font size: its label box
is inside the margins, contained in the region (five samples when `strict`,
the centre otherwise) and overlaps no placed box. -/
def acceptable (code : String) (placedBoxes : List LabelBox)
    (projectedPolygons : List Polygon) (fontSize : ℚ) (strict : Bool) (x y : ℚ) : Prop :=
  insideMargins (estimateLabelBox x y code fontSize) ∧
    isBoxInsideRegion (estimateLabelBox x y code fontSize) projectedPolygons strict = true ∧
    overlapsAny (estimateLabelBox x y code fontSize) placedBoxes = false

instance (code : String) (placedBoxes : List LabelBox) (projectedPolygons : List Polygon)
    (fontSize : ℚ) (strict : Bool) (x y : ℚ) :
    Decidable (acceptable code placedBoxes projectedPolygons fontSize strict x y) := by
  unfold acceptable; infer_instance

/-- The placement `{ x, y, box, fontSize }` built at a candidate position. -/
def placementAt (code : String) (fontSize : ℚ) (x y : ℚ) : Placement :=
  { x := x, y := y, box := estimateLabelBox x y code fontSize, fontSize := fontSize }

/-- The squared Euclidean distance `dx * dx + dy * dy` to the anchor. -/
def sqDist (base : Point) (x y : ℚ) : ℚ :=
  (x - base.x) * (x - base.x) + (y - base.y) * (y - base.y)

/-- The local `minX` of `tryFindPlacementWithGrid`. -/
def gridMinX (bounds : Bounds) : ℚ := max PADDING (⌊bounds.minX⌋ : ℚ)

/-- The local `maxX` of `tryFindPlacementWithGrid`. -/
def gridMaxX (bounds : Bounds) : ℚ := min (VIEW_WIDTH - PADDING) (⌈bounds.maxX⌉ : ℚ)

/-- The local `minY` of `tryFindPlacementWithGrid`. -/
def gridMinY (bounds : Bounds) : ℚ := max PADDING (⌊bounds.minY⌋ : ℚ)

/-- The local `maxY` of `tryFindPlacementWithGrid`. -/
def gridMaxY (bounds : Bounds) : ℚ := min (VIEW_HEIGHT - PADDING) (⌈bounds.maxY⌉ : ℚ)

/-- The grid cells in the order the two nested loops visit them: rows (`y`)
outside, columns (`x`) inside. -/
def gridCells (bounds : Bounds) (step : ℚ) : List (ℚ × ℚ) :=
  (forRange (gridMinY bounds) (gridMaxY bounds) step).flatMap fun y =>
    (forRange (gridMinX bounds) (gridMaxX bounds) step).map fun x => (x, y)

/-- `(x, y)` is a grid cell of the scan: `x = minX + i * step` and
`y = minY + j * step` within the clamped, rounded bounds. -/
def IsGridCell (bounds : Bounds) (step : ℚ) (x y : ℚ) : Prop :=
  ∃ i j : ℕ, x = gridMinX bounds + i * step ∧ y = gridMinY bounds + j * step ∧
    x ≤ gridMaxX bounds ∧ y ≤ gridMaxY bounds

/-- Loop invariant of the grid scan after the cells `seen`: either nothing was
acceptable and the state is still `(null, Infinity)`, or the state holds an
acceptable cell that is strictly closer than every acceptable cell before it
and at least as close as every acceptable cell after it. -/
def GridBest (ok : ℚ × ℚ → Prop) (dist : ℚ × ℚ → ℚ) (mk : ℚ × ℚ → Placement)
    (seen : List (ℚ × ℚ)) (s : Option Placement × Option ℚ) : Prop :=
  (s = (none, none) ∧ ∀ c ∈ seen, ¬ ok c) ∨
    ∃ l1 c l2, seen = l1 ++ c :: l2 ∧ ok c ∧ s = (some (mk c), some (dist c)) ∧
      (∀ b ∈ l1, ok b → dist c < dist b) ∧ (∀ b ∈ l2, ok b → dist c ≤ dist b)

/-- How a rung of the degradation ladder searches: the radial offsets around
the anchor, or a grid scan with a given step. -/
inductive Search where
  | radial
  | grid (step : ℚ)

/-- A rung of the degradation ladder as the specification lists it: a font
size, a search and the containment strictness. -/
structure Rung where
  fontSize : ℚ
  search : Search
  strict : Bool

/-- The degradation ladder in the order the specification gives: 8.6, 8.0,
7.4, 6.8 each with the strict radial search then the strict step-5 grid; 7.0,
6.6 each with the relaxed radial search then the relaxed step-5 grid; 6.2,
5.8, 5.2 with the relaxed step-3 grid; 4.8, 4.4, 4.0 with the relaxed step-2
grid. -/
def ladder : List Rung :=
  [ ⟨8.6, .radial, true⟩, ⟨8.6, .grid 5, true⟩,
    ⟨8.0, .radial, true⟩, ⟨8.0, .grid 5, true⟩,
    ⟨7.4, .radial, true⟩, ⟨7.4, .grid 5, true⟩,
    ⟨6.8, .radial, true⟩, ⟨6.8, .grid 5, true⟩,
    ⟨7.0, .radial, false⟩, ⟨7.0, .grid 5, false⟩,
    ⟨6.6, .radial, false⟩, ⟨6.6, .grid 5, false⟩,
    ⟨6.2, .grid 3, false⟩, ⟨5.8, .grid 3, false⟩, ⟨5.2, .grid 3, false⟩,
    ⟨4.8, .grid 2, false⟩, ⟨4.4, .grid 2, false⟩, ⟨4.0, .grid 2, false⟩ ]

/-- Running one rung of the ladder. -/
def runRung (cosDeg sinDeg : ℕ → ℚ) (base : Point) (code : String)
    (placedBoxes : List LabelBox) (regionShape : RegionShape) (rung : Rung) :
    Option Placement :=
  match rung.search with
  | .radial =>
    radialSearch (labelOffsets cosDeg sinDeg) base code placedBoxes
      regionShape.projectedPolygons rung.fontSize rung.strict
  | .grid step =>
    tryFindPlacementWithGrid base code placedBoxes regionShape.projectedPolygons
      regionShape.bounds rung.fontSize rung.strict step

/-- No candidate of tier 1 or tier 2 is acceptable: for each of the font sizes
8.6, 8.0, 7.4, 6.8 under the strict test and 7.0, 6.6 under the relaxed test,
no radial offset around the anchor and no cell of the step-5 grid is
acceptable. -/
def noTierOneTwoCandidate (cosDeg sinDeg : ℕ → ℚ) (base : Point) (code : String)
    (placedBoxes : List LabelBox) (regionShape : RegionShape) : Prop :=
  (∀ fontSize ∈ ([8.6, 8.0, 7.4, 6.8] : List ℚ),
    (∀ offset ∈ labelOffsets cosDeg sinDeg,
      ¬ acceptable code placedBoxes regionShape.projectedPolygons fontSize true
        (base.x + offset.dx) (base.y + offset.dy)) ∧
    ∀ x y, IsGridCell regionShape.bounds 5 x y →
      ¬ acceptable code placedBoxes regionShape.projectedPolygons fontSize true x y) ∧
  (∀ fontSize ∈ ([7.0, 6.6] : List ℚ),
    (∀ offset ∈ labelOffsets cosDeg sinDeg,
      ¬ acceptable code placedBoxes regionShape.projectedPolygons fontSize false
        (base.x + offset.dx) (base.y + offset.dy)) ∧
    ∀ x y, IsGridCell regionShape.bounds 5 x y →
      ¬ acceptable code placedBoxes regionShape.projectedPolygons fontSize false x y)

/-! ## Sample inputs -/

/-- A square region `[lo, hi] × [lo, hi]` with its bounds. -/
def squareShape (lo hi : ℚ) : RegionShape :=
  { projectedPolygons := [[[(lo, lo), (lo, hi), (hi, hi), (hi, lo)]]]
    bounds := { minX := lo, maxX := hi, minY := lo, maxY := hi } }

/-- Two label candidates on disjoint squares, each anchored at its centre. -/
def twoSquares : List LabelCandidate :=
  [ { toRegionShape := squareShape 50 150, code := "01", base := ⟨100, 100⟩,
      priority := 10000 },
    { toRegionShape := squareShape 200 300, code := "02", base := ⟨250, 250⟩,
      priority := 10000 } ]

/-- A crowded sample: a sliver of a region around the point `(103, 99.4)`,
with bounds `[100, 103] × [100, 103]`; only a cell of the step-3 grid has its
box centre inside the sliver. -/
def sliverShape : RegionShape :=
  { projectedPolygons := [[[(102.5, 99), (102.5, 99.8), (103.5, 99.8), (103.5, 99)]]]
    bounds := { minX := 100, maxX := 103, minY := 100, maxY := 103 } }

/-- Whether the point `(px, py)` is within distance `d` of the closed segment
from `(ax, ay)` to `(bx, by)`: some point of the segment is at squared
distance at most `d * d`. -/
def withinOfSegment (d px py ax ay bx by_ : ℚ) : Prop :=
  ∃ t : ℚ, 0 ≤ t ∧ t ≤ 1 ∧
    (px - (ax + t * (bx - ax))) ^ 2 + (py - (ay + t * (by_ - ay))) ^ 2 ≤ d ^ 2

/-! ## Projection

The projector is written over an arbitrary ordered field `K`, with `Math.PI`,
`Math.tan` and `Math.log` as parameters: over `ℚ` it can be run, over `ℝ` it
is the source function with the real constant and the real functions. -/

/-- A planar point `{ x, y }` over the numbers `K`. -/
structure PlanePoint (K : Type) where
  x : K
  y : K

/-- Projected bounds `{ minX, maxX, minY, maxY }` over the numbers `K`. -/
structure PlaneBounds (K : Type) where
  minX : K
  maxX : K
  minY : K
  maxY : K

/-- Source: `projectGeoPoint(lon, lat)`. -/
def projectGeoPoint {K : Type} [Field K] (pi : K) (tan log : K → K) (lon lat : K) :
    PlanePoint K :=
  let lonRad := (lon * pi) / 180
  let latRad := (lat * pi) / 180
  { x := lonRad
    y := log (tan (pi / 4 + latRad / 2)) }

/-- Source: `createProjector(bounds)`; the result is the returned closure
`(lon, lat) => ...`. -/
def createProjector {K : Type} [LinearOrderedField K] (pi : K) (tan log : K → K)
    (bounds : PlaneBounds K) : K → K → PlanePoint K :=
  let xSpan := bounds.maxX - bounds.minX
  let ySpan := bounds.maxY - bounds.minY
  let scale := min (((VIEW_WIDTH : K) - (PADDING : K) * 2) / xSpan)
    (((VIEW_HEIGHT : K) - (PADDING : K) * 2) / ySpan)
  let drawWidth := xSpan * scale
  let drawHeight := ySpan * scale
  let offsetX := ((VIEW_WIDTH : K) - drawWidth) / 2
  let offsetY := ((VIEW_HEIGHT : K) - drawHeight) / 2
  fun lon lat =>
    let point := projectGeoPoint pi tan log lon lat
    { x := offsetX + (point.x - bounds.minX) * scale
      y := offsetY + (bounds.maxY - point.y) * scale }

/-- The uniform scale `min(816 / xSpan, 856 / ySpan)` of the fit transform. -/
def fitScale {K : Type} [LinearOrderedField K] (bounds : PlaneBounds K) : K :=
  min (816 / (bounds.maxX - bounds.minX)) (856 / (bounds.maxY - bounds.minY))

/-! ## Strings and contacts -/

/-- The code points removed by `String.prototype.trim`: the ECMAScript
`WhiteSpace` and `LineTerminator` code points. -/
def isJsWhitespace (c : Char) : Bool :=
  let n := c.toNat
  n == 0x09 || n == 0x0A || n == 0x0B || n == 0x0C || n == 0x0D || n == 0x20 ||
    n == 0xA0 || n == 0x1680 || (decide (0x2000 ≤ n) && decide (n ≤ 0x200A)) ||
    n == 0x2028 || n == 0x2029 || n == 0x202F || n == 0x205F || n == 0x3000 || n == 0xFEFF

/-- The JavaScript `value.trim()`. -/
def jsTrim (value : String) : String :=
  String.mk ((value.toList.dropWhile isJsWhitespace).reverse.dropWhile isJsWhitespace).reverse

/-- Source (`src/map.js`): `const REQUIRED_ROLES = ["VAD", "KAMLIGHT", "KAMHEAVY"]`; the
script `build-contacts.mjs` declares the same constant. -/
def REQUIRED_ROLES : List String := ["VAD", "KAMLIGHT", "KAMHEAVY"]

/-- A contact `{ role, name, tel, mail }`. -/
structure Contact where
  role : String
  name : String
  tel : String
  mail : String
  deriving DecidableEq, Repr

/-- Source: `normalizeRole(value)` of `src/map.js`, on a string `value`;
`toUpperCase` is the JavaScript `String.prototype.toUpperCase`. -/
def normalizeRole (toUpperCase : String → String) (value : String) : String :=
  toUpperCase (jsTrim value)

/-- Source: `getDefaultContact(code, role)`; `toLowerCase` is the JavaScript
`String.prototype.toLowerCase`. -/
def getDefaultContact (toLowerCase : String → String) (code role : String) : Contact :=
  { role := role
    name := role ++ " Team " ++ code
    tel := "+49 30 0000 0000"
    mail := toLowerCase role ++ ".plz" ++ code ++ "@intranet.local" }

/-- Source: `resolveContactForRole(code, role)`.  The module variable
`contactDirectory`, a `Map` of `Map`s, is the association list
`contactDirectory`; `Map.get` is `List.lookup`, and `byPlz.has(k)` holds when
the lookup finds an entry. -/
def resolveContactForRole (toUpperCase toLowerCase : String → String)
    (contactDirectory : List (String × List (String × Contact))) (code role : String) :
    Contact :=
  let normalizedRole := normalizeRole toUpperCase role
  match contactDirectory.lookup code with
  | some byPlz =>
    match byPlz.lookup normalizedRole with
    | some contact => contact
    | none => getDefaultContact toLowerCase code normalizedRole
  | none => getDefaultContact toLowerCase code normalizedRole

/-- Source: `createContactData(code)`. -/
def createContactData (toUpperCase toLowerCase : String → String)
    (contactDirectory : List (String × List (String × Contact))) (code : String) :
    List Contact :=
  REQUIRED_ROLES.map fun role =>
    resolveContactForRole toUpperCase toLowerCase contactDirectory code role

/-- A normalised record `{ plz2, role, name, tel, mail, line }` of
`build-contacts.mjs`. -/
structure ContactRecord where
  plz2 : String
  role : String
  name : String
  tel : String
  mail : String
  line : ℕ
  deriving DecidableEq, Repr

/-- The JavaScript `value.padStart(2, "0")`. -/
def padStart2 (value : String) : String :=
  String.mk (List.replicate (2 - value.length) '0') ++ value

/-- Source: `const ALL_PLZ2 = Array.from({ length: 100 }, (_, i) =>
String(i).padStart(2, "0"))`. -/
def ALL_PLZ2 : List String :=
  (List.range 100).map fun i => padStart2 (toString i)

/-- Source: `validateCompleteness(records)`; `throw new Error(msg)` is
`Except.error msg` and a normal return is `Except.ok ()`.  The set `present`
is the list of its keys. -/
def validateCompleteness (records : List ContactRecord) : Except String Unit :=
  let present := records.map fun r => r.plz2 ++ "|" ++ r.role
  let missing := ALL_PLZ2.flatMap fun plz2 =>
    REQUIRED_ROLES.filterMap fun role =>
      let key := plz2 ++ "|" ++ role
      if key ∈ present then none else some key
  if missing.length > 0 then
    let preview := ", ".intercalate (missing.take 20)
    Except.error ("CSV ist nicht vollständig. Fehlende Kombinationen: " ++ preview ++
      (if missing.length > 20 then " ..." else ""))
  else Except.ok ()

/-! ## Aggregation -/

/-- A centroid hint as it arrives from the GeoJSON: a number, a string, or
anything else (missing included). -/
inductive Coord where
  | number (value : ℚ)
  | string (value : String)
  | other

/-- A GeoJSON geometry: `type === "Polygon"`, `type === "MultiPolygon"`, or
any other type. -/
inductive Geometry where
  | polygon (coordinates : Polygon)
  | multiPolygon (coordinates : List Polygon)
  | other

/-- A feature, reduced to what the aggregation reads:
`properties.destatis.zip` (`none` when a link of the optional chain is
missing), `geometry` (`none` when missing), and the two centroid hints. -/
structure Feature where
  zip : Option String
  geometry : Option Geometry
  center_lon : Coord
  center_lat : Coord

/-- A group built by `aggregatePlzRegions`. -/
structure Region where
  code : String
  polygons : List Polygon
  centerLonSum : ℚ
  centerLatSum : ℚ
  centerCount : ℕ

/-- The JavaScript `value.replace(",", ".")` on the characters of `value`:
the first comma becomes a full stop. -/
def replaceComma : List Char → List Char
  | [] => []
  | c :: rest => if c = ',' then '.' :: rest else c :: replaceComma rest

/-- Source: `parseCoord(value)`.  `parseFloat` is `Number.parseFloat`; a
result `none` stands for a value that `Number.isFinite` rejects (`NaN` or an
infinity), the only way the result is used. -/
def parseCoord (parseFloat : String → Option ℚ) : Coord → Option ℚ
  | .number value => some value
  | .string value => parseFloat (String.mk (replaceComma value.toList))
  | .other => none

/-- Source: `parsePlz2(feature)`; `none` is `null`.  The empty string is
falsy; `/^\d{5}$/` accepts exactly five characters `0`..`9`. -/
def parsePlz2 (feature : Feature) : Option String :=
  match feature.zip with
  | none => none
  | some zip =>
    if zip = "" then none
    else
      let value := jsTrim zip
      if value.toList.length = 5 ∧ value.toList.all (fun c => '0' ≤ c ∧ c ≤ '9') then
        some (String.mk (value.toList.take 2))
      else none

/-- Source: `featureToPolygons(geometry)`. -/
def featureToPolygons : Option Geometry → List Polygon
  | none => []
  | some (.polygon coordinates) => [coordinates]
  | some (.multiPolygon coordinates) => coordinates
  | some .other => []

/-- Lines 62-70 of `aggregatePlzRegions`: what the loop body does to the group
of the feature. -/
def addFeature (parseFloat : String → Option ℚ) (group : Region) (feature : Feature) :
    Region :=
  let polygons := group.polygons ++ featureToPolygons feature.geometry
  match parseCoord parseFloat feature.center_lon, parseCoord parseFloat feature.center_lat with
  | some lon, some lat =>
    { code := group.code
      polygons := polygons
      centerLonSum := group.centerLonSum + lon
      centerLatSum := group.centerLatSum + lat
      centerCount := group.centerCount + 1 }
  | _, _ => { group with polygons := polygons }

/-- The body of the loop of `aggregatePlzRegions` on the `Map` `groups`, kept
as the list of its values in insertion order. -/
def aggregateStep (parseFloat : String → Option ℚ) (groups : List Region)
    (feature : Feature) : List Region :=
  match parsePlz2 feature with
  | none => groups
  | some code =>
    let groups :=
      if groups.any (fun group => group.code == code) then groups
      else groups ++ [{ code := code, polygons := [], centerLonSum := 0, centerLatSum := 0,
                        centerCount := 0 }]
    groups.map fun group =>
      if group.code = code then addFeature parseFloat group feature else group

/-- Source: `aggregatePlzRegions(features)`.  The comparator
`a.code.localeCompare(b.code)` is taken on the codes as the order of their
characters, which is how the collation orders strings of ASCII digits, the
only codes `parsePlz2` returns. -/
def aggregatePlzRegions (parseFloat : String → Option ℚ) (features : List Feature) :
    List Region :=
  (features.foldl (aggregateStep parseFloat) []).mergeSort
    fun a b => decide (a.code ≤ b.code)

/-- The features of a list that `parsePlz2` maps to a given code, in order. -/
def featuresOf (code : String) (features : List Feature) : List Feature :=
  features.filter fun f => parsePlz2 f == some code

/-- The centroid hint of a feature when both coordinates parse to finite
numbers. -/
def centerOf (parseFloat : String → Option ℚ) (feature : Feature) : Option (ℚ × ℚ) :=
  match parseCoord parseFloat feature.center_lon, parseCoord parseFloat feature.center_lat with
  | some lon, some lat => some (lon, lat)
  | _, _ => none

/-- The region that the aggregation should hold for a code: the polygons of
the features with that code in encounter order, and the sums and the count
over those of them that have a centroid hint. -/
def regionOf (parseFloat : String → Option ℚ) (code : String) (features : List Feature) :
    Region :=
  { code := code
    polygons := (featuresOf code features).flatMap fun f => featureToPolygons f.geometry
    centerLonSum := (((featuresOf code features).filterMap (centerOf parseFloat)).map
      Prod.fst).sum
    centerLatSum := (((featuresOf code features).filterMap (centerOf parseFloat)).map
      Prod.snd).sum
    centerCount := ((featuresOf code features).filterMap (centerOf parseFloat)).length }

/-- Invariant of the aggregation loop after the features `seen`. -/
def AggInv (parseFloat : String → Option ℚ) (groups : List Region) (seen : List Feature) :
    Prop :=
  (groups.map fun g => g.code).Nodup ∧
    (∀ g ∈ groups, g = regionOf parseFloat g.code seen) ∧
    ∀ c, c ∈ (groups.map fun g => g.code) ↔ ∃ f ∈ seen, parsePlz2 f = some c

/-- A feature of the municipality `01067` with a polygon and numeric hints. -/
def sampleFeatureA : Feature :=
  { zip := some "01067", geometry := some (.polygon [[(13, 51), (14, 51), (14, 52)]]),
    center_lon := .number 13, center_lat := .number 51 }

/-- A feature of the municipality `80331` without hints. -/
def sampleFeatureB : Feature :=
  { zip := some "80331", geometry := some (.multiPolygon []),
    center_lon := .other, center_lat := .other }

/-! ## The font sizes of the ladder -/

/-- The font sizes that `findLabelPlacement` attempts, in the order it
attempts them: the values of the loop variable `fontSize` of its four loops,
`[8.6, 8.0, 7.4, 6.8]`, `[7.0, 6.6]`, `[6.2, 5.8, 5.2]`, `[4.8, 4.4, 4.0]`. -/
def attemptedFontSizes : List ℚ :=
  [8.6, 8.0, 7.4, 6.8] ++ [7.0, 6.6] ++ [6.2, 5.8, 5.2] ++ [4.8, 4.4, 4.0]

/-- What `findLabelPlacement` attempts at one font size: the body of the loop
that the font size belongs to. -/
def attemptAt (cosDeg sinDeg : ℕ → ℚ) (base : Point) (code : String)
    (placedBoxes : List LabelBox) (regionShape : RegionShape) (fontSize : ℚ) :
    Option Placement :=
  if fontSize ∈ ([8.6, 8.0, 7.4, 6.8] : List ℚ) then
    (radialSearch (labelOffsets cosDeg sinDeg) base code placedBoxes
        regionShape.projectedPolygons fontSize true).or
      (tryFindPlacementWithGrid base code placedBoxes regionShape.projectedPolygons
        regionShape.bounds fontSize true 5)
  else if fontSize ∈ ([7.0, 6.6] : List ℚ) then
    (radialSearch (labelOffsets cosDeg sinDeg) base code placedBoxes
        regionShape.projectedPolygons fontSize false).or
      (tryFindPlacementWithGrid base code placedBoxes regionShape.projectedPolygons
        regionShape.bounds fontSize false 5)
  else if fontSize ∈ ([6.2, 5.8, 5.2] : List ℚ) then
    tryFindPlacementWithGrid base code placedBoxes regionShape.projectedPolygons
      regionShape.bounds fontSize false 3
  else
    tryFindPlacementWithGrid base code placedBoxes regionShape.projectedPolygons
      regionShape.bounds fontSize false 2

/-! ## The edges visited by `pointInRing` -/

/-- The pairs `(ring[i], ring[j])` that the loop of `pointInRing` visits when
it is started on the points `l` with the previous point `pj`. -/
def loopEdges (pj : ℚ × ℚ) : List (ℚ × ℚ) → List ((ℚ × ℚ) × (ℚ × ℚ))
  | [] => []
  | p :: rest => (p, pj) :: loopEdges p rest

/-- The pairs `(ring[i], ring[j])` visited by `pointInRing` on a ring. -/
def ringEdges (ring : Ring) : List ((ℚ × ℚ) × (ℚ × ℚ)) :=
  loopEdges (ring.getLastD (0, 0)) ring

/-- The segment test of the loop body on a visited pair. -/
def onEdge (x y : ℚ) (e : (ℚ × ℚ) × (ℚ × ℚ)) : Bool :=
  isPointOnSegment x y e.1.1 e.1.2 e.2.1 e.2.2

/-- The value of `intersects` in the loop body on a visited pair. -/
def crossesEdge (x y : ℚ) (e : (ℚ × ℚ) × (ℚ × ℚ)) : Bool :=
  (decide (e.1.2 > y) != decide (e.2.2 > y)) &&
    decide (x < ((e.2.1 - e.1.1) * (y - e.1.2)) / (e.2.2 - e.1.2) + e.1.1)

/-- The answer of `pointInRing` read off the visited pairs: some pair passes
the segment test, or an odd number of pairs is crossed. -/
def edgesInside (x y : ℚ) (edges : List ((ℚ × ℚ) × (ℚ × ℚ))) : Bool :=
  edges.any (onEdge x y) || decide (edges.countP (crossesEdge x y) % 2 = 1)

/-! ## CSV lines -/

/-- The loop of `parseCsvLine` from the index `i` on: the first argument holds
`line[i], line[i+1], ...`; `result`, `current` and `inQuotes` are the three
variables of the source. -/
def parseCsvLoop : List Char → List String → List Char → Bool → List String
  | [], result, current, _ => result ++ [jsTrim (String.mk current)]
  | ch :: rest, result, current, inQuotes =>
    if ch = '"' then
      match rest with
      | next :: rest' =>
        if inQuotes = true ∧ next = '"' then
          parseCsvLoop rest' result (current ++ ['"']) inQuotes
        else parseCsvLoop (next :: rest') result current (!inQuotes)
      | [] => parseCsvLoop [] result current (!inQuotes)
    else if ch = ',' ∧ inQuotes = false then
      parseCsvLoop rest (result ++ [jsTrim (String.mk current)]) [] inQuotes
    else parseCsvLoop rest result (current ++ [ch]) inQuotes

/-- Source: `parseCsvLine(line)` of `build-contacts.mjs`. -/
def parseCsvLine (line : String) : List String :=
  parseCsvLoop line.toList [] [] false

/-- A field with every embedded double quote doubled. -/
def csvEscape (field : String) : List Char :=
  field.toList.flatMap fun c => if c = '"' then ['"', '"'] else [c]

/-- A field wrapped in double quotes, embedded double quotes doubled. -/
def csvQuote (field : String) : List Char :=
  '"' :: (csvEscape field ++ ['"'])

/-- The line written for a list of fields: the quoted fields joined with
commas. -/
def csvLine (fields : List String) : String :=
  String.mk (List.intercalate [','] (fields.map csvQuote))

/-! ## Double-precision arithmetic

The finite values of a JavaScript number are the rationals `mant * 2 ^ exp`
with at most 53 significant bits; every arithmetic operation returns the
exact result rounded to the nearest such value, ties to the even mantissa
(IEEE 754 binary64, round to nearest even).  Infinities, `NaN` and the sign of
zero are not represented: a result beyond the range of the doubles is kept
with its 53 bits, and a division by zero returns zero. -/

/-- A finite double `mant * 2 ^ exp`, kept with `mant` odd, or as `0 * 2 ^ 0`. -/
structure Dbl where
  mant : ℤ
  exp : ℤ
  deriving DecidableEq, Repr

namespace Dbl

/-- The rational value of a double. -/
def toRat (d : Dbl) : ℚ := (d.mant : ℚ) * (2 : ℚ) ^ d.exp

/-- The nearest integer to `num / den`, ties to the even one. -/
def roundHalfEven (num den : ℕ) : ℕ :=
  let k := num / den
  let r := num % den
  if 2 * r < den then k
  else if den < 2 * r then k + 1
  else if k % 2 = 0 then k else k + 1

/-- The number of binary digits of `v`, computed by halving; `fuel` bounds the
number of halvings and any `fuel >= v` suffices. -/
def bitLengthLoop : ℕ → ℕ → ℕ
  | 0, _ => 0
  | fuel + 1, v => if v = 0 then 0 else bitLengthLoop fuel (v / 2) + 1

/-- The number of binary digits of `n`: `2 ^ (bitLength n - 1) <= n < 2 ^ bitLength n`
for positive `n`. -/
def bitLength (n : ℕ) : ℕ := bitLengthLoop n n

/-- The integer `E` with `2 ^ E <= a / d < 2 ^ (E + 1)`, for positive `a`, `d`. -/
def floorLog2 (a d : ℕ) : ℤ :=
  let g : ℤ := (bitLength a : ℤ) - (bitLength d : ℤ)
  let below : Bool :=
    if 0 ≤ g then decide (d * 2 ^ g.toNat ≤ a) else decide (d ≤ a * 2 ^ (-g).toNat)
  if below then g else g - 1

/-- Moves the factors of two of a non-zero mantissa into the exponent; `fuel`
bounds the number of halvings. -/
def stripTwos : ℕ → ℤ → ℤ → Dbl
  | 0, mant, exp => ⟨mant, exp⟩
  | fuel + 1, mant, exp =>
    if mant % 2 = 0 then stripTwos fuel (mant / 2) (exp + 1) else ⟨mant, exp⟩

/-- The double `mant * 2 ^ exp` with the factors of two moved into the exponent. -/
def normalize (mant exp : ℤ) : Dbl :=
  if mant = 0 then ⟨0, 0⟩ else stripTwos mant.natAbs mant exp

/-- The double nearest to the rational `num / den`: 53 significant bits for a
normal number, the fixed quantum `2 ^ (-1074)` for a subnormal one. -/
def round (num : ℤ) (den : ℕ) : Dbl :=
  if num = 0 ∨ den = 0 then ⟨0, 0⟩
  else
    let a := num.natAbs
    let e : ℤ := if floorLog2 a den - 52 < -1074 then -1074 else floorLog2 a den - 52
    let k : ℕ :=
      if 0 ≤ e then roundHalfEven a (den * 2 ^ e.toNat)
      else roundHalfEven (a * 2 ^ (-e).toNat) den
    normalize (if num < 0 then -(k : ℤ) else (k : ℤ)) e

/-- The double nearest to the dyadic rational `mant * 2 ^ exp`. -/
def ofDyadic (mant exp : ℤ) : Dbl :=
  if 0 ≤ exp then round (mant * 2 ^ exp.toNat) 1 else round mant (2 ^ (-exp).toNat)

/-- Double addition: the exact sum, rounded. -/
def add (x y : Dbl) : Dbl :=
  let e := if x.exp ≤ y.exp then x.exp else y.exp
  ofDyadic (x.mant * 2 ^ (x.exp - e).toNat + y.mant * 2 ^ (y.exp - e).toNat) e

/-- Double negation (exact). -/
def neg (x : Dbl) : Dbl := ⟨-x.mant, x.exp⟩

/-- Double subtraction: the exact difference, rounded. -/
def sub (x y : Dbl) : Dbl := add x (neg y)

/-- Double multiplication: the exact product, rounded. -/
def mul (x y : Dbl) : Dbl := ofDyadic (x.mant * y.mant) (x.exp + y.exp)

/-- Double division: the exact quotient, rounded. -/
def div (x y : Dbl) : Dbl :=
  let s := x.exp - y.exp
  let num : ℤ := if y.mant < 0 then -x.mant else x.mant
  if 0 ≤ s then round (num * 2 ^ s.toNat) y.mant.natAbs
  else round num (y.mant.natAbs * 2 ^ (-s).toNat)

/-- The comparison `x < y` of two doubles. -/
def lt (x y : Dbl) : Bool :=
  let e := if x.exp ≤ y.exp then x.exp else y.exp
  decide (x.mant * 2 ^ (x.exp - e).toNat < y.mant * 2 ^ (y.exp - e).toNat)

/-- The JavaScript `Math.max(x, y)` on finite doubles. -/
def max (x y : Dbl) : Dbl := if lt x y then y else x

/-- The JavaScript `Math.min(x, y)` on finite doubles. -/
def min (x y : Dbl) : Dbl := if lt y x then y else x

/-- The comparison `x <= y` of two doubles. -/
def le (x y : Dbl) : Bool := !lt y x

/-- A non-negative integer as a double (`text.length`). -/
def ofNat (n : ℕ) : Dbl := round n 1

instance : Add Dbl := ⟨add⟩
instance : Sub Dbl := ⟨sub⟩
instance : Mul Dbl := ⟨mul⟩
instance : Div Dbl := ⟨div⟩
instance : Neg Dbl := ⟨neg⟩

/-- An integer literal of the source. -/
instance (n : ℕ) : OfNat Dbl n := ⟨round n 1⟩

/-- A decimal literal of the source, such as `0.72` or `8.6`: the double
nearest to the decimal value. -/
instance : OfScientific Dbl :=
  ⟨fun m s e => if s then round m (10 ^ e) else round (m * 10 ^ e) 1⟩

end Dbl


/-- Source: `Math.PI`, the double `3.141592653589793`. -/
def MATH_PI : Dbl := 3.141592653589793

/-- A label box whose fields are doubles. -/
structure LabelBoxDbl where
  left : Dbl
  right : Dbl
  top : Dbl
  bottom : Dbl
  deriving DecidableEq, Repr

/-- Source: `estimateLabelBox(x, y, text, fontSize)` in double arithmetic. -/
def estimateLabelBoxDbl (x y : Dbl) (text : String) (fontSize : Dbl) : LabelBoxDbl :=
  let width := Dbl.max 14 (Dbl.ofNat (jsLength text) * (fontSize * 0.72) + 6)
  let height := fontSize + 3
  { left := x - width / 2
    right := x + width / 2
    top := y - height + 1
    bottom := y + 1 }

/-- Source: `projectGeoPoint(lon, lat)` in double arithmetic; `tan` and `log`
are `Math.tan` and `Math.log`, functions from doubles to doubles. -/
def projectGeoPointDbl (tan log : Dbl → Dbl) (lon lat : Dbl) : PlanePoint Dbl :=
  let lonRad := (lon * MATH_PI) / 180
  let latRad := (lat * MATH_PI) / 180
  { x := lonRad
    y := log (tan (MATH_PI / 4 + latRad / 2)) }

/-- Source: `createProjector(bounds)` in double arithmetic, with
`VIEW_WIDTH = 860`, `VIEW_HEIGHT = 900` and `PADDING = 22`. -/
def createProjectorDbl (tan log : Dbl → Dbl) (bounds : PlaneBounds Dbl) :
    Dbl → Dbl → PlanePoint Dbl :=
  let xSpan := bounds.maxX - bounds.minX
  let ySpan := bounds.maxY - bounds.minY
  let scale := Dbl.min ((860 - 22 * 2) / xSpan) ((900 - 22 * 2) / ySpan)
  let drawWidth := xSpan * scale
  let drawHeight := ySpan * scale
  let offsetX := (860 - drawWidth) / 2
  let offsetY := (900 - drawHeight) / 2
  fun lon lat =>
    let point := projectGeoPointDbl tan log lon lat
    { x := offsetX + (point.x - bounds.minX) * scale
      y := offsetY + (bounds.maxY - point.y) * scale }

/-- The JavaScript `Math.abs(x)` on a finite double. -/
def Dbl.abs (x : Dbl) : Dbl := ⟨(x.mant.natAbs : ℤ), x.exp⟩

/-- Source: `isPointOnSegment(px, py, ax, ay, bx, by)` in double arithmetic. -/
def isPointOnSegmentDbl (px py ax ay bx by_ : Dbl) : Bool :=
  let cross := (px - ax) * (by_ - ay) - (py - ay) * (bx - ax)
  if Dbl.lt 0.001 (Dbl.abs cross) then false
  else
    let dot := (px - ax) * (px - bx) + (py - ay) * (py - by_)
    Dbl.le dot 0

/-- The loop of `pointInRing` in double arithmetic, with the same arguments as
`pointInRingLoop`. -/
def pointInRingLoopDbl (x y : Dbl) : List (Dbl × Dbl) → Dbl × Dbl → Bool → Bool
  | [], _, inside => inside
  | pi :: rest, pj, inside =>
    let xi := pi.1
    let yi := pi.2
    let xj := pj.1
    let yj := pj.2
    if isPointOnSegmentDbl x y xi yi xj yj then true
    else
      let intersects : Bool :=
        (Dbl.lt y yi != Dbl.lt y yj) &&
          Dbl.lt x (((xj - xi) * (y - yi)) / (yj - yi) + xi)
      pointInRingLoopDbl x y rest pi (if intersects then !inside else inside)

/-- Source: `pointInRing(x, y, ring)` in double arithmetic. -/
def pointInRingDbl (x y : Dbl) (ring : List (Dbl × Dbl)) : Bool :=
  pointInRingLoopDbl x y ring (ring.getLastD (0, 0)) false

/-- Bounds `{ minX: 0, maxX: 5.375, minY: -1/1024, maxY: 1/1024 }`. -/
def flatBoundsDbl : PlaneBounds Dbl :=
  { minX := 0, maxX := 5.375, minY := -(1 / 1024), maxY := 1 / 1024 }

/-- The value `0.9999999999999999` of `Math.tan` at `Math.PI / 4`, as a
constant function. -/
def tanQuarterPi : Dbl → Dbl := fun _ => ⟨9007199254740991, -53⟩

/-- The value `-1.1102230246251565e-16` of `Math.log` at
`0.9999999999999999`, as a constant function. -/
def logBelowOne : Dbl → Dbl := fun _ => ⟨-1, -53⟩

/-- Bounds `{ minX: 0, maxX: 1, minY: 0, maxY: 1 }`. -/
def unitBoundsDbl : PlaneBounds Dbl :=
  { minX := 0, maxX := 1, minY := 0, maxY := 1 }

/-! # Theorems -/

/-! ## Geometry primitives -/

/-- C10 (amended): over exact arithmetic (no rounding), the box returned by
`estimateLabelBox` has width `max(14, text.length * fontSize * 0.72 + 6)` and
height `fontSize + 3`, its bottom is `y + 1`, and it is horizontally centred
on `x`.  In double arithmetic the two differences are rounded and need not
equal the width and the height (`estimateLabelBoxDbl_sample`). -/
theorem estimateLabelBox_size (x y : ℚ) (text : String) (fontSize : ℚ) :
    (estimateLabelBox x y text fontSize).right - (estimateLabelBox x y text fontSize).left
        = max 14 ((jsLength text : ℚ) * fontSize * 0.72 + 6) ∧
      (estimateLabelBox x y text fontSize).bottom - (estimateLabelBox x y text fontSize).top
        = fontSize + 3 ∧
      (estimateLabelBox x y text fontSize).bottom = y + 1 ∧
      ((estimateLabelBox x y text fontSize).left + (estimateLabelBox x y text fontSize).right) / 2
        = x := by
  refine ⟨?_, ?_, ?_, ?_⟩
  · simp only [estimateLabelBox]
    rw [mul_assoc]; ring
  · simp only [estimateLabelBox]; ring
  · simp only [estimateLabelBox]
  · simp only [estimateLabelBox]; ring

theorem holesLoop_eq_true (x y : ℚ) (holes : List Ring) :
    holesLoop x y holes = true ↔ ∀ hole ∈ holes, pointInRing x y hole = false := by
  induction holes with
  | nil => simp [holesLoop]
  | cons hole rest ih =>
    simp only [holesLoop, List.mem_cons, forall_eq_or_imp]
    cases h : pointInRing x y hole <;> simp [ih]

/-- C5: `pointInProjectedPolygon` is true exactly when the polygon has at
least one ring, ring 0 contains the point and none of the rings `1..n` does;
a polygon with an empty ring list contains no point. -/
theorem pointInProjectedPolygon_iff (x y : ℚ) (polygon : Polygon) :
    (pointInProjectedPolygon x y polygon = true ↔
      1 ≤ polygon.length ∧
      (∃ outer, polygon[0]? = some outer ∧ pointInRing x y outer = true) ∧
      ∀ (i : ℕ) (hole : Ring), 1 ≤ i → polygon[i]? = some hole →
        pointInRing x y hole = false) ∧
    pointInProjectedPolygon x y [] = false := by
  refine ⟨?_, rfl⟩
  cases polygon with
  | nil => simp [pointInProjectedPolygon]
  | cons outer holes =>
    simp only [pointInProjectedPolygon, List.length_cons, List.getElem?_cons_zero,
      Option.some.injEq, exists_eq_left']
    cases h : pointInRing x y outer
    · simp
    · simp only [Bool.not_true, Bool.false_eq_true, ↓reduceIte, holesLoop_eq_true,
        le_add_iff_nonneg_left, zero_le, true_and]
      constructor
      · intro hall i hole hi hget
        obtain ⟨k, rfl⟩ : ∃ k, i = k + 1 := ⟨i - 1, by omega⟩
        rw [List.getElem?_cons_succ] at hget
        exact hall hole (List.getElem?_mem hget)
      · intro hall hole hmem
        obtain ⟨k, hk, rfl⟩ := List.getElem_of_mem hmem
        exact hall (k + 1) _ (by omega) (by simp [List.getElem?_eq_getElem hk])

theorem intersects_swap (x y xa ya xb yb : ℚ) (h : ya ≠ yb) :
    x < ((xb - xa) * (y - ya)) / (yb - ya) + xa ↔
      x < ((xa - xb) * (y - yb)) / (ya - yb) + xb := by
  have h1 : yb - ya ≠ 0 := sub_ne_zero.mpr (Ne.symm h)
  have h2 : ya - yb ≠ 0 := sub_ne_zero.mpr h
  have : ((xb - xa) * (y - ya)) / (yb - ya) + xa = ((xa - xb) * (y - yb)) / (ya - yb) + xb := by
    field_simp
    ring
  rw [this]

theorem isPointOnSegment_self (x y a b : ℚ) (h : isPointOnSegment x y a b a b = true) :
    x = a ∧ y = b := by
  simp only [isPointOnSegment] at h
  split_ifs at h with hc
  simp only [decide_eq_true_eq] at h
  have h1 : (x - a) * (x - a) + (y - b) * (y - b) ≤ 0 := h
  have hx : (x - a) = 0 := by nlinarith [mul_self_nonneg (x - a), mul_self_nonneg (y - b)]
  have hy : (y - b) = 0 := by nlinarith [mul_self_nonneg (x - a), mul_self_nonneg (y - b)]
  exact ⟨by linarith, by linarith⟩

theorem isPointOnSegment_at_endpoint (a b c d : ℚ) :
    isPointOnSegment a b a b c d = true := by
  simp [isPointOnSegment]
  norm_num

/-- C6 (amended): over exact arithmetic (no rounding), on a ring with fewer
than 3 points `pointInRing` is true exactly for the query points that
`isPointOnSegment` puts on a segment between two points of the ring (for a
single point: on that point), and false for every other query point.  In
double arithmetic the two crossing tests of a two-point ring can round
differently, and the statement does not extend to it
(`pointInRingDbl_two_point_sample`). -/
theorem pointInRing_short (x y : ℚ) (ring : Ring) (h : ring.length < 3) :
    pointInRing x y ring = true ↔
      ∃ a ∈ ring, ∃ b ∈ ring, isPointOnSegment x y a.1 a.2 b.1 b.2 = true := by
  match ring, h with
  | [], _ => simp [pointInRing, pointInRingLoop]
  | [a], _ =>
    simp only [pointInRing, pointInRingLoop, List.getLastD_cons, List.getLastD_nil,
      List.mem_singleton, exists_eq_left]
    cases h1 : isPointOnSegment x y a.1 a.2 a.1 a.2
    · simp
    · simp
  | [a, b], _ =>
    simp only [pointInRing, pointInRingLoop, List.getLastD_cons, List.getLastD_nil,
      List.mem_cons, List.mem_singleton, exists_eq_or_imp, exists_eq_left, List.not_mem_nil,
      false_and, exists_false, or_false]
    cases h1 : isPointOnSegment x y a.1 a.2 b.1 b.2
    · cases h2 : isPointOnSegment x y b.1 b.2 a.1 a.2
      · have h3 : isPointOnSegment x y a.1 a.2 a.1 a.2 = false := by
          cases h3 : isPointOnSegment x y a.1 a.2 a.1 a.2
          · rfl
          · obtain ⟨rfl, rfl⟩ := isPointOnSegment_self _ _ _ _ h3
            rw [isPointOnSegment_at_endpoint] at h1
            exact absurd h1 (by simp)
        have h4 : isPointOnSegment x y b.1 b.2 b.1 b.2 = false := by
          cases h4 : isPointOnSegment x y b.1 b.2 b.1 b.2
          · rfl
          · obtain ⟨rfl, rfl⟩ := isPointOnSegment_self _ _ _ _ h4
            rw [isPointOnSegment_at_endpoint] at h2
            exact absurd h2 (by simp)
        simp only [Bool.false_eq_true, ↓reduceIte, h3, h4, or_self, iff_false]
        by_cases hy : a.2 = b.2
        · simp [hy]
        · have hsw := intersects_swap x y a.1 a.2 b.1 b.2 hy
          by_cases hA : a.2 > y <;> by_cases hB : b.2 > y <;>
            by_cases hI : x < ((b.1 - a.1) * (y - a.2)) / (b.2 - a.2) + a.1 <;>
            simp [hA, hB, hI, ← hsw]
      · simp
    · simp

theorem unitSquare_contains (x y : ℚ) (hx0 : 0 ≤ x) (hx1 : x ≤ 10)
    (hy0 : 0 ≤ y) (hy1 : y ≤ 10) :
    pointInProjectedPolygon x y unitSquare = true := by
  simp only [unitSquare, pointInProjectedPolygon, holesLoop, pointInRing, pointInRingLoop,
    List.getLastD_cons, List.getLastD_nil]
  rcases eq_or_lt_of_le hy1 with rfl | hy
  · -- on the top edge
    have h : isPointOnSegment x 10 10 10 0 10 = true := by
      simp only [isPointOnSegment]
      norm_num
      nlinarith
    simp [h]
  · rcases eq_or_lt_of_le hx1 with rfl | hx
    · have h : isPointOnSegment 10 y 10 0 10 10 = true := by
        simp only [isPointOnSegment]
        norm_num
        nlinarith
      simp [h]
    · have hny : ¬ (0 > y) := not_lt.mpr hy0
      have hnx : ¬ (x < 0) := not_lt.mpr hx0
      simp [hny, hnx, hy, hx]

theorem unitSquare_outside :
    pointInProjectedPolygon (-1) 5 unitSquare = false := by
  simp [unitSquare, pointInProjectedPolygon, holesLoop, pointInRing, pointInRingLoop,
    isPointOnSegment]
  norm_num [abs_of_nonneg, abs_of_neg]

/-! ## Radial search and grid scan -/

theorem not_insideMargins_iff (box : LabelBox) :
    (box.left < PADDING ∨ box.right > VIEW_WIDTH - PADDING ∨
      box.top < PADDING ∨ box.bottom > VIEW_HEIGHT - PADDING) ↔ ¬ insideMargins box := by
  unfold insideMargins
  constructor
  · rintro (h | h | h | h) ⟨h1, h2, h3, h4⟩ <;> linarith
  · intro h
    by_contra hc
    push_neg at hc
    exact h ⟨hc.1, hc.2.1, hc.2.2.1, hc.2.2.2⟩

/-- The three guards of a candidate, read as one test. -/
theorem candidate_checks {α : Type} (code : String) (placedBoxes : List LabelBox)
    (projectedPolygons : List Polygon) (fontSize : ℚ) (strict : Bool) (x y : ℚ)
    (skip accept : α) :
    (if (estimateLabelBox x y code fontSize).left < PADDING ∨
          (estimateLabelBox x y code fontSize).right > VIEW_WIDTH - PADDING ∨
          (estimateLabelBox x y code fontSize).top < PADDING ∨
          (estimateLabelBox x y code fontSize).bottom > VIEW_HEIGHT - PADDING then skip
      else if (!isBoxInsideRegion (estimateLabelBox x y code fontSize) projectedPolygons strict)
          = true then skip
      else if overlapsAny (estimateLabelBox x y code fontSize) placedBoxes = true then skip
      else accept) =
    if acceptable code placedBoxes projectedPolygons fontSize strict x y then accept
    else skip := by
  by_cases h1 : insideMargins (estimateLabelBox x y code fontSize)
  · rw [if_neg (fun h => (not_insideMargins_iff _).mp h h1)]
    cases h2 : isBoxInsideRegion (estimateLabelBox x y code fontSize) projectedPolygons strict
    · rw [if_pos (by simp), if_neg]
      intro h
      rw [h.2.1] at h2
      exact absurd h2 (by simp)
    · rw [if_neg (by simp)]
      cases h3 : overlapsAny (estimateLabelBox x y code fontSize) placedBoxes
      · rw [if_neg (by simp), if_pos ⟨h1, h2, h3⟩]
      · rw [if_pos rfl, if_neg]
        intro h
        rw [h.2.2] at h3
        exact absurd h3 (by simp)
  · rw [if_pos ((not_insideMargins_iff _).mpr h1), if_neg (fun h => h1 h.1)]

theorem radialSearch_eq_findSome (offsets : List Offset) (base : Point) (code : String)
    (placedBoxes : List LabelBox) (projectedPolygons : List Polygon)
    (fontSize : ℚ) (strict : Bool) :
    radialSearch offsets base code placedBoxes projectedPolygons fontSize strict =
      offsets.findSome? fun offset =>
        if acceptable code placedBoxes projectedPolygons fontSize strict
            (base.x + offset.dx) (base.y + offset.dy) then
          some (placementAt code fontSize (base.x + offset.dx) (base.y + offset.dy))
        else none := by
  unfold radialSearch
  congr 1
  funext offset
  exact candidate_checks code placedBoxes projectedPolygons fontSize strict _ _ _ _

theorem radialSearch_eq_none_iff (offsets : List Offset) (base : Point) (code : String)
    (placedBoxes : List LabelBox) (projectedPolygons : List Polygon)
    (fontSize : ℚ) (strict : Bool) :
    radialSearch offsets base code placedBoxes projectedPolygons fontSize strict = none ↔
      ∀ offset ∈ offsets, ¬ acceptable code placedBoxes projectedPolygons fontSize strict
        (base.x + offset.dx) (base.y + offset.dy) := by
  rw [radialSearch_eq_findSome, List.findSome?_eq_none_iff]
  constructor
  · intro h o ho hacc
    have := h o ho
    simp [hacc] at this
  · intro h o ho
    simp [h o ho]

theorem radialSearch_eq_some (offsets : List Offset) (base : Point) (code : String)
    (placedBoxes : List LabelBox) (projectedPolygons : List Polygon)
    (fontSize : ℚ) (strict : Bool) (p : Placement)
    (h : radialSearch offsets base code placedBoxes projectedPolygons fontSize strict = some p) :
    ∃ offset ∈ offsets,
      acceptable code placedBoxes projectedPolygons fontSize strict
        (base.x + offset.dx) (base.y + offset.dy) ∧
      p = placementAt code fontSize (base.x + offset.dx) (base.y + offset.dy) := by
  rw [radialSearch_eq_findSome] at h
  obtain ⟨o, ho, hf⟩ := List.exists_of_findSome?_eq_some h
  refine ⟨o, ho, ?_⟩
  by_cases hacc : acceptable code placedBoxes projectedPolygons fontSize strict
      (base.x + o.dx) (base.y + o.dy)
  · simp only [hacc, ↓reduceIte, Option.some.injEq] at hf
    exact ⟨hacc, hf.symm⟩
  · simp [hacc] at hf

theorem gridBody_eq (base : Point) (code : String) (placedBoxes : List LabelBox)
    (projectedPolygons : List Polygon) (fontSize : ℚ) (strict : Bool)
    (best : Option Placement × Option ℚ) (x y : ℚ) :
    gridBody base code placedBoxes projectedPolygons fontSize strict best x y =
      if acceptable code placedBoxes projectedPolygons fontSize strict x y then
        (if (match best.2 with
              | none => true
              | some bestDistance => decide (sqDist base x y < bestDistance)) = true then
          (some (placementAt code fontSize x y), some (sqDist base x y))
        else best)
      else best := by
  unfold gridBody
  exact candidate_checks code placedBoxes projectedPolygons fontSize strict x y _ _

theorem gridBest_step (base : Point) (code : String) (placedBoxes : List LabelBox)
    (projectedPolygons : List Polygon) (fontSize : ℚ) (strict : Bool)
    (seen : List (ℚ × ℚ)) (s : Option Placement × Option ℚ) (c : ℚ × ℚ)
    (h : GridBest (fun c => acceptable code placedBoxes projectedPolygons fontSize strict c.1 c.2)
      (fun c => sqDist base c.1 c.2) (fun c => placementAt code fontSize c.1 c.2) seen s) :
    GridBest (fun c => acceptable code placedBoxes projectedPolygons fontSize strict c.1 c.2)
      (fun c => sqDist base c.1 c.2) (fun c => placementAt code fontSize c.1 c.2)
      (seen ++ [c])
      (gridBody base code placedBoxes projectedPolygons fontSize strict s c.1 c.2) := by
  rw [gridBody_eq]
  by_cases hacc : acceptable code placedBoxes projectedPolygons fontSize strict c.1 c.2
  · rw [if_pos hacc]
    rcases h with ⟨rfl, hnone⟩ | ⟨l1, c0, l2, rfl, hok, rfl, hlt, hle⟩
    · right
      refine ⟨seen, c, [], rfl, hacc, by simp, ?_, by simp⟩
      intro b hb hbok
      exact absurd hbok (hnone b hb)
    · by_cases hcl : sqDist base c.1 c.2 < sqDist base c0.1 c0.2
      · right
        refine ⟨l1 ++ c0 :: l2, c, [], rfl, hacc, by simp [hcl], ?_, by simp⟩
        intro b hb hbok
        rcases List.mem_append.mp hb with hb | hb
        · exact lt_trans hcl (hlt b hb hbok)
        · rcases List.mem_cons.mp hb with rfl | hb
          · exact hcl
          · exact lt_of_lt_of_le hcl (hle b hb hbok)
      · right
        refine ⟨l1, c0, l2 ++ [c], by simp, hok, by simp [hcl], hlt, ?_⟩
        intro b hb hbok
        rcases List.mem_append.mp hb with hb | hb
        · exact hle b hb hbok
        · rw [List.mem_singleton] at hb
          subst hb
          exact not_lt.mp hcl
  · rw [if_neg hacc]
    rcases h with ⟨rfl, hnone⟩ | ⟨l1, c0, l2, rfl, hok, rfl, hlt, hle⟩
    · left
      refine ⟨rfl, ?_⟩
      intro b hb
      rcases List.mem_append.mp hb with hb | hb
      · exact hnone b hb
      · rw [List.mem_singleton] at hb
        subst hb
        exact hacc
    · right
      refine ⟨l1, c0, l2 ++ [c], by simp, hok, rfl, hlt, ?_⟩
      intro b hb hbok
      rcases List.mem_append.mp hb with hb | hb
      · exact hle b hb hbok
      · rw [List.mem_singleton] at hb
        subst hb
        exact absurd hbok hacc

theorem gridBest_foldl (base : Point) (code : String) (placedBoxes : List LabelBox)
    (projectedPolygons : List Polygon) (fontSize : ℚ) (strict : Bool)
    (cells seen : List (ℚ × ℚ)) (s : Option Placement × Option ℚ)
    (h : GridBest (fun c => acceptable code placedBoxes projectedPolygons fontSize strict c.1 c.2)
      (fun c => sqDist base c.1 c.2) (fun c => placementAt code fontSize c.1 c.2) seen s) :
    GridBest (fun c => acceptable code placedBoxes projectedPolygons fontSize strict c.1 c.2)
      (fun c => sqDist base c.1 c.2) (fun c => placementAt code fontSize c.1 c.2)
      (seen ++ cells)
      (cells.foldl
        (fun best c => gridBody base code placedBoxes projectedPolygons fontSize strict
          best c.1 c.2) s) := by
  induction cells generalizing seen s with
  | nil => simpa using h
  | cons c rest ih =>
    have := ih (seen ++ [c]) _ (gridBest_step base code placedBoxes projectedPolygons
      fontSize strict seen s c h)
    simpa using this

theorem nested_foldl_eq {σ : Type} (g : σ → ℚ → ℚ → σ) (xs ys : List ℚ) (s : σ) :
    ys.foldl (fun best y => xs.foldl (fun best x => g best x y) best) s =
      (ys.flatMap fun y => xs.map fun x => (x, y)).foldl (fun best c => g best c.1 c.2) s := by
  induction ys generalizing s with
  | nil => rfl
  | cons y rest ih =>
    simp only [List.foldl_cons, List.flatMap_cons, List.foldl_append, List.foldl_map]
    exact ih _

theorem tryFindPlacementWithGrid_eq_foldl (base : Point) (code : String)
    (placedBoxes : List LabelBox) (projectedPolygons : List Polygon)
    (bounds : Bounds) (fontSize : ℚ) (strict : Bool) (step : ℚ) :
    tryFindPlacementWithGrid base code placedBoxes projectedPolygons bounds fontSize strict step =
      ((gridCells bounds step).foldl
        (fun best c => gridBody base code placedBoxes projectedPolygons fontSize strict
          best c.1 c.2) (none, none)).1 := by
  unfold tryFindPlacementWithGrid gridCells
  simp only []
  rw [nested_foldl_eq]
  rfl

theorem tryFindPlacementWithGrid_best (base : Point) (code : String)
    (placedBoxes : List LabelBox) (projectedPolygons : List Polygon)
    (bounds : Bounds) (fontSize : ℚ) (strict : Bool) (step : ℚ) :
    (tryFindPlacementWithGrid base code placedBoxes projectedPolygons bounds fontSize strict step
        = none ∧
      ∀ c ∈ gridCells bounds step,
        ¬ acceptable code placedBoxes projectedPolygons fontSize strict c.1 c.2) ∨
    ∃ l1 c l2, gridCells bounds step = l1 ++ c :: l2 ∧
      acceptable code placedBoxes projectedPolygons fontSize strict c.1 c.2 ∧
      tryFindPlacementWithGrid base code placedBoxes projectedPolygons bounds fontSize strict step
        = some (placementAt code fontSize c.1 c.2) ∧
      (∀ b ∈ l1, acceptable code placedBoxes projectedPolygons fontSize strict b.1 b.2 →
        sqDist base c.1 c.2 < sqDist base b.1 b.2) ∧
      (∀ b ∈ l2, acceptable code placedBoxes projectedPolygons fontSize strict b.1 b.2 →
        sqDist base c.1 c.2 ≤ sqDist base b.1 b.2) := by
  have h := gridBest_foldl base code placedBoxes projectedPolygons fontSize strict
    (gridCells bounds step) [] (none, none) (Or.inl ⟨rfl, by simp⟩)
  rw [tryFindPlacementWithGrid_eq_foldl]
  rw [List.nil_append] at h
  rcases h with ⟨h1, h2⟩ | ⟨l1, c, l2, h1, h2, h3, h4, h5⟩
  · left
    exact ⟨by rw [h1], h2⟩
  · right
    exact ⟨l1, c, l2, h1, h2, by rw [h3], h4, h5⟩

theorem mem_forRange (lo hi step v : ℚ) (hstep : 0 < step) :
    v ∈ forRange lo hi step ↔ ∃ k : ℕ, v = lo + (k : ℚ) * step ∧ v ≤ hi := by
  unfold forRange
  split_ifs with hle
  · have hq : 0 ≤ (hi - lo) / step := div_nonneg (sub_nonneg.mpr hle) hstep.le
    have hfl : 0 ≤ ⌊(hi - lo) / step⌋ := Int.floor_nonneg.mpr hq
    simp only [List.mem_map, List.mem_range]
    constructor
    · rintro ⟨k, hk, rfl⟩
      refine ⟨k, rfl, ?_⟩
      have h1 : (k : ℤ) ≤ ⌊(hi - lo) / step⌋ := by
        have : k ≤ ⌊(hi - lo) / step⌋.toNat := Nat.lt_succ_iff.mp hk
        exact (Int.le_toNat hfl).mp this
      have h2 : (k : ℚ) ≤ (hi - lo) / step := by
        have := Int.le_floor.mp h1
        simpa using this
      have h3 := (le_div_iff₀ hstep).mp h2
      linarith
    · rintro ⟨k, rfl, hk⟩
      refine ⟨k, ?_, rfl⟩
      have h2 : (k : ℚ) ≤ (hi - lo) / step := by
        rw [le_div_iff₀ hstep]; linarith
      have h1 : (k : ℤ) ≤ ⌊(hi - lo) / step⌋ := Int.le_floor.mpr (by simpa using h2)
      exact Nat.lt_succ_iff.mpr ((Int.le_toNat hfl).mpr h1)
  · simp only [List.not_mem_nil, false_iff, not_exists, not_and]
    rintro k rfl
    have : 0 ≤ (k : ℚ) * step := mul_nonneg (Nat.cast_nonneg k) hstep.le
    push_neg at hle ⊢
    linarith

theorem forRange_pairwise (lo hi step : ℚ) (hstep : 0 < step) :
    (forRange lo hi step).Pairwise (· < ·) := by
  unfold forRange
  split_ifs
  · rw [List.pairwise_map]
    refine (List.pairwise_lt_range _).imp ?_
    intro a b hab
    have : (a : ℚ) < (b : ℚ) := Nat.cast_lt.mpr hab
    have := mul_lt_mul_of_pos_right this hstep
    linarith
  · exact List.Pairwise.nil

theorem mem_gridCells (bounds : Bounds) (step : ℚ) (hstep : 0 < step) (c : ℚ × ℚ) :
    c ∈ gridCells bounds step ↔ IsGridCell bounds step c.1 c.2 := by
  unfold gridCells IsGridCell
  simp only [List.mem_flatMap, List.mem_map, mem_forRange _ _ _ _ hstep]
  constructor
  · rintro ⟨y, ⟨j, rfl, hj⟩, x, ⟨i, rfl, hi⟩, rfl⟩
    exact ⟨i, j, rfl, rfl, hi, hj⟩
  · rintro ⟨i, j, hx, hy, hxle, hyle⟩
    refine ⟨c.2, ⟨j, hy, hyle⟩, c.1, ⟨i, hx, hxle⟩, rfl⟩

theorem gridCells_pairwise (bounds : Bounds) (step : ℚ) (hstep : 0 < step) :
    (gridCells bounds step).Pairwise
      (fun a b => a.2 < b.2 ∨ (a.2 = b.2 ∧ a.1 < b.1)) := by
  unfold gridCells
  rw [List.pairwise_flatMap]
  constructor
  · intro y _
    rw [List.pairwise_map]
    refine (forRange_pairwise _ _ _ hstep).imp ?_
    intro a b hab
    exact Or.inr ⟨rfl, hab⟩
  · refine (forRange_pairwise _ _ _ hstep).imp ?_
    intro y1 y2 hy a ha b hb
    simp only [List.mem_map] at ha hb
    obtain ⟨_, _, rfl⟩ := ha
    obtain ⟨_, _, rfl⟩ := hb
    exact Or.inl hy

/-- C9: the grid scan returns `null` exactly when no grid cell is acceptable;
otherwise it returns an acceptable grid cell whose squared distance to the
anchor is minimal among the acceptable grid cells, and strictly smaller than
that of every acceptable cell visited earlier in the row-major scan (rows `j`
outside, columns `i` inside), so ties go to the first cell. -/
theorem tryFindPlacementWithGrid_optimal (base : Point) (code : String)
    (placedBoxes : List LabelBox) (projectedPolygons : List Polygon)
    (bounds : Bounds) (fontSize : ℚ) (strict : Bool) (step : ℚ) (hstep : 0 < step) :
    (tryFindPlacementWithGrid base code placedBoxes projectedPolygons bounds fontSize strict step
        = none ↔
      ∀ i j : ℕ, gridMinX bounds + i * step ≤ gridMaxX bounds →
        gridMinY bounds + j * step ≤ gridMaxY bounds →
        ¬ acceptable code placedBoxes projectedPolygons fontSize strict
          (gridMinX bounds + i * step) (gridMinY bounds + j * step)) ∧
    (∀ p, tryFindPlacementWithGrid base code placedBoxes projectedPolygons bounds fontSize
        strict step = some p →
      ∃ i j : ℕ, gridMinX bounds + i * step ≤ gridMaxX bounds ∧
        gridMinY bounds + j * step ≤ gridMaxY bounds ∧
        acceptable code placedBoxes projectedPolygons fontSize strict
          (gridMinX bounds + i * step) (gridMinY bounds + j * step) ∧
        p = placementAt code fontSize (gridMinX bounds + i * step) (gridMinY bounds + j * step) ∧
        ∀ i' j' : ℕ, gridMinX bounds + i' * step ≤ gridMaxX bounds →
          gridMinY bounds + j' * step ≤ gridMaxY bounds →
          acceptable code placedBoxes projectedPolygons fontSize strict
            (gridMinX bounds + i' * step) (gridMinY bounds + j' * step) →
          sqDist base (gridMinX bounds + i * step) (gridMinY bounds + j * step) ≤
              sqDist base (gridMinX bounds + i' * step) (gridMinY bounds + j' * step) ∧
            ((j' < j ∨ (j' = j ∧ i' < i)) →
              sqDist base (gridMinX bounds + i * step) (gridMinY bounds + j * step) <
                sqDist base (gridMinX bounds + i' * step) (gridMinY bounds + j' * step))) := by
  have hmem : ∀ i j : ℕ, gridMinX bounds + i * step ≤ gridMaxX bounds →
      gridMinY bounds + j * step ≤ gridMaxY bounds →
      (gridMinX bounds + i * step, gridMinY bounds + j * step) ∈ gridCells bounds step := by
    intro i j hi hj
    exact (mem_gridCells bounds step hstep _).mpr ⟨i, j, rfl, rfl, hi, hj⟩
  rcases tryFindPlacementWithGrid_best base code placedBoxes projectedPolygons bounds fontSize
    strict step with ⟨hnone, hall⟩ | ⟨l1, c, l2, hcells, hok, hsome, hlt, hle⟩
  · refine ⟨⟨fun _ i j hi hj => hall _ (hmem i j hi hj), fun _ => hnone⟩, ?_⟩
    intro p hp
    rw [hnone] at hp
    exact absurd hp (by simp)
  · have hc : c ∈ gridCells bounds step := by rw [hcells]; simp
    obtain ⟨i, j, hcx, hcy, hxle, hyle⟩ := (mem_gridCells bounds step hstep c).mp hc
    have hpw := gridCells_pairwise bounds step hstep
    rw [hcells, List.pairwise_append] at hpw
    obtain ⟨_, hpw2, _⟩ := hpw
    have hafter := (List.pairwise_cons.mp hpw2).1
    constructor
    · constructor
      · intro h
        rw [hsome] at h
        exact absurd h (by simp)
      · intro h
        exact absurd hok (by rw [hcx, hcy]; exact h i j (hcx ▸ hxle) (hcy ▸ hyle))
    · intro p hp
      rw [hsome] at hp
      have hp' : p = placementAt code fontSize c.1 c.2 := (Option.some.inj hp).symm
      have key : ∀ b ∈ gridCells bounds step,
          acceptable code placedBoxes projectedPolygons fontSize strict b.1 b.2 →
          sqDist base c.1 c.2 ≤ sqDist base b.1 b.2 ∧
            ((b.2 < c.2 ∨ (b.2 = c.2 ∧ b.1 < c.1)) →
              sqDist base c.1 c.2 < sqDist base b.1 b.2) := by
        intro b hb hacc'
        rw [hcells] at hb
        constructor
        · rcases List.mem_append.mp hb with hb | hb
          · exact (hlt b hb hacc').le
          · rcases List.mem_cons.mp hb with hb | hb
            · rw [hb]
            · exact hle b hb hacc'
        · intro hlex'
          rcases List.mem_append.mp hb with hb | hb
          · exact hlt b hb hacc'
          · exfalso
            rcases List.mem_cons.mp hb with hb | hb
            · rw [hb] at hlex'
              rcases hlex' with h | ⟨_, h⟩ <;> exact lt_irrefl _ h
            · have h2 := hafter b hb
              rcases hlex' with h | ⟨h, h'⟩ <;> rcases h2 with g | ⟨g, g'⟩ <;> linarith
      refine ⟨i, j, hcx ▸ hxle, hcy ▸ hyle, hcx ▸ hcy ▸ hok, by rw [hp', hcx, hcy], ?_⟩
      intro i' j' hi' hj' hacc'
      have hk := key (gridMinX bounds + i' * step, gridMinY bounds + j' * step)
        (hmem i' j' hi' hj') hacc'
      rw [hcx, hcy] at hk
      refine ⟨hk.1, fun hlex => hk.2 ?_⟩
      rcases hlex with h | ⟨h1, h2⟩
      · left
        have : (j' : ℚ) < (j : ℚ) := Nat.cast_lt.mpr h
        have := mul_lt_mul_of_pos_right this hstep
        show gridMinY bounds + j' * step < gridMinY bounds + j * step
        linarith
      · right
        subst h1
        refine ⟨rfl, ?_⟩
        have : (i' : ℚ) < (i : ℚ) := Nat.cast_lt.mpr h2
        have := mul_lt_mul_of_pos_right this hstep
        show gridMinX bounds + i' * step < gridMinX bounds + i * step
        linarith

/-! ## The ladder of `findLabelPlacement` -/

theorem tryFindPlacementWithGrid_eq_some (base : Point) (code : String)
    (placedBoxes : List LabelBox) (projectedPolygons : List Polygon)
    (bounds : Bounds) (fontSize : ℚ) (strict : Bool) (step : ℚ) (p : Placement)
    (h : tryFindPlacementWithGrid base code placedBoxes projectedPolygons bounds fontSize
      strict step = some p) :
    ∃ x y, acceptable code placedBoxes projectedPolygons fontSize strict x y ∧
      p = placementAt code fontSize x y := by
  rcases tryFindPlacementWithGrid_best base code placedBoxes projectedPolygons bounds fontSize
    strict step with ⟨hnone, _⟩ | ⟨l1, c, l2, _, hok, hsome, _, _⟩
  · rw [hnone] at h; exact absurd h (by simp)
  · rw [hsome] at h
    exact ⟨c.1, c.2, hok, (Option.some.inj h).symm⟩

theorem tryFindPlacementWithGrid_eq_none_iff (base : Point) (code : String)
    (placedBoxes : List LabelBox) (projectedPolygons : List Polygon)
    (bounds : Bounds) (fontSize : ℚ) (strict : Bool) (step : ℚ) (hstep : 0 < step) :
    tryFindPlacementWithGrid base code placedBoxes projectedPolygons bounds fontSize
      strict step = none ↔
    ∀ x y, IsGridCell bounds step x y →
      ¬ acceptable code placedBoxes projectedPolygons fontSize strict x y := by
  rcases tryFindPlacementWithGrid_best base code placedBoxes projectedPolygons bounds fontSize
    strict step with ⟨hnone, hall⟩ | ⟨l1, c, l2, hcells, hok, hsome, _, _⟩
  · refine ⟨fun _ x y hxy => ?_, fun _ => hnone⟩
    exact hall (x, y) ((mem_gridCells bounds step hstep (x, y)).mpr hxy)
  · constructor
    · intro h; rw [hsome] at h; exact absurd h (by simp)
    · intro h
      have hc : c ∈ gridCells bounds step := by rw [hcells]; simp
      exact absurd hok (h c.1 c.2 ((mem_gridCells bounds step hstep c).mp hc))

/-- A rung of the ladder that runs the radial search and then the grid scan. -/
theorem rung_eq_some (offsets : List Offset) (base : Point) (code : String)
    (placedBoxes : List LabelBox) (projectedPolygons : List Polygon)
    (bounds : Bounds) (fontSize : ℚ) (strict : Bool) (step : ℚ) (p : Placement)
    (h : (radialSearch offsets base code placedBoxes projectedPolygons fontSize strict).or
      (tryFindPlacementWithGrid base code placedBoxes projectedPolygons bounds fontSize
        strict step) = some p) :
    ∃ x y, acceptable code placedBoxes projectedPolygons fontSize strict x y ∧
      p = placementAt code fontSize x y := by
  rcases Option.or_eq_some.mp h with h | ⟨_, h⟩
  · obtain ⟨o, _, hacc, hp⟩ := radialSearch_eq_some _ _ _ _ _ _ _ _ h
    exact ⟨_, _, hacc, hp⟩
  · exact tryFindPlacementWithGrid_eq_some _ _ _ _ _ _ _ _ _ h

/-- Every placement returned by `findLabelPlacement` is an accepted candidate
of one of the four tiers. -/
theorem findLabelPlacement_eq_some (cosDeg sinDeg : ℕ → ℚ) (base : Point) (code : String)
    (placedBoxes : List LabelBox) (regionShape : RegionShape) (p : Placement)
    (h : findLabelPlacement cosDeg sinDeg base code placedBoxes regionShape = some p) :
    ∃ fontSize strict x y,
      acceptable code placedBoxes regionShape.projectedPolygons fontSize strict x y ∧
      p = placementAt code fontSize x y ∧
      ((fontSize ∈ ([8.6, 8.0, 7.4, 6.8] : List ℚ) ∧ strict = true) ∨
        (fontSize ∈ ([7.0, 6.6, 6.2, 5.8, 5.2, 4.8, 4.4, 4.0] : List ℚ) ∧ strict = false)) := by
  unfold findLabelPlacement at h
  simp only [] at h
  rcases Option.or_eq_some.mp h with h | ⟨_, h⟩
  · rcases Option.or_eq_some.mp h with h | ⟨_, h⟩
    · rcases Option.or_eq_some.mp h with h | ⟨_, h⟩
      · obtain ⟨fs, hfs, hf⟩ := List.exists_of_findSome?_eq_some h
        obtain ⟨x, y, hacc, hp⟩ := rung_eq_some _ _ _ _ _ _ _ _ _ _ hf
        exact ⟨fs, true, x, y, hacc, hp, Or.inl ⟨hfs, rfl⟩⟩
      · obtain ⟨fs, hfs, hf⟩ := List.exists_of_findSome?_eq_some h
        obtain ⟨x, y, hacc, hp⟩ := rung_eq_some _ _ _ _ _ _ _ _ _ _ hf
        refine ⟨fs, false, x, y, hacc, hp, Or.inr ⟨?_, rfl⟩⟩
        simp only [List.mem_cons, List.mem_singleton, List.not_mem_nil, or_false] at hfs ⊢
        tauto
    · obtain ⟨fs, hfs, hf⟩ := List.exists_of_findSome?_eq_some h
      obtain ⟨x, y, hacc, hp⟩ := tryFindPlacementWithGrid_eq_some _ _ _ _ _ _ _ _ _ hf
      refine ⟨fs, false, x, y, hacc, hp, Or.inr ⟨?_, rfl⟩⟩
      simp only [List.mem_cons, List.mem_singleton, List.not_mem_nil, or_false] at hfs ⊢
      tauto
  · obtain ⟨fs, hfs, hf⟩ := List.exists_of_findSome?_eq_some h
    obtain ⟨x, y, hacc, hp⟩ := tryFindPlacementWithGrid_eq_some _ _ _ _ _ _ _ _ _ hf
    refine ⟨fs, false, x, y, hacc, hp, Or.inr ⟨?_, rfl⟩⟩
    simp only [List.mem_cons, List.mem_singleton, List.not_mem_nil, or_false] at hfs ⊢
    tauto

/-- C2: whenever `findLabelPlacement` returns a placement, its box lies within
the canvas margins: `left >= 22`, `right <= 838`, `top >= 22`, `bottom <= 878`. -/
theorem findLabelPlacement_margins (cosDeg sinDeg : ℕ → ℚ) (base : Point) (code : String)
    (placedBoxes : List LabelBox) (regionShape : RegionShape) (p : Placement)
    (h : findLabelPlacement cosDeg sinDeg base code placedBoxes regionShape = some p) :
    22 ≤ p.box.left ∧ p.box.right ≤ 838 ∧ 22 ≤ p.box.top ∧ p.box.bottom ≤ 878 := by
  obtain ⟨fs, strict, x, y, hacc, rfl, _⟩ := findLabelPlacement_eq_some _ _ _ _ _ _ _ h
  have hm := hacc.1
  unfold insideMargins PADDING VIEW_WIDTH VIEW_HEIGHT at hm
  simp only [placementAt]
  refine ⟨hm.1, ?_, hm.2.2.1, ?_⟩
  · have := hm.2.1; norm_num at this; exact this
  · have := hm.2.2.2; norm_num at this; exact this

/-- C3: every placement returned by `findLabelPlacement` has its box centre
inside the region, and when its font size is one of the strict-tier sizes
8.6, 8.0, 7.4, 6.8 the four points 1 unit inside the left, right, top and
bottom edge midpoints are inside the region as well. -/
theorem findLabelPlacement_contained (cosDeg sinDeg : ℕ → ℚ) (base : Point) (code : String)
    (placedBoxes : List LabelBox) (regionShape : RegionShape) (p : Placement)
    (h : findLabelPlacement cosDeg sinDeg base code placedBoxes regionShape = some p) :
    pointInProjectedRegion ((p.box.left + p.box.right) / 2) ((p.box.top + p.box.bottom) / 2)
        regionShape.projectedPolygons = true ∧
    (p.fontSize ∈ ([8.6, 8.0, 7.4, 6.8] : List ℚ) →
      pointInProjectedRegion (p.box.left + 1) ((p.box.top + p.box.bottom) / 2)
          regionShape.projectedPolygons = true ∧
      pointInProjectedRegion (p.box.right - 1) ((p.box.top + p.box.bottom) / 2)
          regionShape.projectedPolygons = true ∧
      pointInProjectedRegion ((p.box.left + p.box.right) / 2) (p.box.top + 1)
          regionShape.projectedPolygons = true ∧
      pointInProjectedRegion ((p.box.left + p.box.right) / 2) (p.box.bottom - 1)
          regionShape.projectedPolygons = true) := by
  obtain ⟨fs, strict, x, y, hacc, rfl, htier⟩ := findLabelPlacement_eq_some _ _ _ _ _ _ _ h
  have hin := hacc.2.1
  simp only [placementAt]
  rcases htier with ⟨_, rfl⟩ | ⟨hfs, rfl⟩
  · simp only [isBoxInsideRegion, ↓reduceIte, List.all_cons, List.all_nil, Bool.and_true,
      Bool.and_eq_true] at hin
    exact ⟨hin.1, fun _ => hin.2⟩
  · simp only [isBoxInsideRegion, Bool.false_eq_true, ↓reduceIte, List.all_cons, List.all_nil,
      Bool.and_true] at hin
    refine ⟨hin, fun hmem => ?_⟩
    exfalso
    simp only [List.mem_cons, List.mem_singleton, List.not_mem_nil, or_false] at hfs hmem
    rcases hfs with rfl | rfl | rfl | rfl | rfl | rfl | rfl | rfl <;> norm_num at hmem

/-- C8: when the candidate at the anchor itself is acceptable at font size 8.6
under the strict containment test, `findLabelPlacement` returns exactly that
candidate: `x = base.x`, `y = base.y`, `fontSize = 8.6` and its box. -/
theorem findLabelPlacement_anchor_first (cosDeg sinDeg : ℕ → ℚ) (base : Point) (code : String)
    (placedBoxes : List LabelBox) (regionShape : RegionShape)
    (h : acceptable code placedBoxes regionShape.projectedPolygons 8.6 true base.x base.y) :
    findLabelPlacement cosDeg sinDeg base code placedBoxes regionShape =
      some { x := base.x, y := base.y,
             box := estimateLabelBox base.x base.y code 8.6, fontSize := 8.6 } := by
  have hr : radialSearch (labelOffsets cosDeg sinDeg) base code placedBoxes
      regionShape.projectedPolygons 8.6 true = some (placementAt code 8.6 base.x base.y) := by
    rw [radialSearch_eq_findSome]
    simp only [labelOffsets, buildCandidateOffsets, List.findSome?_cons, add_zero, h, ↓reduceIte]
  unfold findLabelPlacement
  simp only [List.findSome?_cons, hr, Option.or]
  rfl

/-! ## The placement pass -/

theorem overlapsAny_singleton_comm (a b : LabelBox) :
    overlapsAny a [b] = overlapsAny b [a] := by
  simp only [overlapsAny, List.any_cons, List.any_nil, Bool.or_false]
  by_cases h1 : a.left < b.right <;> by_cases h2 : a.right > b.left <;>
    by_cases h3 : a.top < b.bottom <;> by_cases h4 : a.bottom > b.top <;>
    simp [h1, h2, h3, h4]

theorem overlapsAny_eq_false_iff (box : LabelBox) (placedBoxes : List LabelBox) :
    overlapsAny box placedBoxes = false ↔
      ∀ other ∈ placedBoxes, overlapsAny box [other] = false := by
  simp only [overlapsAny, List.any_eq_false, List.any_cons, List.any_nil, Bool.or_false]
  constructor
  · intro h other ho; simpa using h other ho
  · intro h other ho; simpa using h other ho

/-- Invariant of the label loop: a placed-box list in which no later box
overlaps an earlier one stays so. -/
theorem placementLoop_pairwise (cosDeg sinDeg : ℕ → ℚ) (sortedLabels : List LabelCandidate)
    (placedBoxes : List LabelBox)
    (h : placedBoxes.Pairwise fun earlier later => overlapsAny later [earlier] = false) :
    (placementLoop cosDeg sinDeg placedBoxes sortedLabels).Pairwise
      fun earlier later => overlapsAny later [earlier] = false := by
  induction sortedLabels generalizing placedBoxes with
  | nil => exact h
  | cons candidate rest ih =>
    unfold placementLoop
    rw [List.foldl_cons]
    apply ih
    cases hres : findLabelPlacement cosDeg sinDeg candidate.base candidate.code placedBoxes
        candidate.toRegionShape with
    | none => exact h
    | some placement =>
      simp only
      rw [List.pairwise_append]
      refine ⟨h, List.pairwise_singleton _ _, ?_⟩
      intro a ha b hb
      rw [List.mem_singleton] at hb
      subst hb
      obtain ⟨fs, strict, x, y, hacc, rfl, _⟩ := findLabelPlacement_eq_some _ _ _ _ _ _ _ hres
      exact (overlapsAny_eq_false_iff _ _).mp hacc.2.2 a ha

theorem findLabelPlacement_of_anchor (cosDeg sinDeg : ℕ → ℚ) (base : Point) (code : String)
    (placedBoxes : List LabelBox) (regionShape : RegionShape)
    (h : acceptable code placedBoxes regionShape.projectedPolygons 8.6 true base.x base.y) :
    findLabelPlacement cosDeg sinDeg base code placedBoxes regionShape =
      some (placementAt code 8.6 base.x base.y) := by
  have hr : radialSearch (labelOffsets cosDeg sinDeg) base code placedBoxes
      regionShape.projectedPolygons 8.6 true = some (placementAt code 8.6 base.x base.y) := by
    rw [radialSearch_eq_findSome]
    simp only [labelOffsets, buildCandidateOffsets, List.findSome?_cons, add_zero, h, ↓reduceIte]
  unfold findLabelPlacement
  simp only [List.findSome?_cons, hr, Option.or]

theorem jsLength_01 : jsLength "01" = 2 := by decide

theorem jsLength_02 : jsLength "02" = 2 := by decide

theorem acceptable_square_01 :
    acceptable "01" [] (squareShape 50 150).projectedPolygons 8.6 true 100 100 := by
  simp only [acceptable, insideMargins, estimateLabelBox, jsLength_01, isBoxInsideRegion,
    squareShape, pointInProjectedRegion, pointInProjectedPolygon, holesLoop, pointInRing,
    pointInRingLoop, isPointOnSegment, overlapsAny, PADDING, VIEW_WIDTH, VIEW_HEIGHT]
  norm_num [abs_of_nonneg, abs_of_neg]

theorem acceptable_square_02 :
    acceptable "02" [estimateLabelBox 100 100 "01" 8.6]
      (squareShape 200 300).projectedPolygons 8.6 true 250 250 := by
  simp only [acceptable, insideMargins, estimateLabelBox, jsLength_01, jsLength_02,
    isBoxInsideRegion, squareShape, pointInProjectedRegion, pointInProjectedPolygon, holesLoop,
    pointInRing, pointInRingLoop, isPointOnSegment, overlapsAny, PADDING, VIEW_WIDTH,
    VIEW_HEIGHT]
  norm_num [abs_of_nonneg, abs_of_neg]

theorem findLabelPlacement_square_01 :
    findLabelPlacement (fun _ => 0) (fun _ => 0) ⟨100, 100⟩ "01" [] (squareShape 50 150) =
      some (placementAt "01" 8.6 100 100) :=
  findLabelPlacement_of_anchor _ _ ⟨100, 100⟩ "01" [] (squareShape 50 150) acceptable_square_01

theorem placementPass_twoSquares :
    placementPass (fun _ => 0) (fun _ => 0) twoSquares =
      [estimateLabelBox 100 100 "01" 8.6, estimateLabelBox 250 250 "02" 8.6] := by
  simp only [placementPass, placementLoop, twoSquares, List.foldl_cons, List.foldl_nil]
  rw [findLabelPlacement_square_01]
  simp only [List.nil_append, placementAt]
  rw [findLabelPlacement_of_anchor _ _ ⟨250, 250⟩ "02" _ (squareShape 200 300)
    acceptable_square_02]
  rfl

/-- C1: after a placement pass started from the empty placed-box list, any two
boxes at distinct positions of the final placed-box list do not overlap in the
sense of `overlapsAny`. -/
theorem placementPass_no_overlap (cosDeg sinDeg : ℕ → ℚ) (sortedLabels : List LabelCandidate)
    (i j : ℕ) (a b : LabelBox) (hij : i ≠ j)
    (hi : (placementPass cosDeg sinDeg sortedLabels)[i]? = some a)
    (hj : (placementPass cosDeg sinDeg sortedLabels)[j]? = some b) :
    overlapsAny a [b] = false := by
  have hpw := placementLoop_pairwise cosDeg sinDeg sortedLabels [] List.Pairwise.nil
  rw [List.pairwise_iff_get] at hpw
  obtain ⟨hi', rfl⟩ := List.getElem?_eq_some.mp hi
  obtain ⟨hj', rfl⟩ := List.getElem?_eq_some.mp hj
  rcases Nat.lt_or_gt_of_ne hij with hlt | hgt
  · have := hpw ⟨i, hi'⟩ ⟨j, hj'⟩ hlt
    rw [overlapsAny_singleton_comm]
    exact this
  · exact hpw ⟨j, hj'⟩ ⟨i, hi'⟩ hgt

theorem placementPass_no_overlap_witness :
    ((0 : ℕ) ≠ 1 ∧
      (placementPass (fun _ => 0) (fun _ => 0) twoSquares)[0]?
        = some (estimateLabelBox 100 100 "01" 8.6) ∧
      (placementPass (fun _ => 0) (fun _ => 0) twoSquares)[1]?
        = some (estimateLabelBox 250 250 "02" 8.6)) ∧
    overlapsAny (estimateLabelBox 100 100 "01" 8.6) [estimateLabelBox 250 250 "02" 8.6]
      = false :=
  ⟨⟨by decide, by rw [placementPass_twoSquares]; rfl, by rw [placementPass_twoSquares]; rfl⟩,
    placementPass_no_overlap (fun _ => 0) (fun _ => 0) twoSquares 0 1 _ _ (by decide)
      (by rw [placementPass_twoSquares]; rfl) (by rw [placementPass_twoSquares]; rfl)⟩

/-! ## The order of the ladder -/

theorem findLabelPlacement_eq_ladder (cosDeg sinDeg : ℕ → ℚ) (base : Point) (code : String)
    (placedBoxes : List LabelBox) (regionShape : RegionShape) :
    findLabelPlacement cosDeg sinDeg base code placedBoxes regionShape =
      ladder.findSome? (runRung cosDeg sinDeg base code placedBoxes regionShape) := by
  have hor : ∀ a b : Option Placement, a.or b = match a with | some x => some x | none => b := by
    intro a b; cases a <;> rfl
  unfold findLabelPlacement ladder
  simp only [List.findSome?_cons, List.findSome?_nil, runRung, hor]
  repeat' split
  all_goals first | rfl | simp_all

theorem rung_eq_none_iff (offsets : List Offset) (base : Point) (code : String)
    (placedBoxes : List LabelBox) (projectedPolygons : List Polygon)
    (bounds : Bounds) (fontSize : ℚ) (strict : Bool) (step : ℚ) (hstep : 0 < step) :
    (radialSearch offsets base code placedBoxes projectedPolygons fontSize strict).or
      (tryFindPlacementWithGrid base code placedBoxes projectedPolygons bounds fontSize
        strict step) = none ↔
    (∀ offset ∈ offsets, ¬ acceptable code placedBoxes projectedPolygons fontSize strict
        (base.x + offset.dx) (base.y + offset.dy)) ∧
      ∀ x y, IsGridCell bounds step x y →
        ¬ acceptable code placedBoxes projectedPolygons fontSize strict x y := by
  rw [Option.or_eq_none, radialSearch_eq_none_iff,
    tryFindPlacementWithGrid_eq_none_iff _ _ _ _ _ _ _ _ hstep]

/-- The first two tiers yield nothing exactly when no tier-1/2 candidate is
acceptable. -/
theorem tiers_one_two_none_iff (cosDeg sinDeg : ℕ → ℚ) (base : Point) (code : String)
    (placedBoxes : List LabelBox) (regionShape : RegionShape) :
    ((([8.6, 8.0, 7.4, 6.8] : List ℚ).findSome? fun fontSize =>
        (radialSearch (labelOffsets cosDeg sinDeg) base code placedBoxes
            regionShape.projectedPolygons fontSize true).or
          (tryFindPlacementWithGrid base code placedBoxes regionShape.projectedPolygons
            regionShape.bounds fontSize true 5)) = none ∧
      (([7.0, 6.6] : List ℚ).findSome? fun fontSize =>
        (radialSearch (labelOffsets cosDeg sinDeg) base code placedBoxes
            regionShape.projectedPolygons fontSize false).or
          (tryFindPlacementWithGrid base code placedBoxes regionShape.projectedPolygons
            regionShape.bounds fontSize false 5)) = none) ↔
    noTierOneTwoCandidate cosDeg sinDeg base code placedBoxes regionShape := by
  unfold noTierOneTwoCandidate
  rw [List.findSome?_eq_none_iff, List.findSome?_eq_none_iff]
  constructor
  · rintro ⟨h1, h2⟩
    exact ⟨fun fs hfs => (rung_eq_none_iff _ _ _ _ _ _ _ _ _ (by norm_num)).mp (h1 fs hfs),
      fun fs hfs => (rung_eq_none_iff _ _ _ _ _ _ _ _ _ (by norm_num)).mp (h2 fs hfs)⟩
  · rintro ⟨h1, h2⟩
    exact ⟨fun fs hfs => (rung_eq_none_iff _ _ _ _ _ _ _ _ _ (by norm_num)).mpr (h1 fs hfs),
      fun fs hfs => (rung_eq_none_iff _ _ _ _ _ _ _ _ _ (by norm_num)).mpr (h2 fs hfs)⟩

theorem tier_three_of_result (cosDeg sinDeg : ℕ → ℚ) (base : Point) (code : String)
    (placedBoxes : List LabelBox) (regionShape : RegionShape) (p : Placement)
    (h : findLabelPlacement cosDeg sinDeg base code placedBoxes regionShape = some p)
    (hfs : p.fontSize ∈ ([6.2, 5.8, 5.2] : List ℚ)) :
    noTierOneTwoCandidate cosDeg sinDeg base code placedBoxes regionShape := by
  rw [← tiers_one_two_none_iff]
  unfold findLabelPlacement at h
  simp only [] at h
  have hne : ∀ (fss : List ℚ) (q : Placement) (f : ℚ → Option Placement),
      (∀ fs p, f fs = some p → p.fontSize = fs) → fss.findSome? f = some q →
      q.fontSize ∈ fss := by
    intro fss q f hf hq
    obtain ⟨fs, hmem, hfq⟩ := List.exists_of_findSome?_eq_some hq
    rw [hf fs q hfq]; exact hmem
  have hrung : ∀ (strict : Bool) (fs : ℚ) (q : Placement),
      (radialSearch (labelOffsets cosDeg sinDeg) base code placedBoxes
          regionShape.projectedPolygons fs strict).or
        (tryFindPlacementWithGrid base code placedBoxes regionShape.projectedPolygons
          regionShape.bounds fs strict 5) = some q → q.fontSize = fs := by
    intro strict fs q hq
    obtain ⟨x, y, _, rfl⟩ := rung_eq_some _ _ _ _ _ _ _ _ _ _ hq
    rfl
  constructor
  · cases h1 : ([8.6, 8.0, 7.4, 6.8] : List ℚ).findSome? fun fontSize =>
        (radialSearch (labelOffsets cosDeg sinDeg) base code placedBoxes
            regionShape.projectedPolygons fontSize true).or
          (tryFindPlacementWithGrid base code placedBoxes regionShape.projectedPolygons
            regionShape.bounds fontSize true 5) with
    | none => rfl
    | some q =>
      exfalso
      rw [h1] at h
      simp only [Option.or, Option.some.injEq] at h
      subst h
      have := hne _ _ _ (hrung true) h1
      simp only [List.mem_cons, List.mem_singleton, List.not_mem_nil, or_false] at hfs this
      rcases this with h | h | h | h <;> rw [h] at hfs <;> norm_num at hfs
  · cases h2 : ([7.0, 6.6] : List ℚ).findSome? fun fontSize =>
        (radialSearch (labelOffsets cosDeg sinDeg) base code placedBoxes
            regionShape.projectedPolygons fontSize false).or
          (tryFindPlacementWithGrid base code placedBoxes regionShape.projectedPolygons
            regionShape.bounds fontSize false 5) with
    | none => rfl
    | some q =>
      exfalso
      rw [h2] at h
      have hq : q.fontSize ∈ ([7.0, 6.6] : List ℚ) := hne _ _ _ (hrung false) h2
      cases h1 : ([8.6, 8.0, 7.4, 6.8] : List ℚ).findSome? fun fontSize =>
          (radialSearch (labelOffsets cosDeg sinDeg) base code placedBoxes
              regionShape.projectedPolygons fontSize true).or
            (tryFindPlacementWithGrid base code placedBoxes regionShape.projectedPolygons
              regionShape.bounds fontSize true 5) with
      | none =>
        rw [h1] at h
        simp only [Option.or, Option.some.injEq] at h
        subst h
        simp only [List.mem_cons, List.mem_singleton, List.not_mem_nil, or_false] at hfs hq
        rcases hq with h | h <;> rw [h] at hfs <;> norm_num at hfs
      | some q1 =>
        rw [h1] at h
        simp only [Option.or, Option.some.injEq] at h
        subst h
        have := hne _ _ _ (hrung true) h1
        simp only [List.mem_cons, List.mem_singleton, List.not_mem_nil, or_false] at hfs this
        rcases this with h | h | h | h <;> rw [h] at hfs <;> norm_num at hfs

theorem result_of_tier_three (cosDeg sinDeg : ℕ → ℚ) (base : Point) (code : String)
    (placedBoxes : List LabelBox) (regionShape : RegionShape)
    (hno : noTierOneTwoCandidate cosDeg sinDeg base code placedBoxes regionShape)
    (hex : ∃ fontSize ∈ ([6.2, 5.8, 5.2] : List ℚ), ∃ x y,
      IsGridCell regionShape.bounds 3 x y ∧
      acceptable code placedBoxes regionShape.projectedPolygons fontSize false x y) :
    ∃ p, findLabelPlacement cosDeg sinDeg base code placedBoxes regionShape = some p ∧
      p.fontSize ∈ ([6.2, 5.8, 5.2] : List ℚ) := by
  obtain ⟨h1, h2⟩ := (tiers_one_two_none_iff _ _ _ _ _ _).mpr hno
  obtain ⟨fs, hfs, x, y, hcell, hacc⟩ := hex
  cases h3 : ([6.2, 5.8, 5.2] : List ℚ).findSome? fun fontSize =>
      tryFindPlacementWithGrid base code placedBoxes regionShape.projectedPolygons
        regionShape.bounds fontSize false 3 with
  | none =>
    exfalso
    rw [List.findSome?_eq_none_iff] at h3
    exact (tryFindPlacementWithGrid_eq_none_iff _ _ _ _ _ _ _ _ (by norm_num)).mp (h3 fs hfs)
      x y hcell hacc
  | some p =>
    refine ⟨p, ?_, ?_⟩
    · unfold findLabelPlacement
      simp only [h1, h2, h3]
      rfl
    · obtain ⟨fs', hmem, hf⟩ := List.exists_of_findSome?_eq_some h3
      obtain ⟨x', y', _, rfl⟩ := tryFindPlacementWithGrid_eq_some _ _ _ _ _ _ _ _ _ hf
      exact hmem

/-- C7: `findLabelPlacement` runs the rungs of the degradation ladder in the
fixed order and returns the result of the first rung that finds a placement.
So a returned placement with a tier-3 font size (6.2, 5.8, 5.2) means that no
radial offset and no step-5 grid cell was acceptable at any tier-1 or tier-2
font size; and when no tier-1/2 candidate is acceptable but some cell of the
step-3 grid is acceptable at a tier-3 font size, the result is a placement
with a tier-3 font size (not `null`, not a tier-4 one). -/
theorem findLabelPlacement_ladder_order (cosDeg sinDeg : ℕ → ℚ) (base : Point) (code : String)
    (placedBoxes : List LabelBox) (regionShape : RegionShape) :
    findLabelPlacement cosDeg sinDeg base code placedBoxes regionShape =
        ladder.findSome? (runRung cosDeg sinDeg base code placedBoxes regionShape) ∧
    (∀ p, findLabelPlacement cosDeg sinDeg base code placedBoxes regionShape = some p →
      p.fontSize ∈ ([6.2, 5.8, 5.2] : List ℚ) →
      noTierOneTwoCandidate cosDeg sinDeg base code placedBoxes regionShape) ∧
    (noTierOneTwoCandidate cosDeg sinDeg base code placedBoxes regionShape →
      (∃ fontSize ∈ ([6.2, 5.8, 5.2] : List ℚ), ∃ x y,
        IsGridCell regionShape.bounds 3 x y ∧
        acceptable code placedBoxes regionShape.projectedPolygons fontSize false x y) →
      ∃ p, findLabelPlacement cosDeg sinDeg base code placedBoxes regionShape = some p ∧
        p.fontSize ∈ ([6.2, 5.8, 5.2] : List ℚ)) :=
  ⟨findLabelPlacement_eq_ladder _ _ _ _ _ _,
    fun p h hfs => tier_three_of_result _ _ _ _ _ _ p h hfs,
    fun hno hex => result_of_tier_three _ _ _ _ _ _ hno hex⟩

theorem labelOffsets_zero (o : Offset) (h : o ∈ labelOffsets (fun _ => 0) (fun _ => 0)) :
    o = ⟨0, 0⟩ := by
  simp only [labelOffsets, buildCandidateOffsets, List.mem_cons, List.mem_flatMap, List.mem_map,
    zero_mul] at h
  rcases h with h | ⟨_, _, _, _, h⟩
  · exact h
  · exact h.symm

theorem not_acceptable_origin (code : String) (placedBoxes : List LabelBox)
    (projectedPolygons : List Polygon) (fontSize : ℚ) (strict : Bool) :
    ¬ acceptable code placedBoxes projectedPolygons fontSize strict 0 0 := by
  intro h
  have h1 := h.1.1
  simp only [estimateLabelBox, PADDING] at h1
  have : (14 : ℚ) ≤ max 14 ((jsLength code : ℚ) * (fontSize * 0.72) + 6) := le_max_left _ _
  linarith

theorem sliver_gridMin : gridMinX sliverShape.bounds = 100 ∧ gridMinY sliverShape.bounds = 100 ∧
    gridMaxX sliverShape.bounds = 103 ∧ gridMaxY sliverShape.bounds = 103 := by
  simp [gridMinX, gridMinY, gridMaxX, gridMaxY, sliverShape, PADDING, VIEW_WIDTH, VIEW_HEIGHT]
  norm_num

theorem sliver_cell_five (x y : ℚ) (h : IsGridCell sliverShape.bounds 5 x y) :
    x = 100 ∧ y = 100 := by
  obtain ⟨i, j, hx, hy, hxle, hyle⟩ := h
  obtain ⟨h1, h2, h3, h4⟩ := sliver_gridMin
  rw [h1] at hx; rw [h2] at hy; rw [h3] at hxle; rw [h4] at hyle
  have hi : i = 0 := by
    have : (i : ℚ) < 1 := by linarith
    have : i < 1 := by exact_mod_cast this
    omega
  have hj : j = 0 := by
    have : (j : ℚ) < 1 := by linarith
    have : j < 1 := by exact_mod_cast this
    omega
  subst hi hj
  simp at hx hy
  exact ⟨hx, hy⟩

theorem sliver_not_acceptable (fontSize : ℚ) (strict : Bool)
    (hfs : fontSize ∈ ([8.6, 8.0, 7.4, 6.8, 7.0, 6.6] : List ℚ)) :
    ¬ acceptable "01" [] sliverShape.projectedPolygons fontSize strict 100 100 := by
  intro h
  have hin := h.2.1
  have hc : pointInProjectedRegion
      (((estimateLabelBox 100 100 "01" fontSize).left +
        (estimateLabelBox 100 100 "01" fontSize).right) / 2)
      (((estimateLabelBox 100 100 "01" fontSize).top +
        (estimateLabelBox 100 100 "01" fontSize).bottom) / 2)
      sliverShape.projectedPolygons = true := by
    cases strict
    · simpa only [isBoxInsideRegion, Bool.false_eq_true, ↓reduceIte, List.all_cons,
        List.all_nil, Bool.and_true] using hin
    · simp only [isBoxInsideRegion, ↓reduceIte, List.all_cons, List.all_nil, Bool.and_true,
        Bool.and_eq_true] at hin
      exact hin.1
  simp only [List.mem_cons, List.mem_singleton, List.not_mem_nil, or_false] at hfs
  rcases hfs with rfl | rfl | rfl | rfl | rfl | rfl <;>
  · simp only [estimateLabelBox, jsLength_01, sliverShape, pointInProjectedRegion,
      pointInProjectedPolygon, holesLoop, pointInRing, pointInRingLoop, isPointOnSegment,
      List.getLastD_cons, List.getLastD_nil] at hc
    norm_num [abs_of_nonneg, abs_of_neg] at hc

theorem sliver_noTierOneTwo :
    noTierOneTwoCandidate (fun _ => 0) (fun _ => 0) ⟨0, 0⟩ "01" [] sliverShape := by
  constructor
  · intro fs hfs
    constructor
    · intro o ho
      rw [labelOffsets_zero o ho]
      simpa using not_acceptable_origin "01" [] sliverShape.projectedPolygons fs true
    · intro x y hxy
      obtain ⟨rfl, rfl⟩ := sliver_cell_five x y hxy
      apply sliver_not_acceptable
      simp only [List.mem_cons, List.mem_singleton, List.not_mem_nil, or_false] at hfs ⊢
      tauto
  · intro fs hfs
    constructor
    · intro o ho
      rw [labelOffsets_zero o ho]
      simpa using not_acceptable_origin "01" [] sliverShape.projectedPolygons fs false
    · intro x y hxy
      obtain ⟨rfl, rfl⟩ := sliver_cell_five x y hxy
      apply sliver_not_acceptable
      simp only [List.mem_cons, List.mem_singleton, List.not_mem_nil, or_false] at hfs ⊢
      tauto

theorem sliver_tier_three :
    ∃ fontSize ∈ ([6.2, 5.8, 5.2] : List ℚ), ∃ x y,
      IsGridCell sliverShape.bounds 3 x y ∧
      acceptable "01" [] sliverShape.projectedPolygons fontSize false x y := by
  refine ⟨6.2, by simp, 103, 103, ⟨1, 1, ?_, ?_, ?_, ?_⟩, ?_⟩
  · rw [sliver_gridMin.1]; norm_num
  · rw [sliver_gridMin.2.1]; norm_num
  · rw [sliver_gridMin.2.2.1]
  · rw [sliver_gridMin.2.2.2]
  · simp only [acceptable, insideMargins, estimateLabelBox, jsLength_01, isBoxInsideRegion,
      sliverShape, pointInProjectedRegion, pointInProjectedPolygon, holesLoop, pointInRing,
      pointInRingLoop, isPointOnSegment, overlapsAny, PADDING, VIEW_WIDTH, VIEW_HEIGHT]
    norm_num [abs_of_nonneg, abs_of_neg]

theorem findLabelPlacement_ladder_order_witness :
    noTierOneTwoCandidate (fun _ => 0) (fun _ => 0) ⟨0, 0⟩ "01" [] sliverShape ∧
    (∃ fontSize ∈ ([6.2, 5.8, 5.2] : List ℚ), ∃ x y,
      IsGridCell sliverShape.bounds 3 x y ∧
      acceptable "01" [] sliverShape.projectedPolygons fontSize false x y) ∧
    ∃ p, findLabelPlacement (fun _ => 0) (fun _ => 0) ⟨0, 0⟩ "01" [] sliverShape = some p ∧
      p.fontSize ∈ ([6.2, 5.8, 5.2] : List ℚ) :=
  ⟨sliver_noTierOneTwo, sliver_tier_three,
    (findLabelPlacement_ladder_order (fun _ => 0) (fun _ => 0) ⟨0, 0⟩ "01" []
      sliverShape).2.2 sliver_noTierOneTwo sliver_tier_three⟩

/-! ## Closing statements and instances -/

/-- C4: the square polygon `[(0,0),(0,10),(10,10),(10,0)]` contains every
point of the closed square `0 <= x <= 10`, `0 <= y <= 10` (interior, edges and
corners) and does not contain `(-1, 5)`. -/
theorem pointInProjectedPolygon_unitSquare :
    (∀ x y : ℚ, 0 ≤ x → x ≤ 10 → 0 ≤ y → y ≤ 10 →
      pointInProjectedPolygon x y unitSquare = true) ∧
    pointInProjectedPolygon (-1) 5 unitSquare = false :=
  ⟨unitSquare_contains, unitSquare_outside⟩

theorem pointInProjectedPolygon_unitSquare_witness :
    pointInProjectedPolygon 5 5 unitSquare = true ∧
    pointInProjectedPolygon 0 5 unitSquare = true :=
  ⟨pointInProjectedPolygon_unitSquare.1 5 5 (by norm_num) (by norm_num) (by norm_num)
      (by norm_num),
    pointInProjectedPolygon_unitSquare.1 0 5 (by norm_num) (by norm_num) (by norm_num)
      (by norm_num)⟩

/-- C6 (as stated, refuted): a one-point ring contains its own point and a
two-point ring contains the points of its segment. -/
theorem pointInRing_short_counterexample :
    (([(0, 0)] : Ring).length < 3 ∧ pointInRing 0 0 [(0, 0)] = true) ∧
    (([(0, 0), (10, 0)] : Ring).length < 3 ∧ pointInRing 5 0 [(0, 0), (10, 0)] = true) := by
  refine ⟨⟨by decide, ?_⟩, ⟨by decide, ?_⟩⟩
  · simp [pointInRing, pointInRingLoop, isPointOnSegment]
    norm_num
  · simp [pointInRing, pointInRingLoop, isPointOnSegment]
    norm_num

theorem pointInRing_short_witness :
    ([(0, 0), (10, 0)] : Ring).length < 3 ∧
    (pointInRing 5 1 [(0, 0), (10, 0)] = true ↔
      ∃ a ∈ ([(0, 0), (10, 0)] : Ring), ∃ b ∈ ([(0, 0), (10, 0)] : Ring),
        isPointOnSegment 5 1 a.1 a.2 b.1 b.2 = true) :=
  ⟨by decide, pointInRing_short 5 1 [(0, 0), (10, 0)] (by decide)⟩

theorem findLabelPlacement_margins_witness :
    findLabelPlacement (fun _ => 0) (fun _ => 0) ⟨100, 100⟩ "01" [] (squareShape 50 150) =
        some (placementAt "01" 8.6 100 100) ∧
    (22 ≤ (placementAt "01" 8.6 100 100).box.left ∧
      (placementAt "01" 8.6 100 100).box.right ≤ 838 ∧
      22 ≤ (placementAt "01" 8.6 100 100).box.top ∧
      (placementAt "01" 8.6 100 100).box.bottom ≤ 878) :=
  ⟨findLabelPlacement_square_01,
    findLabelPlacement_margins (fun _ => 0) (fun _ => 0) ⟨100, 100⟩ "01" []
      (squareShape 50 150) _ findLabelPlacement_square_01⟩

theorem findLabelPlacement_contained_witness :
    findLabelPlacement (fun _ => 0) (fun _ => 0) ⟨100, 100⟩ "01" [] (squareShape 50 150) =
        some (placementAt "01" 8.6 100 100) ∧
    (placementAt "01" 8.6 100 100).fontSize ∈ ([8.6, 8.0, 7.4, 6.8] : List ℚ) ∧
    pointInProjectedRegion
      (((placementAt "01" 8.6 100 100).box.left + (placementAt "01" 8.6 100 100).box.right) / 2)
      (((placementAt "01" 8.6 100 100).box.top + (placementAt "01" 8.6 100 100).box.bottom) / 2)
      (squareShape 50 150).projectedPolygons = true ∧
    pointInProjectedRegion ((placementAt "01" 8.6 100 100).box.left + 1)
      (((placementAt "01" 8.6 100 100).box.top + (placementAt "01" 8.6 100 100).box.bottom) / 2)
      (squareShape 50 150).projectedPolygons = true :=
  ⟨findLabelPlacement_square_01, by simp [placementAt],
    (findLabelPlacement_contained (fun _ => 0) (fun _ => 0) ⟨100, 100⟩ "01" []
      (squareShape 50 150) _ findLabelPlacement_square_01).1,
    ((findLabelPlacement_contained (fun _ => 0) (fun _ => 0) ⟨100, 100⟩ "01" []
      (squareShape 50 150) _ findLabelPlacement_square_01).2 (by simp [placementAt])).1⟩

theorem findLabelPlacement_anchor_first_witness :
    acceptable "01" [] (squareShape 50 150).projectedPolygons 8.6 true 100 100 ∧
    findLabelPlacement (fun _ => 0) (fun _ => 0) ⟨100, 100⟩ "01" [] (squareShape 50 150) =
      some { x := 100, y := 100, box := estimateLabelBox 100 100 "01" 8.6, fontSize := 8.6 } :=
  ⟨acceptable_square_01,
    findLabelPlacement_anchor_first (fun _ => 0) (fun _ => 0) ⟨100, 100⟩ "01" []
      (squareShape 50 150) acceptable_square_01⟩

theorem sliver_acceptable :
    acceptable "01" [] sliverShape.projectedPolygons 6.2 false
      (gridMinX sliverShape.bounds + (1 : ℕ) * 3) (gridMinY sliverShape.bounds + (1 : ℕ) * 3) := by
  rw [sliver_gridMin.1, sliver_gridMin.2.1]
  simp only [acceptable, insideMargins, estimateLabelBox, jsLength_01, isBoxInsideRegion,
    sliverShape, pointInProjectedRegion, pointInProjectedPolygon, holesLoop, pointInRing,
    pointInRingLoop, isPointOnSegment, overlapsAny, PADDING, VIEW_WIDTH, VIEW_HEIGHT]
  norm_num [abs_of_nonneg, abs_of_neg]

theorem tryFindPlacementWithGrid_optimal_witness :
    (0 : ℚ) < 3 ∧
    ∃ p, tryFindPlacementWithGrid ⟨0, 0⟩ "01" [] sliverShape.projectedPolygons
        sliverShape.bounds 6.2 false 3 = some p ∧
      ∃ i j : ℕ,
        acceptable "01" [] sliverShape.projectedPolygons 6.2 false
          (gridMinX sliverShape.bounds + i * 3) (gridMinY sliverShape.bounds + j * 3) ∧
        p = placementAt "01" 6.2 (gridMinX sliverShape.bounds + i * 3)
          (gridMinY sliverShape.bounds + j * 3) := by
  refine ⟨by norm_num, ?_⟩
  have hopt := tryFindPlacementWithGrid_optimal ⟨0, 0⟩ "01" [] sliverShape.projectedPolygons
    sliverShape.bounds 6.2 false 3 (by norm_num)
  cases hres : tryFindPlacementWithGrid ⟨0, 0⟩ "01" [] sliverShape.projectedPolygons
      sliverShape.bounds 6.2 false 3 with
  | none =>
    exfalso
    refine hopt.1.mp hres 1 1 ?_ ?_ sliver_acceptable
    · rw [sliver_gridMin.1, sliver_gridMin.2.2.1]; norm_num
    · rw [sliver_gridMin.2.1, sliver_gridMin.2.2.2]; norm_num
  | some p =>
    obtain ⟨i, j, _, _, hacc, hp, _⟩ := hopt.2 p hres
    exact ⟨p, rfl, i, j, hacc, hp⟩

/-! ## Boundary points and the segment tolerance -/

theorem isPointOnSegment_iff (px py ax ay bx by_ : ℚ) :
    isPointOnSegment px py ax ay bx by_ = true ↔
      |(px - ax) * (by_ - ay) - (py - ay) * (bx - ax)| ≤ 0.001 ∧
        (px - ax) * (px - bx) + (py - ay) * (py - by_) ≤ 0 := by
  unfold isPointOnSegment
  simp only
  split_ifs with h
  · simp only [Bool.false_eq_true, false_iff, not_and]
    intro h'
    exact absurd h (not_lt.mpr h')
  · simp only [decide_eq_true_eq]
    exact ⟨fun hd => ⟨not_lt.mp h, hd⟩, fun hd => hd.2⟩

theorem isPointOnSegment_exact (ax ay bx by_ t : ℚ) (ht0 : 0 ≤ t) (ht1 : t ≤ 1) :
    isPointOnSegment (ax + t * (bx - ax)) (ay + t * (by_ - ay)) bx by_ ax ay = true := by
  rw [isPointOnSegment_iff]
  constructor
  · have : (ax + t * (bx - ax) - bx) * (ay - by_) - (ay + t * (by_ - ay) - by_) * (ax - bx)
        = 0 := by ring
    rw [this]; norm_num
  · have : (ax + t * (bx - ax) - bx) * (ax + t * (bx - ax) - ax) +
        (ay + t * (by_ - ay) - by_) * (ay + t * (by_ - ay) - ay)
        = - (t * (1 - t) * ((bx - ax) ^ 2 + (by_ - ay) ^ 2)) := by ring
    rw [this]
    have h1 : 0 ≤ t * (1 - t) := mul_nonneg ht0 (by linarith)
    have h2 : 0 ≤ (bx - ax) ^ 2 + (by_ - ay) ^ 2 := by positivity
    have := mul_nonneg h1 h2
    linarith

theorem pointInRingLoop_of_onSegment (x y : ℚ) (l : List (ℚ × ℚ)) (pj : ℚ × ℚ) (inside : Bool)
    (k : ℕ) (pi pp : ℚ × ℚ) (hk : l[k]? = some pi) (hp : (pj :: l)[k]? = some pp)
    (hon : isPointOnSegment x y pi.1 pi.2 pp.1 pp.2 = true) :
    pointInRingLoop x y l pj inside = true := by
  induction l generalizing pj inside k with
  | nil => simp at hk
  | cons p0 rest ih =>
    unfold pointInRingLoop
    simp only
    cases k with
    | zero =>
      simp only [List.getElem?_cons_zero, Option.some.injEq] at hk hp
      subst hk hp
      rw [if_pos hon]
    | succ k' =>
      simp only [List.getElem?_cons_succ] at hk hp
      by_cases h0 : isPointOnSegment x y p0.1 p0.2 pj.1 pj.2 = true
      · rw [if_pos h0]
      · rw [if_neg h0]
        exact ih p0 _ k' hk hp

/-- C19: a point lying exactly on an edge of a non-empty ring (on the closed
segment between two consecutive ring points, the closing edge from the last
point back to the first included) is inside the ring for `pointInRing`. -/
theorem pointInRing_on_edge (x y : ℚ) (ring : Ring) (i : ℕ) (a b : ℚ × ℚ) (t : ℚ)
    (ha : ring[i]? = some a) (hb : ring[(i + 1) % ring.length]? = some b)
    (ht0 : 0 ≤ t) (ht1 : t ≤ 1)
    (hx : x = a.1 + t * (b.1 - a.1)) (hy : y = a.2 + t * (b.2 - a.2)) :
    pointInRing x y ring = true := by
  have hon : isPointOnSegment x y b.1 b.2 a.1 a.2 = true := by
    rw [hx, hy]; exact isPointOnSegment_exact _ _ _ _ t ht0 ht1
  obtain ⟨hi, hai⟩ := List.getElem?_eq_some.mp ha
  unfold pointInRing
  by_cases hlast : i + 1 < ring.length
  · rw [Nat.mod_eq_of_lt hlast] at hb
    exact pointInRingLoop_of_onSegment x y ring _ false (i + 1) b a hb
      (by rw [List.getElem?_cons_succ]; exact ha) hon
  · have hlen : i + 1 = ring.length := by omega
    rw [hlen, Nat.mod_self] at hb
    refine pointInRingLoop_of_onSegment x y ring _ false 0 b a hb ?_ hon
    rw [List.getElem?_cons_zero, List.getLastD_eq_getLast?, List.getLast?_eq_getElem?]
    have : ring.length - 1 = i := by omega
    rw [this, ha]
    rfl

/-- What `isPointOnSegment` does bound: the distance to the segment times the
length of the segment is at most `0.001`, written without square roots. -/
theorem isPointOnSegment_cross_bound (px py ax ay bx by_ : ℚ)
    (h : isPointOnSegment px py ax ay bx by_ = true) :
    ∃ t : ℚ, 0 ≤ t ∧ t ≤ 1 ∧
      ((px - (ax + t * (bx - ax))) ^ 2 + (py - (ay + t * (by_ - ay))) ^ 2) *
          ((bx - ax) ^ 2 + (by_ - ay) ^ 2) ≤ 0.001 ^ 2 := by
  obtain ⟨hc, hd⟩ := (isPointOnSegment_iff _ _ _ _ _ _).mp h
  have hc2 : ((px - ax) * (by_ - ay) - (py - ay) * (bx - ax)) ^ 2 ≤ 0.001 ^ 2 := by
    have := abs_nonneg ((px - ax) * (by_ - ay) - (py - ay) * (bx - ax))
    rw [← sq_abs]
    exact pow_le_pow_left₀ this hc 2
  set ux := bx - ax with hux
  set uy := by_ - ay with huy
  set vx := px - ax with hvx
  set vy := py - ay with hvy
  have hdot : vx * vx + vy * vy ≤ vx * ux + vy * uy := by
    have : vx * (px - bx) + vy * (py - by_) = vx * vx + vy * vy - (vx * ux + vy * uy) := by
      simp only [hux, huy, hvx, hvy]; ring
    rw [this] at hd; linarith
  have hvv : 0 ≤ vx * vx + vy * vy := add_nonneg (mul_self_nonneg _) (mul_self_nonneg _)
  have hlagr : (vx * vx + vy * vy) * (ux ^ 2 + uy ^ 2) - (vx * ux + vy * uy) ^ 2
      = (vx * uy - vy * ux) ^ 2 := by ring
  have hcs : (vx * ux + vy * uy) ^ 2 ≤ (vx * vx + vy * vy) * (ux ^ 2 + uy ^ 2) := by
    have := sq_nonneg (vx * uy - vy * ux); linarith
  by_cases hL : ux ^ 2 + uy ^ 2 = 0
  · refine ⟨0, le_refl _, by norm_num, ?_⟩
    rw [hL, mul_zero]; norm_num
  · have hLpos : 0 < ux ^ 2 + uy ^ 2 := lt_of_le_of_ne (by positivity) (Ne.symm hL)
    have hs0 : 0 ≤ vx * ux + vy * uy := le_trans hvv hdot
    have hs1 : vx * ux + vy * uy ≤ ux ^ 2 + uy ^ 2 := by
      by_contra hcon
      push_neg at hcon
      have h1 : (vx * ux + vy * uy) * (ux ^ 2 + uy ^ 2) < (vx * ux + vy * uy) ^ 2 := by
        have hpos : 0 < vx * ux + vy * uy := lt_trans hLpos hcon
        nlinarith
      have h2 : (vx * vx + vy * vy) * (ux ^ 2 + uy ^ 2)
          ≤ (vx * ux + vy * uy) * (ux ^ 2 + uy ^ 2) :=
        mul_le_mul_of_nonneg_right hdot hLpos.le
      linarith
    refine ⟨(vx * ux + vy * uy) / (ux ^ 2 + uy ^ 2), div_nonneg hs0 hLpos.le,
      (div_le_one hLpos).mpr hs1, ?_⟩
    have key : ((px - (ax + (vx * ux + vy * uy) / (ux ^ 2 + uy ^ 2) * ux)) ^ 2 +
        (py - (ay + (vx * ux + vy * uy) / (ux ^ 2 + uy ^ 2) * uy)) ^ 2) * (ux ^ 2 + uy ^ 2)
        = (vx * uy - vy * ux) ^ 2 := by
      have e1 : px - (ax + (vx * ux + vy * uy) / (ux ^ 2 + uy ^ 2) * ux)
          = vx - (vx * ux + vy * uy) / (ux ^ 2 + uy ^ 2) * ux := by
        simp only [hvx]; ring
      have e2 : py - (ay + (vx * ux + vy * uy) / (ux ^ 2 + uy ^ 2) * uy)
          = vy - (vx * ux + vy * uy) / (ux ^ 2 + uy ^ 2) * uy := by
        simp only [hvy]; ring
      rw [e1, e2]
      field_simp
      ring
    rw [key]
    exact hc2

/-- C20 (amended): whenever `isPointOnSegment` is true, the distance from the
point to the segment times the length of the segment is at most `0.001`; so
the point is within `0.001` of the segment when the segment has length at
least 1. -/
theorem isPointOnSegment_tolerance (px py ax ay bx by_ : ℚ)
    (h : isPointOnSegment px py ax ay bx by_ = true) :
    (∃ t : ℚ, 0 ≤ t ∧ t ≤ 1 ∧
      ((px - (ax + t * (bx - ax))) ^ 2 + (py - (ay + t * (by_ - ay))) ^ 2) *
          ((bx - ax) ^ 2 + (by_ - ay) ^ 2) ≤ 0.001 ^ 2) ∧
    (1 ≤ (bx - ax) ^ 2 + (by_ - ay) ^ 2 → withinOfSegment 0.001 px py ax ay bx by_) := by
  obtain ⟨t, ht0, ht1, hb⟩ := isPointOnSegment_cross_bound px py ax ay bx by_ h
  refine ⟨⟨t, ht0, ht1, hb⟩, fun hlen => ⟨t, ht0, ht1, ?_⟩⟩
  have hnn : 0 ≤ (px - (ax + t * (bx - ax))) ^ 2 + (py - (ay + t * (by_ - ay))) ^ 2 := by
    positivity
  calc (px - (ax + t * (bx - ax))) ^ 2 + (py - (ay + t * (by_ - ay))) ^ 2
      ≤ ((px - (ax + t * (bx - ax))) ^ 2 + (py - (ay + t * (by_ - ay))) ^ 2) *
          ((bx - ax) ^ 2 + (by_ - ay) ^ 2) := le_mul_of_one_le_right hnn hlen
    _ ≤ 0.001 ^ 2 := hb

/-- C20 (as stated, refuted): on the short segment from `(0, 0)` to
`(0.04, 0)` the test accepts `(0.02, 0.02)`, which is at distance `0.02` from
the segment. -/
theorem isPointOnSegment_tolerance_counterexample :
    isPointOnSegment 0.02 0.02 0 0 0.04 0 = true ∧
      ¬ withinOfSegment 0.001 0.02 0.02 0 0 0.04 0 := by
  constructor
  · rw [isPointOnSegment_iff]
    norm_num [abs_of_nonneg, abs_of_neg]
  · rintro ⟨t, _, _, h⟩
    have : (0 : ℚ) ≤ (0.02 - (0 + t * (0.04 - 0))) ^ 2 := sq_nonneg _
    norm_num at h this
    linarith

theorem isPointOnSegment_tolerance_witness :
    isPointOnSegment 5 0 0 0 10 0 = true ∧
    ((1 : ℚ) ≤ (10 - 0) ^ 2 + (0 - 0) ^ 2 → withinOfSegment 0.001 5 0 0 0 10 0) :=
  ⟨by rw [isPointOnSegment_iff]; norm_num,
    (isPointOnSegment_tolerance 5 0 0 0 10 0
      (by rw [isPointOnSegment_iff]; norm_num)).2⟩

theorem pointInRing_on_edge_witness :
    ([(0, 0), (0, 10), (10, 10), (10, 0)] : Ring)[3]? = some (10, 0) ∧
    ([(0, 0), (0, 10), (10, 10), (10, 0)] : Ring)[(3 + 1) % 4]? = some (0, 0) ∧
    pointInRing 5 0 [(0, 0), (0, 10), (10, 10), (10, 0)] = true :=
  ⟨rfl, rfl,
    pointInRing_on_edge 5 0 [(0, 0), (0, 10), (10, 10), (10, 0)] 3 (10, 0) (0, 0) (1 / 2)
      rfl rfl (by norm_num) (by norm_num) (by norm_num) (by norm_num)⟩

/-! ## Projection -/

theorem createProjector_eq {K : Type} [LinearOrderedField K] (pi : K) (tan log : K → K)
    (bounds : PlaneBounds K) (lon lat : K) :
    (createProjector pi tan log bounds lon lat).x =
        (860 - (bounds.maxX - bounds.minX) * fitScale bounds) / 2 +
          ((projectGeoPoint pi tan log lon lat).x - bounds.minX) * fitScale bounds ∧
    (createProjector pi tan log bounds lon lat).y =
        (900 - (bounds.maxY - bounds.minY) * fitScale bounds) / 2 +
          (bounds.maxY - (projectGeoPoint pi tan log lon lat).y) * fitScale bounds := by
  have e1 : (860 : K) - 22 * 2 = 816 := by norm_num
  have e2 : (900 : K) - 22 * 2 = 856 := by norm_num
  have e3 : (VIEW_WIDTH : K) = 860 := by simp only [VIEW_WIDTH]; norm_num
  have e4 : (VIEW_HEIGHT : K) = 900 := by simp only [VIEW_HEIGHT]; norm_num
  have e5 : (PADDING : K) = 22 := by simp only [PADDING]; norm_num
  simp only [createProjector, fitScale, e3, e4, e5, e1, e2, and_self]

theorem fitScale_pos {K : Type} [LinearOrderedField K] (bounds : PlaneBounds K)
    (hx : bounds.minX < bounds.maxX) (hy : bounds.minY < bounds.maxY) :
    0 < fitScale bounds := by
  unfold fitScale
  exact lt_min (div_pos (by norm_num) (sub_pos.mpr hx)) (div_pos (by norm_num) (sub_pos.mpr hy))

theorem fitScale_le {K : Type} [LinearOrderedField K] (bounds : PlaneBounds K)
    (hx : bounds.minX < bounds.maxX) (hy : bounds.minY < bounds.maxY) :
    (bounds.maxX - bounds.minX) * fitScale bounds ≤ 816 ∧
      (bounds.maxY - bounds.minY) * fitScale bounds ≤ 856 := by
  have hxs := sub_pos.mpr hx
  have hys := sub_pos.mpr hy
  constructor
  · calc (bounds.maxX - bounds.minX) * fitScale bounds
        ≤ (bounds.maxX - bounds.minX) * (816 / (bounds.maxX - bounds.minX)) :=
          mul_le_mul_of_nonneg_left (min_le_left _ _) hxs.le
      _ = 816 := by field_simp
  · calc (bounds.maxY - bounds.minY) * fitScale bounds
        ≤ (bounds.maxY - bounds.minY) * (856 / (bounds.maxY - bounds.minY)) :=
          mul_le_mul_of_nonneg_left (min_le_right _ _) hys.le
      _ = 856 := by field_simp

/-- C15 (amended): over exact arithmetic (any ordered field, no rounding), for
bounds with positive spans, every `(lon, lat)` whose `projectGeoPoint` image
lies within the bounds is mapped by the projector of `createProjector` into
the canvas margins, `22 <= x <= 838` and `22 <= y <= 878`, with the one scale
`min(816 / xSpan, 856 / ySpan)` on both axes.  In double arithmetic the
rounding of the scale and of the offsets can put a point a few units in the
last place outside the margins. -/
theorem createProjector_inside_margins {K : Type} [LinearOrderedField K] (pi : K)
    (tan log : K → K) (bounds : PlaneBounds K) (lon lat : K)
    (hx : bounds.minX < bounds.maxX) (hy : bounds.minY < bounds.maxY)
    (hpx : bounds.minX ≤ (projectGeoPoint pi tan log lon lat).x ∧
      (projectGeoPoint pi tan log lon lat).x ≤ bounds.maxX)
    (hpy : bounds.minY ≤ (projectGeoPoint pi tan log lon lat).y ∧
      (projectGeoPoint pi tan log lon lat).y ≤ bounds.maxY) :
    ((PADDING : K) ≤ (createProjector pi tan log bounds lon lat).x ∧
      (createProjector pi tan log bounds lon lat).x ≤ (VIEW_WIDTH : K) - (PADDING : K)) ∧
    ((PADDING : K) ≤ (createProjector pi tan log bounds lon lat).y ∧
      (createProjector pi tan log bounds lon lat).y ≤ (VIEW_HEIGHT : K) - (PADDING : K)) ∧
    (createProjector pi tan log bounds lon lat).x =
        (860 - (bounds.maxX - bounds.minX) * fitScale bounds) / 2 +
          ((projectGeoPoint pi tan log lon lat).x - bounds.minX) * fitScale bounds ∧
    (createProjector pi tan log bounds lon lat).y =
        (900 - (bounds.maxY - bounds.minY) * fitScale bounds) / 2 +
          (bounds.maxY - (projectGeoPoint pi tan log lon lat).y) * fitScale bounds := by
  obtain ⟨ex, ey⟩ := createProjector_eq pi tan log bounds lon lat
  have hs := fitScale_pos bounds hx hy
  obtain ⟨hw, hh⟩ := fitScale_le bounds hx hy
  have c1 : (PADDING : K) = 22 := by simp only [PADDING]; norm_num
  have c2 : (VIEW_WIDTH : K) - (PADDING : K) = 838 := by
    simp only [VIEW_WIDTH, PADDING]; norm_num
  have c3 : (VIEW_HEIGHT : K) - (PADDING : K) = 878 := by
    simp only [VIEW_HEIGHT, PADDING]; norm_num
  have hx0 : 0 ≤ ((projectGeoPoint pi tan log lon lat).x - bounds.minX) * fitScale bounds :=
    mul_nonneg (sub_nonneg.mpr hpx.1) hs.le
  have hx1 : ((projectGeoPoint pi tan log lon lat).x - bounds.minX) * fitScale bounds
      ≤ (bounds.maxX - bounds.minX) * fitScale bounds :=
    mul_le_mul_of_nonneg_right (by linarith [hpx.2]) hs.le
  have hy0 : 0 ≤ (bounds.maxY - (projectGeoPoint pi tan log lon lat).y) * fitScale bounds :=
    mul_nonneg (sub_nonneg.mpr hpy.2) hs.le
  have hy1 : (bounds.maxY - (projectGeoPoint pi tan log lon lat).y) * fitScale bounds
      ≤ (bounds.maxY - bounds.minY) * fitScale bounds :=
    mul_le_mul_of_nonneg_right (by linarith [hpy.1]) hs.le
  rw [c2, c3, c1]
  refine ⟨⟨?_, ?_⟩, ⟨?_, ?_⟩, ex, ey⟩
  · rw [ex]; linarith
  · rw [ex]; linarith
  · rw [ey]; linarith
  · rw [ey]; linarith

theorem createProjector_inside_margins_witness :
    ((0 : ℚ) < 1 ∧ (0 : ℚ) < 1) ∧
    ((PADDING : ℚ) ≤ (createProjector (3 : ℚ) id id ⟨0, 1, 0, 1⟩ 0 0).x ∧
      (createProjector (3 : ℚ) id id ⟨0, 1, 0, 1⟩ 0 0).x ≤ (VIEW_WIDTH : ℚ) - (PADDING : ℚ)) ∧
    ((PADDING : ℚ) ≤ (createProjector (3 : ℚ) id id ⟨0, 1, 0, 1⟩ 0 0).y ∧
      (createProjector (3 : ℚ) id id ⟨0, 1, 0, 1⟩ 0 0).y ≤ (VIEW_HEIGHT : ℚ) - (PADDING : ℚ)) :=
  ⟨⟨by norm_num, by norm_num⟩,
    (createProjector_inside_margins (3 : ℚ) id id ⟨0, 1, 0, 1⟩ 0 0 (by norm_num) (by norm_num)
      (by simp [projectGeoPoint]) (by simp [projectGeoPoint]; norm_num)).1,
    (createProjector_inside_margins (3 : ℚ) id id ⟨0, 1, 0, 1⟩ 0 0 (by norm_num) (by norm_num)
      (by simp [projectGeoPoint]) (by simp [projectGeoPoint]; norm_num)).2.1⟩

theorem mercator_strictMono (lat1 lat2 : ℝ) (h1 : -85 < lat1) (h12 : lat1 < lat2)
    (h2 : lat2 < 85) :
    Real.log (Real.tan (Real.pi / 4 + lat1 * Real.pi / 180 / 2)) <
      Real.log (Real.tan (Real.pi / 4 + lat2 * Real.pi / 180 / 2)) := by
  have hpi := Real.pi_pos
  have ha1 : 0 < Real.pi / 4 + lat1 * Real.pi / 180 / 2 := by nlinarith
  have ha2 : Real.pi / 4 + lat2 * Real.pi / 180 / 2 < Real.pi / 2 := by nlinarith
  have h12' : Real.pi / 4 + lat1 * Real.pi / 180 / 2 < Real.pi / 4 + lat2 * Real.pi / 180 / 2 := by
    nlinarith
  have htan : 0 < Real.tan (Real.pi / 4 + lat1 * Real.pi / 180 / 2) :=
    Real.tan_pos_of_pos_of_lt_pi_div_two ha1 (lt_trans h12' ha2)
  exact Real.log_lt_log htan
    (Real.tan_lt_tan_of_lt_of_lt_pi_div_two (by linarith) ha2 h12')

/-- C16 (amended): over exact real arithmetic (the real `pi`, `tan` and `log`,
no rounding), for bounds with positive spans, one longitude and two latitudes
`lat1 < lat2` in `(-85, 85)`, the projector puts the point of greater latitude
strictly higher on the canvas (smaller `y`) and gives both points the same
`x`.  In double arithmetic two latitudes one unit in the last place apart can
get the same `y`. -/
theorem createProjector_lat_monotone (bounds : PlaneBounds ℝ) (lon lat1 lat2 : ℝ)
    (hx : bounds.minX < bounds.maxX) (hy : bounds.minY < bounds.maxY)
    (h1 : -85 < lat1) (h12 : lat1 < lat2) (h2 : lat2 < 85) :
    (createProjector Real.pi Real.tan Real.log bounds lon lat2).y <
        (createProjector Real.pi Real.tan Real.log bounds lon lat1).y ∧
    (createProjector Real.pi Real.tan Real.log bounds lon lat2).x =
        (createProjector Real.pi Real.tan Real.log bounds lon lat1).x := by
  obtain ⟨ex1, ey1⟩ := createProjector_eq Real.pi Real.tan Real.log bounds lon lat1
  obtain ⟨ex2, ey2⟩ := createProjector_eq Real.pi Real.tan Real.log bounds lon lat2
  have hs := fitScale_pos bounds hx hy
  have hm := mercator_strictMono lat1 lat2 h1 h12 h2
  constructor
  · rw [ey1, ey2]
    simp only [projectGeoPoint]
    have := mul_lt_mul_of_pos_right (sub_lt_sub_left hm bounds.maxY) hs
    linarith
  · rw [ex1, ex2]
    simp only [projectGeoPoint]

theorem createProjector_lat_monotone_witness :
    ((0 : ℝ) < 1 ∧ (0 : ℝ) < 1 ∧ (-85 : ℝ) < 0 ∧ (0 : ℝ) < 10 ∧ (10 : ℝ) < 85) ∧
    (createProjector Real.pi Real.tan Real.log ⟨0, 1, 0, 1⟩ 0 10).y <
      (createProjector Real.pi Real.tan Real.log ⟨0, 1, 0, 1⟩ 0 0).y :=
  ⟨⟨by norm_num, by norm_num, by norm_num, by norm_num, by norm_num⟩,
    (createProjector_lat_monotone ⟨0, 1, 0, 1⟩ 0 0 10 (by norm_num) (by norm_num)
      (by norm_num) (by norm_num) (by norm_num)).1⟩

/-! ## Contacts -/

/-- C17: `resolveContactForRole` returns the record stored in the directory
under the code and the trimmed, upper-cased role when there is one, and
otherwise the placeholder built from the code and the normalised role;
`createContactData` returns exactly the three records resolved for `VAD`,
`KAMLIGHT`, `KAMHEAVY`, in that order. -/
theorem resolveContactForRole_spec (toUpperCase toLowerCase : String → String)
    (contactDirectory : List (String × List (String × Contact))) (code role : String) :
    (∀ byPlz contact, contactDirectory.lookup code = some byPlz →
      byPlz.lookup (toUpperCase (jsTrim role)) = some contact →
      resolveContactForRole toUpperCase toLowerCase contactDirectory code role = contact) ∧
    ((contactDirectory.lookup code).bind (fun byPlz =>
        byPlz.lookup (toUpperCase (jsTrim role))) = none →
      resolveContactForRole toUpperCase toLowerCase contactDirectory code role =
        { role := toUpperCase (jsTrim role)
          name := toUpperCase (jsTrim role) ++ " Team " ++ code
          tel := "+49 30 0000 0000"
          mail := toLowerCase (toUpperCase (jsTrim role)) ++ ".plz" ++ code ++
            "@intranet.local" }) ∧
    createContactData toUpperCase toLowerCase contactDirectory code =
      [ resolveContactForRole toUpperCase toLowerCase contactDirectory code "VAD",
        resolveContactForRole toUpperCase toLowerCase contactDirectory code "KAMLIGHT",
        resolveContactForRole toUpperCase toLowerCase contactDirectory code "KAMHEAVY" ] ∧
    (createContactData toUpperCase toLowerCase contactDirectory code).length = 3 := by
  refine ⟨?_, ?_, rfl, rfl⟩
  · intro byPlz contact h1 h2
    simp only [resolveContactForRole, normalizeRole, h1, h2]
  · intro h
    simp only [resolveContactForRole, normalizeRole, getDefaultContact]
    cases h1 : contactDirectory.lookup code with
    | none => rfl
    | some byPlz =>
      rw [h1] at h
      simp only [Option.some_bind] at h
      simp only [h]

theorem resolveContactForRole_spec_witness :
    resolveContactForRole (fun s => String.mk (s.toList.map Char.toUpper))
        (fun s => String.mk (s.toList.map Char.toLower)) [] "01" " vad " =
      { role := "VAD", name := "VAD Team 01", tel := "+49 30 0000 0000",
        mail := "vad.plz01@intranet.local" } := by
  have h := (resolveContactForRole_spec (fun s => String.mk (s.toList.map Char.toUpper))
    (fun s => String.mk (s.toList.map Char.toLower)) [] "01" " vad ").2.1 rfl
  rw [h]
  decide

theorem append_sep_injective (x : Char) (a b p q : List Char) (hp : x ∉ p) (hq : x ∉ q)
    (h : a ++ x :: b = p ++ x :: q) : a = p ∧ b = q := by
  induction p generalizing a with
  | nil =>
    cases a with
    | nil => simpa using h
    | cons c a' =>
      exfalso
      simp only [List.cons_append, List.nil_append, List.cons.injEq] at h
      apply hq
      rw [← h.2]
      simp
  | cons c p' ih =>
    cases a with
    | nil =>
      exfalso
      simp only [List.nil_append, List.cons_append, List.cons.injEq] at h
      exact hp (by rw [h.1]; simp)
    | cons c' a' =>
      simp only [List.cons_append, List.cons.injEq] at h
      obtain ⟨rfl, h2⟩ := h
      obtain ⟨rfl, rfl⟩ := ih a' (fun hx => hp (List.mem_cons_of_mem _ hx)) h2
      exact ⟨rfl, rfl⟩

theorem key_eq_iff (a b p q : String) (hp : '|' ∉ p.data) (hq : '|' ∉ q.data) :
    a ++ "|" ++ b = p ++ "|" ++ q ↔ a = p ∧ b = q := by
  constructor
  · intro h
    have h' := congrArg String.data h
    simp only [String.data_append] at h'
    rw [List.append_assoc, List.append_assoc] at h'
    obtain ⟨h1, h2⟩ := append_sep_injective '|' a.data b.data p.data q.data hp hq h'
    exact ⟨String.ext h1, String.ext h2⟩
  · rintro ⟨rfl, rfl⟩; rfl

theorem ALL_PLZ2_no_bar : ∀ plz2 ∈ ALL_PLZ2, '|' ∉ plz2.data := by decide

theorem REQUIRED_ROLES_no_bar : ∀ role ∈ REQUIRED_ROLES, '|' ∉ role.data := by decide

theorem ALL_PLZ2_eq :
    ALL_PLZ2 = (List.range 100).map fun i =>
      String.mk [Char.ofNat (48 + i / 10), Char.ofNat (48 + i % 10)] := by decide

/-- C18: `validateCompleteness` returns without throwing exactly when for each
of the 100 two-digit codes `00`..`99` and each of the roles `VAD`, `KAMLIGHT`,
`KAMHEAVY` some record has that code and that role; otherwise it throws. -/
theorem validateCompleteness_iff (records : List ContactRecord) :
    (validateCompleteness records = Except.ok () ↔
      ∀ plz2 ∈ ALL_PLZ2, ∀ role ∈ REQUIRED_ROLES,
        ∃ r ∈ records, r.plz2 = plz2 ∧ r.role = role) ∧
    (validateCompleteness records ≠ Except.ok () →
      ∃ message, validateCompleteness records = Except.error message) ∧
    (ALL_PLZ2 = (List.range 100).map fun i =>
      String.mk [Char.ofNat (48 + i / 10), Char.ofNat (48 + i % 10)]) ∧
    REQUIRED_ROLES = ["VAD", "KAMLIGHT", "KAMHEAVY"] := by
  refine ⟨?_, ?_, ALL_PLZ2_eq, rfl⟩
  · unfold validateCompleteness
    simp only []
    split_ifs with hlen
    · simp only [reduceCtorEq, false_iff]
      intro hall
      rw [gt_iff_lt, List.length_pos] at hlen
      obtain ⟨key, hkey⟩ := List.exists_mem_of_ne_nil _ hlen
      simp only [List.mem_flatMap, List.mem_filterMap] at hkey
      obtain ⟨plz2, hplz, role, hrole, hk⟩ := hkey
      obtain ⟨r, hr, h1, h2⟩ := hall plz2 hplz role hrole
      have hmem : plz2 ++ "|" ++ role ∈ records.map fun r => r.plz2 ++ "|" ++ r.role :=
        List.mem_map.mpr ⟨r, hr, by rw [h1, h2]⟩
      rw [if_pos hmem] at hk
      exact absurd hk (by simp)
    · simp only [true_iff]
      intro plz2 hplz role hrole
      by_contra hcon
      apply hlen
      rw [gt_iff_lt, List.length_pos]
      apply List.ne_nil_of_mem (a := plz2 ++ "|" ++ role)
      simp only [List.mem_flatMap, List.mem_filterMap]
      refine ⟨plz2, hplz, role, hrole, ?_⟩
      rw [if_neg]
      intro hmem
      obtain ⟨r, hr, hkey⟩ := List.mem_map.mp hmem
      exact hcon ⟨r, hr, (key_eq_iff _ _ _ _ (ALL_PLZ2_no_bar plz2 hplz)
        (REQUIRED_ROLES_no_bar role hrole)).mp hkey⟩
  · intro h
    cases hv : validateCompleteness records with
    | error message => exact ⟨message, rfl⟩
    | ok u => exact absurd hv h

theorem validateCompleteness_iff_witness :
    ∃ message, validateCompleteness [] = Except.error message :=
  (validateCompleteness_iff []).2.1 (fun hok => by
    obtain ⟨r, hr, _⟩ := (validateCompleteness_iff []).1.mp hok "00" (by decide) "VAD" (by decide)
    exact absurd hr (List.not_mem_nil r))

/-! ## Aggregation -/

theorem featuresOf_append (code : String) (fs : List Feature) (f : Feature) :
    featuresOf code (fs ++ [f]) =
      if parsePlz2 f = some code then featuresOf code fs ++ [f] else featuresOf code fs := by
  unfold featuresOf
  rw [List.filter_append]
  by_cases h : parsePlz2 f = some code
  · simp [h]
  · simp [h]

theorem regionOf_append_other (parseFloat : String → Option ℚ) (code : String)
    (fs : List Feature) (f : Feature) (h : parsePlz2 f ≠ some code) :
    regionOf parseFloat code (fs ++ [f]) = regionOf parseFloat code fs := by
  unfold regionOf
  rw [featuresOf_append, if_neg h]

theorem regionOf_append_same (parseFloat : String → Option ℚ) (code : String)
    (fs : List Feature) (f : Feature) (h : parsePlz2 f = some code) :
    regionOf parseFloat code (fs ++ [f]) = addFeature parseFloat (regionOf parseFloat code fs) f := by
  unfold regionOf addFeature
  rw [featuresOf_append, if_pos h]
  simp only [List.flatMap_append, List.filterMap_append, List.map_append, List.sum_append,
    List.length_append, List.flatMap_cons, List.flatMap_nil, List.append_nil,
    List.filterMap_cons, List.filterMap_nil, centerOf]
  cases parseCoord parseFloat f.center_lon <;> cases parseCoord parseFloat f.center_lat <;>
    simp

theorem regionOf_of_absent (parseFloat : String → Option ℚ) (code : String)
    (fs : List Feature) (h : ∀ f ∈ fs, parsePlz2 f ≠ some code) :
    regionOf parseFloat code fs =
      { code := code, polygons := [], centerLonSum := 0, centerLatSum := 0, centerCount := 0 } := by
  have : featuresOf code fs = [] := by
    unfold featuresOf
    rw [List.filter_eq_nil_iff]
    intro f hf
    simpa using h f hf
  unfold regionOf
  rw [this]
  rfl

theorem addFeature_code (parseFloat : String → Option ℚ) (group : Region) (f : Feature) :
    (addFeature parseFloat group f).code = group.code := by
  unfold addFeature
  cases parseCoord parseFloat f.center_lon <;> cases parseCoord parseFloat f.center_lat <;> rfl

theorem aggInv_step (parseFloat : String → Option ℚ) (groups : List Region)
    (seen : List Feature) (f : Feature) (h : AggInv parseFloat groups seen) :
    AggInv parseFloat (aggregateStep parseFloat groups f) (seen ++ [f]) := by
  obtain ⟨hnd, hreg, hmem⟩ := h
  unfold aggregateStep
  cases hp : parsePlz2 f with
  | none =>
    refine ⟨hnd, ?_, ?_⟩
    · intro g hg
      rw [regionOf_append_other _ _ _ _ (by rw [hp]; simp)]
      exact hreg g hg
    · intro c
      rw [hmem c]
      constructor
      · rintro ⟨f', hf', hc⟩
        exact ⟨f', List.mem_append_left _ hf', hc⟩
      · rintro ⟨f', hf', hc⟩
        rcases List.mem_append.mp hf' with hf' | hf'
        · exact ⟨f', hf', hc⟩
        · rw [List.mem_singleton] at hf'
          subst hf'
          rw [hp] at hc
          exact absurd hc (by simp)
  | some code =>
    simp only
    -- the list after the `has` / `set` step
    have hG : ∃ G : List Region,
        (if groups.any (fun group => group.code == code) then groups
          else groups ++ [{ code := code, polygons := [], centerLonSum := 0, centerLatSum := 0,
                            centerCount := 0 }]) = G ∧
        (G.map fun g => g.code).Nodup ∧
        (∀ g ∈ G, g = regionOf parseFloat g.code seen) ∧
        ∀ c, c ∈ (G.map fun g => g.code) ↔ (c = code ∨ ∃ f' ∈ seen, parsePlz2 f' = some c) := by
      by_cases hany : groups.any (fun group => group.code == code) = true
      · refine ⟨groups, by rw [if_pos hany], hnd, hreg, ?_⟩
        intro c
        rw [hmem c]
        constructor
        · exact fun h => Or.inr h
        · rintro (rfl | h)
          · rw [← hmem c]
            simp only [List.any_eq_true, beq_iff_eq] at hany
            obtain ⟨g, hg, hgc⟩ := hany
            exact List.mem_map.mpr ⟨g, hg, hgc⟩
          · exact h
      · have hnot : code ∉ groups.map fun g => g.code := by
          intro hc
          apply hany
          obtain ⟨g, hg, hgc⟩ := List.mem_map.mp hc
          simp only [List.any_eq_true, beq_iff_eq]
          exact ⟨g, hg, hgc⟩
        have habs : ∀ f' ∈ seen, parsePlz2 f' ≠ some code := by
          intro f' hf' hc
          exact hnot ((hmem code).mpr ⟨f', hf', hc⟩)
        refine ⟨_, by rw [if_neg hany], ?_, ?_, ?_⟩
        · rw [List.map_append, List.nodup_append]
          refine ⟨hnd, by simp, ?_⟩
          intro c hc1 hc2
          simp only [List.map_cons, List.map_nil, List.mem_singleton] at hc2
          subst hc2
          exact hnot hc1
        · intro g hg
          rcases List.mem_append.mp hg with hg | hg
          · exact hreg g hg
          · rw [List.mem_singleton] at hg
            subst hg
            exact (regionOf_of_absent parseFloat code seen habs).symm
        · intro c
          rw [List.map_append, List.mem_append, hmem c]
          simp only [List.map_cons, List.map_nil, List.mem_singleton]
          exact or_comm
    obtain ⟨G, hGeq, hGnd, hGreg, hGmem⟩ := hG
    rw [hGeq]
    have hcodes : (G.map fun group =>
        if group.code = code then addFeature parseFloat group f else group).map (fun g => g.code)
        = G.map fun g => g.code := by
      rw [List.map_map]
      apply List.map_congr_left
      intro g _
      simp only [Function.comp]
      split_ifs
      · exact addFeature_code parseFloat g f
      · rfl
    refine ⟨by rw [hcodes]; exact hGnd, ?_, ?_⟩
    · intro g hg
      obtain ⟨g0, hg0, rfl⟩ := List.mem_map.mp hg
      by_cases hc : g0.code = code
      · rw [if_pos hc, addFeature_code, hc, regionOf_append_same _ _ _ _ hp]
        have := hGreg g0 hg0
        rw [hc] at this
        rw [← this]
      · rw [if_neg hc, regionOf_append_other _ _ _ _ (by rw [hp]; simpa using Ne.symm hc)]
        exact hGreg g0 hg0
    · intro c
      rw [hcodes, hGmem c]
      constructor
      · rintro (rfl | ⟨f', hf', hc⟩)
        · exact ⟨f, by simp, hp⟩
        · exact ⟨f', List.mem_append_left _ hf', hc⟩
      · rintro ⟨f', hf', hc⟩
        rcases List.mem_append.mp hf' with hf' | hf'
        · exact Or.inr ⟨f', hf', hc⟩
        · rw [List.mem_singleton] at hf'
          subst hf'
          rw [hp] at hc
          exact Or.inl (Option.some.inj hc).symm

theorem aggInv_foldl (parseFloat : String → Option ℚ) (features : List Feature)
    (groups : List Region) (seen : List Feature) (h : AggInv parseFloat groups seen) :
    AggInv parseFloat (features.foldl (aggregateStep parseFloat) groups) (seen ++ features) := by
  induction features generalizing groups seen with
  | nil => simpa using h
  | cons f rest ih =>
    have := ih _ _ (aggInv_step parseFloat groups seen f h)
    simpa using this

theorem aggInv_final (parseFloat : String → Option ℚ) (features : List Feature) :
    AggInv parseFloat (features.foldl (aggregateStep parseFloat) []) features := by
  have := aggInv_foldl parseFloat features [] [] ⟨by simp, by simp, by simp⟩
  simpa using this

theorem mem_aggregatePlzRegions (parseFloat : String → Option ℚ) (features : List Feature)
    (g : Region) (hg : g ∈ aggregatePlzRegions parseFloat features) :
    g = regionOf parseFloat g.code features := by
  unfold aggregatePlzRegions at hg
  rw [List.mem_mergeSort] at hg
  exact (aggInv_final parseFloat features).2.1 g hg

theorem aggregatePlzRegions_codes_perm (parseFloat : String → Option ℚ)
    (features : List Feature) :
    ((aggregatePlzRegions parseFloat features).map fun g => g.code).Perm
      ((features.foldl (aggregateStep parseFloat) []).map fun g => g.code) :=
  (List.mergeSort_perm _ _).map _

theorem aggregatePlzRegions_sorted (parseFloat : String → Option ℚ)
    (features : List Feature) :
    ((aggregatePlzRegions parseFloat features).map fun g => g.code).Pairwise (· < ·) := by
  have hle : (aggregatePlzRegions parseFloat features).Pairwise
      (fun a b => decide (a.code ≤ b.code) = true) := by
    unfold aggregatePlzRegions
    apply List.sorted_mergeSort
    · intro a b c hab hbc
      simp only [decide_eq_true_eq] at hab hbc ⊢
      exact le_trans hab hbc
    · intro a b
      simp only [Bool.or_eq_true, decide_eq_true_eq]
      exact le_total _ _
  have hnd : ((aggregatePlzRegions parseFloat features).map fun g => g.code).Nodup :=
    (aggregatePlzRegions_codes_perm parseFloat features).nodup_iff.mpr
      (aggInv_final parseFloat features).1
  have hnd' : ((aggregatePlzRegions parseFloat features).map fun g => g.code).Pairwise
      (· ≠ ·) := hnd
  rw [List.pairwise_map] at hnd' ⊢
  refine (hle.and hnd').imp ?_
  rintro a b ⟨h1, h2⟩
  simp only [decide_eq_true_eq] at h1
  exact lt_of_le_of_ne h1 h2

theorem mem_aggregatePlzRegions_codes (parseFloat : String → Option ℚ)
    (features : List Feature) (c : String) :
    c ∈ ((aggregatePlzRegions parseFloat features).map fun g => g.code) ↔
      ∃ f ∈ features, parsePlz2 f = some c := by
  rw [(aggregatePlzRegions_codes_perm parseFloat features).mem_iff]
  exact (aggInv_final parseFloat features).2.2 c

/-! ## Aggregation: order, determinism, accumulation -/

theorem centerOf_eq (parseFloat : String → Option ℚ) (l : List Feature) :
    l.filterMap (centerOf parseFloat) =
      (l.filter fun f => (parseCoord parseFloat f.center_lon).isSome &&
          (parseCoord parseFloat f.center_lat).isSome).map
        fun f => ((parseCoord parseFloat f.center_lon).getD 0,
          (parseCoord parseFloat f.center_lat).getD 0) := by
  induction l with
  | nil => rfl
  | cons f rest ih =>
    rw [List.filterMap_cons, List.filter_cons, ih]
    unfold centerOf
    cases h1 : parseCoord parseFloat f.center_lon <;>
      cases h2 : parseCoord parseFloat f.center_lat <;> simp [h1, h2]

/-- C11: `aggregatePlzRegions` returns its regions with strictly ascending
codes (so every code occurs once), and the codes are exactly the non-null
results of `parsePlz2` over the input features. -/
theorem aggregatePlzRegions_codes (parseFloat : String → Option ℚ) (features : List Feature) :
    ((aggregatePlzRegions parseFloat features).map fun g => g.code).Pairwise (· < ·) ∧
    ((aggregatePlzRegions parseFloat features).map fun g => g.code).Nodup ∧
    ∀ c, c ∈ ((aggregatePlzRegions parseFloat features).map fun g => g.code) ↔
      ∃ f ∈ features, parsePlz2 f = some c :=
  ⟨aggregatePlzRegions_sorted parseFloat features,
    (aggregatePlzRegions_sorted parseFloat features).imp (fun h => ne_of_lt h),
    mem_aggregatePlzRegions_codes parseFloat features⟩

/-- C14: each region returned by `aggregatePlzRegions` holds the polygons of
all input features with its code, concatenated in encounter order (one polygon
for a `Polygon`, the constituent polygons for a `MultiPolygon`, none for
another geometry), whether or not the feature has a centroid hint; its
`centerCount` is the number of those features whose two hints both parse to
finite numbers, and `centerLonSum`, `centerLatSum` are the sums over exactly
those features. -/
theorem aggregatePlzRegions_accumulation (parseFloat : String → Option ℚ)
    (features : List Feature) (g : Region)
    (hg : g ∈ aggregatePlzRegions parseFloat features) :
    g.polygons =
        (features.filter fun f => parsePlz2 f == some g.code).flatMap
          (fun f => featureToPolygons f.geometry) ∧
    g.centerCount =
        ((features.filter fun f => parsePlz2 f == some g.code).filter fun f =>
          (parseCoord parseFloat f.center_lon).isSome &&
            (parseCoord parseFloat f.center_lat).isSome).length ∧
    g.centerLonSum =
        (((features.filter fun f => parsePlz2 f == some g.code).filter fun f =>
          (parseCoord parseFloat f.center_lon).isSome &&
            (parseCoord parseFloat f.center_lat).isSome).map
          fun f => (parseCoord parseFloat f.center_lon).getD 0).sum ∧
    g.centerLatSum =
        (((features.filter fun f => parsePlz2 f == some g.code).filter fun f =>
          (parseCoord parseFloat f.center_lon).isSome &&
            (parseCoord parseFloat f.center_lat).isSome).map
          fun f => (parseCoord parseFloat f.center_lat).getD 0).sum ∧
    (∀ coordinates, featureToPolygons (some (.polygon coordinates)) = [coordinates]) ∧
    (∀ coordinates, featureToPolygons (some (.multiPolygon coordinates)) = coordinates) ∧
    featureToPolygons (some .other) = [] ∧ featureToPolygons none = [] := by
  have h := mem_aggregatePlzRegions parseFloat features g hg
  have hc := centerOf_eq parseFloat (featuresOf g.code features)
  unfold featuresOf at hc
  refine ⟨?_, ?_, ?_, ?_, fun _ => rfl, fun _ => rfl, rfl, rfl⟩
  · rw [h]; rfl
  · rw [h]
    simp only [regionOf, featuresOf, hc, List.length_map]
  · rw [h]
    simp only [regionOf, featuresOf, hc, List.map_map]
    rfl
  · rw [h]
    simp only [regionOf, featuresOf, hc, List.map_map]
    rfl

theorem parsePlz2_sampleA : parsePlz2 sampleFeatureA = some "01" := by decide

theorem parsePlz2_sampleB : parsePlz2 sampleFeatureB = some "80" := by decide

theorem aggregatePlzRegions_sampleA :
    aggregatePlzRegions (fun _ => none) [sampleFeatureA] =
      [{ code := "01", polygons := [[[(13, 51), (14, 51), (14, 52)]]], centerLonSum := 13,
         centerLatSum := 51, centerCount := 1 }] := by
  simp only [aggregatePlzRegions, List.foldl_cons, List.foldl_nil, aggregateStep,
    parsePlz2_sampleA]
  simp [addFeature, parseCoord, featureToPolygons, sampleFeatureA]

theorem aggregatePlzRegions_accumulation_witness :
    ({ code := "01", polygons := [[[(13, 51), (14, 51), (14, 52)]]], centerLonSum := 13,
        centerLatSum := 51, centerCount := 1 } : Region)
      ∈ aggregatePlzRegions (fun _ => none) [sampleFeatureA] ∧
    ([[[(13, 51), (14, 51), (14, 52)]]] : List Polygon) =
      ([sampleFeatureA].filter fun f => parsePlz2 f == some "01").flatMap
        (fun f => featureToPolygons f.geometry) :=
  ⟨by rw [aggregatePlzRegions_sampleA]; exact List.mem_singleton.mpr rfl,
    (aggregatePlzRegions_accumulation (fun _ => none) [sampleFeatureA]
      { code := "01", polygons := [[[(13, 51), (14, 51), (14, 52)]]], centerLonSum := 13,
        centerLatSum := 51, centerCount := 1 }
      (by rw [aggregatePlzRegions_sampleA]; exact List.mem_singleton.mpr rfl)).1⟩

theorem regionOf_perm (parseFloat : String → Option ℚ) (code : String)
    (fs1 fs2 : List Feature) (h : fs1.Perm fs2) :
    (regionOf parseFloat code fs1).centerLonSum = (regionOf parseFloat code fs2).centerLonSum ∧
    (regionOf parseFloat code fs1).centerLatSum = (regionOf parseFloat code fs2).centerLatSum ∧
    (regionOf parseFloat code fs1).centerCount = (regionOf parseFloat code fs2).centerCount ∧
    (regionOf parseFloat code fs1).polygons.Perm (regionOf parseFloat code fs2).polygons := by
  have hf : (featuresOf code fs1).Perm (featuresOf code fs2) := h.filter _
  have hc := hf.filterMap (centerOf parseFloat)
  refine ⟨?_, ?_, ?_, ?_⟩
  · exact (hc.map Prod.fst).sum_eq
  · exact (hc.map Prod.snd).sum_eq
  · exact hc.length_eq
  · exact hf.flatMap_right _

/-- C12: for a feature list and any permutation of it, `aggregatePlzRegions`
returns the same list of region codes, and for each code the same centroid
sums and count and the same polygons up to their order. -/
theorem aggregatePlzRegions_perm (parseFloat : String → Option ℚ)
    (features1 features2 : List Feature) (h : features1.Perm features2) :
    ((aggregatePlzRegions parseFloat features1).map fun g => g.code) =
      ((aggregatePlzRegions parseFloat features2).map fun g => g.code) ∧
    ∀ g1 ∈ aggregatePlzRegions parseFloat features1,
      ∀ g2 ∈ aggregatePlzRegions parseFloat features2, g1.code = g2.code →
        g1.centerLonSum = g2.centerLonSum ∧ g1.centerLatSum = g2.centerLatSum ∧
        g1.centerCount = g2.centerCount ∧ g1.polygons.Perm g2.polygons := by
  constructor
  · have hs1 := aggregatePlzRegions_sorted parseFloat features1
    have hs2 := aggregatePlzRegions_sorted parseFloat features2
    have hperm : ((aggregatePlzRegions parseFloat features1).map fun g => g.code).Perm
        ((aggregatePlzRegions parseFloat features2).map fun g => g.code) := by
      rw [List.perm_ext_iff_of_nodup (hs1.imp fun h => ne_of_lt h) (hs2.imp fun h => ne_of_lt h)]
      intro c
      rw [mem_aggregatePlzRegions_codes, mem_aggregatePlzRegions_codes]
      constructor
      · rintro ⟨f, hf, hc⟩; exact ⟨f, h.mem_iff.mp hf, hc⟩
      · rintro ⟨f, hf, hc⟩; exact ⟨f, h.mem_iff.mpr hf, hc⟩
    exact List.eq_of_perm_of_sorted hperm hs1 hs2
  · intro g1 hg1 g2 hg2 hcode
    rw [mem_aggregatePlzRegions parseFloat features1 g1 hg1,
      mem_aggregatePlzRegions parseFloat features2 g2 hg2]
    have : (regionOf parseFloat g1.code features1).code
        = (regionOf parseFloat g2.code features2).code := hcode
    rw [hcode]
    exact regionOf_perm parseFloat g2.code features1 features2 h

theorem aggregatePlzRegions_perm_witness :
    [sampleFeatureA, sampleFeatureB].Perm [sampleFeatureB, sampleFeatureA] ∧
    ((aggregatePlzRegions (fun _ => none) [sampleFeatureA, sampleFeatureB]).map
        fun g => g.code) =
      ((aggregatePlzRegions (fun _ => none) [sampleFeatureB, sampleFeatureA]).map
        fun g => g.code) :=
  ⟨List.Perm.swap _ _ _,
    (aggregatePlzRegions_perm (fun _ => none) [sampleFeatureA, sampleFeatureB]
      [sampleFeatureB, sampleFeatureA] (List.Perm.swap _ _ _)).1⟩

theorem aggregateStep_of_none (parseFloat : String → Option ℚ) (groups : List Region)
    (f : Feature) (h : parsePlz2 f = none) : aggregateStep parseFloat groups f = groups := by
  unfold aggregateStep
  rw [h]

/-- C13 (amended): `parsePlz2` returns a group code exactly when the
identifier, after trimming surrounding whitespace, consists of exactly five
decimal digits, and the code is then the first two digits of the trimmed
identifier; a feature for which it returns `null` is skipped by
`aggregatePlzRegions` and changes nothing in the result. -/
theorem parsePlz2_iff (feature : Feature) (code : String) :
    (parsePlz2 feature = some code ↔
      ∃ zip, feature.zip = some zip ∧ (jsTrim zip).toList.length = 5 ∧
        (∀ c ∈ (jsTrim zip).toList, '0' ≤ c ∧ c ≤ '9') ∧
        code = String.mk ((jsTrim zip).toList.take 2)) ∧
    (parsePlz2 feature = none →
      ∀ (parseFloat : String → Option ℚ) (before after : List Feature),
        aggregatePlzRegions parseFloat (before ++ feature :: after) =
          aggregatePlzRegions parseFloat (before ++ after)) := by
  constructor
  · unfold parsePlz2
    cases hz : feature.zip with
    | none => simp
    | some zip =>
      simp only [Option.some.injEq, exists_eq_left']
      by_cases he : zip = ""
      · subst he
        simp only [↓reduceIte, reduceCtorEq, false_iff, not_and]
        intro h
        exact absurd h (by decide)
      · rw [if_neg he]
        simp only [List.all_eq_true, decide_eq_true_eq]
        split_ifs with h5
        · simp only [Option.some.injEq]
          constructor
          · intro h; exact ⟨h5.1, h5.2, h.symm⟩
          · intro h; exact h.2.2.symm
        · simp only [reduceCtorEq, false_iff, not_and]
          intro h1 h2
          exact absurd ⟨h1, h2⟩ h5
  · intro h parseFloat before after
    unfold aggregatePlzRegions
    rw [List.foldl_append, List.foldl_cons, aggregateStep_of_none _ _ _ h, List.foldl_append]

/-- C13 (as stated, refuted): the identifier ` 12345`, a blank followed by
five digits, does not consist of exactly five decimal digits, yet `parsePlz2`
returns the group code `12` for it. -/
theorem parsePlz2_counterexample :
    parsePlz2 { zip := some " 12345", geometry := none, center_lon := .other,
                center_lat := .other } = some "12" ∧
    ¬ ((" 12345" : String).toList.length = 5 ∧
        ∀ c ∈ (" 12345" : String).toList, '0' ≤ c ∧ c ≤ '9') := by
  constructor
  · decide
  · decide

theorem parsePlz2_iff_witness :
    parsePlz2 { zip := some "1234", geometry := none, center_lon := .other,
                center_lat := .other } = none ∧
    aggregatePlzRegions (fun _ => none)
        ([sampleFeatureA] ++ { zip := some "1234", geometry := none, center_lon := .other,
                               center_lat := .other } :: [sampleFeatureB]) =
      aggregatePlzRegions (fun _ => none) ([sampleFeatureA] ++ [sampleFeatureB]) :=
  ⟨by decide,
    (parsePlz2_iff { zip := some "1234", geometry := none, center_lon := .other,
                     center_lat := .other } "12").2 (by decide) (fun _ => none)
      [sampleFeatureA] [sampleFeatureB]⟩

/-! ## The font sizes of the ladder -/

theorem findLabelPlacement_eq_attempts (cosDeg sinDeg : ℕ → ℚ) (base : Point) (code : String)
    (placedBoxes : List LabelBox) (regionShape : RegionShape) :
    findLabelPlacement cosDeg sinDeg base code placedBoxes regionShape =
      attemptedFontSizes.findSome?
        (attemptAt cosDeg sinDeg base code placedBoxes regionShape) := by
  have hor : ∀ a b : Option Placement, a.or b = match a with | some x => some x | none => b := by
    intro a b; cases a <;> rfl
  have h1 : ∀ fs ∈ ([8.6, 8.0, 7.4, 6.8] : List ℚ),
      attemptAt cosDeg sinDeg base code placedBoxes regionShape fs =
        (radialSearch (labelOffsets cosDeg sinDeg) base code placedBoxes
            regionShape.projectedPolygons fs true).or
          (tryFindPlacementWithGrid base code placedBoxes regionShape.projectedPolygons
            regionShape.bounds fs true 5) := by
    intro fs hfs
    unfold attemptAt
    rw [if_pos hfs]
  have h2 : ∀ fs ∈ ([7.0, 6.6] : List ℚ),
      attemptAt cosDeg sinDeg base code placedBoxes regionShape fs =
        (radialSearch (labelOffsets cosDeg sinDeg) base code placedBoxes
            regionShape.projectedPolygons fs false).or
          (tryFindPlacementWithGrid base code placedBoxes regionShape.projectedPolygons
            regionShape.bounds fs false 5) := by
    intro fs hfs
    unfold attemptAt
    rw [if_neg, if_pos hfs]
    simp only [List.mem_cons, List.mem_singleton, List.not_mem_nil, or_false] at hfs ⊢
    rcases hfs with rfl | rfl <;> norm_num
  have h3 : ∀ fs ∈ ([6.2, 5.8, 5.2] : List ℚ),
      attemptAt cosDeg sinDeg base code placedBoxes regionShape fs =
        tryFindPlacementWithGrid base code placedBoxes regionShape.projectedPolygons
          regionShape.bounds fs false 3 := by
    intro fs hfs
    unfold attemptAt
    rw [if_neg, if_neg, if_pos hfs]
    · simp only [List.mem_cons, List.mem_singleton, List.not_mem_nil, or_false] at hfs ⊢
      rcases hfs with rfl | rfl | rfl <;> norm_num
    · simp only [List.mem_cons, List.mem_singleton, List.not_mem_nil, or_false] at hfs ⊢
      rcases hfs with rfl | rfl | rfl <;> norm_num
  have h4 : ∀ fs ∈ ([4.8, 4.4, 4.0] : List ℚ),
      attemptAt cosDeg sinDeg base code placedBoxes regionShape fs =
        tryFindPlacementWithGrid base code placedBoxes regionShape.projectedPolygons
          regionShape.bounds fs false 2 := by
    intro fs hfs
    unfold attemptAt
    rw [if_neg, if_neg, if_neg]
    · simp only [List.mem_cons, List.mem_singleton, List.not_mem_nil, or_false] at hfs ⊢
      rcases hfs with rfl | rfl | rfl <;> norm_num
    · simp only [List.mem_cons, List.mem_singleton, List.not_mem_nil, or_false] at hfs ⊢
      rcases hfs with rfl | rfl | rfl <;> norm_num
    · simp only [List.mem_cons, List.mem_singleton, List.not_mem_nil, or_false] at hfs ⊢
      rcases hfs with rfl | rfl | rfl <;> norm_num
  have hcongr : ∀ (l : List ℚ) (f g : ℚ → Option Placement), (∀ fs ∈ l, g fs = f fs) →
      l.findSome? f = l.findSome? g := by
    intro l f g hfg
    induction l with
    | nil => rfl
    | cons a rest ih =>
      rw [List.findSome?_cons, List.findSome?_cons, hfg a (List.mem_cons_self _ _),
        ih (fun fs hfs => hfg fs (List.mem_cons_of_mem _ hfs))]
  have happ : ∀ (l1 l2 : List ℚ) (f : ℚ → Option Placement),
      (l1 ++ l2).findSome? f = (l1.findSome? f).or (l2.findSome? f) := by
    intro l1 l2 f
    induction l1 with
    | nil => rfl
    | cons a rest ih =>
      rw [List.cons_append, List.findSome?_cons, List.findSome?_cons, ih]
      cases f a <;> rfl
  unfold findLabelPlacement attemptedFontSizes
  simp only []
  rw [happ, happ, happ, hcongr _ _ _ h1, hcongr _ _ _ h2, hcongr _ _ _ h3, hcongr _ _ _ h4]

/-- C21 (as stated, refuted): the fourth attempted font size is 6.8 and the
fifth is 7.0, so the sequence of attempted font sizes is not strictly
decreasing. -/
theorem attemptedFontSizes_counterexample :
    attemptedFontSizes[3]? = some (6.8 : ℚ) ∧ attemptedFontSizes[4]? = some (7.0 : ℚ) ∧
    (6.8 : ℚ) < 7.0 ∧ ¬ List.Chain' (fun a b : ℚ => b < a) attemptedFontSizes := by
  refine ⟨rfl, rfl, by norm_num, ?_⟩
  intro h
  simp only [attemptedFontSizes, List.cons_append, List.nil_append, List.chain'_cons] at h
  have := h.2.2.2.1
  norm_num at this

/-- C21 (amended): `findLabelPlacement` attempts the font sizes 8.6, 8.0, 7.4,
6.8, 7.0, 6.6, 6.2, 5.8, 5.2, 4.8, 4.4, 4.0 in this order; every later size is
strictly smaller than every earlier one except for the one pair 6.8 (the last
strict size) and 7.0 (the first relaxed size), so the sizes decrease strictly
within the strict tier and from 7.0 onward. -/
theorem attemptedFontSizes_decreasing (cosDeg sinDeg : ℕ → ℚ) (base : Point) (code : String)
    (placedBoxes : List LabelBox) (regionShape : RegionShape) :
    findLabelPlacement cosDeg sinDeg base code placedBoxes regionShape =
        attemptedFontSizes.findSome?
          (attemptAt cosDeg sinDeg base code placedBoxes regionShape) ∧
    attemptedFontSizes = [8.6, 8.0, 7.4, 6.8, 7.0, 6.6, 6.2, 5.8, 5.2, 4.8, 4.4, 4.0] ∧
    attemptedFontSizes.Pairwise (fun earlier later => later < earlier ∨
      (earlier = 6.8 ∧ later = 7.0)) ∧
    List.Chain' (fun a b : ℚ => b < a) [8.6, 8.0, 7.4, 6.8] ∧
    List.Chain' (fun a b : ℚ => b < a) [7.0, 6.6, 6.2, 5.8, 5.2, 4.8, 4.4, 4.0] := by
  refine ⟨findLabelPlacement_eq_attempts _ _ _ _ _ _, rfl, ?_, ?_, ?_⟩
  · simp only [attemptedFontSizes, List.cons_append, List.nil_append, List.pairwise_cons,
      List.mem_cons, List.mem_singleton, List.not_mem_nil, or_false, forall_eq_or_imp,
      forall_eq, List.Pairwise.nil, and_true, IsEmpty.forall_iff, implies_true]
    norm_num
  · simp only [List.chain'_cons, List.chain'_singleton, and_true]
    norm_num
  · simp only [List.chain'_cons, List.chain'_singleton, and_true]
    norm_num

/-! ## Rotation and reversal of a ring -/

theorem pointInRingLoop_eq (x y : ℚ) (l : List (ℚ × ℚ)) (pj : ℚ × ℚ) (inside : Bool) :
    pointInRingLoop x y l pj inside =
      ((loopEdges pj l).any (onEdge x y) ||
        (inside != decide ((loopEdges pj l).countP (crossesEdge x y) % 2 = 1))) := by
  induction l generalizing pj inside with
  | nil => simp [pointInRingLoop, loopEdges]
  | cons p rest ih =>
    unfold pointInRingLoop
    simp only [loopEdges, List.any_cons, List.countP_cons]
    by_cases hon : isPointOnSegment x y p.1 p.2 pj.1 pj.2 = true
    · rw [if_pos hon]
      simp [onEdge, hon]
    · rw [if_neg hon, ih]
      have hon' : onEdge x y (p, pj) = false := by
        simpa [onEdge] using hon
      rw [hon', Bool.false_or]
      congr 1
      by_cases hc : crossesEdge x y (p, pj) = true
      · have hc' : ((decide (p.2 > y) != decide (pj.2 > y)) &&
            decide (x < (pj.1 - p.1) * (y - p.2) / (pj.2 - p.2) + p.1)) = true := hc
        rw [if_pos hc', if_pos hc]
        by_cases hpar : (loopEdges p rest).countP (crossesEdge x y) % 2 = 1
        · have : ¬ ((loopEdges p rest).countP (crossesEdge x y) + 1) % 2 = 1 := by omega
          cases inside <;> simp [hpar, this]
        · have : ((loopEdges p rest).countP (crossesEdge x y) + 1) % 2 = 1 := by omega
          cases inside <;> simp [hpar, this]
      · have hc' : ¬ ((decide (p.2 > y) != decide (pj.2 > y)) &&
            decide (x < (pj.1 - p.1) * (y - p.2) / (pj.2 - p.2) + p.1)) = true := hc
        rw [if_neg hc', if_neg hc, Nat.add_zero]

theorem pointInRing_eq_edgesInside (x y : ℚ) (ring : Ring) :
    pointInRing x y ring = edgesInside x y (ringEdges ring) := by
  unfold pointInRing edgesInside ringEdges
  rw [pointInRingLoop_eq]
  simp

theorem edgesInside_perm (x y : ℚ) (e1 e2 : List ((ℚ × ℚ) × (ℚ × ℚ))) (h : e1.Perm e2) :
    edgesInside x y e1 = edgesInside x y e2 := by
  unfold edgesInside
  rw [h.countP_eq]
  congr 1
  rw [Bool.eq_iff_iff, List.any_eq_true, List.any_eq_true]
  constructor
  · rintro ⟨e, he, hon⟩; exact ⟨e, h.mem_iff.mp he, hon⟩
  · rintro ⟨e, he, hon⟩; exact ⟨e, h.mem_iff.mpr he, hon⟩

theorem onEdge_swap (x y : ℚ) (e : (ℚ × ℚ) × (ℚ × ℚ)) :
    onEdge x y e.swap = onEdge x y e := by
  unfold onEdge
  rw [Bool.eq_iff_iff, isPointOnSegment_iff, isPointOnSegment_iff]
  simp only [Prod.fst_swap, Prod.snd_swap]
  have hcross : (x - e.2.1) * (e.1.2 - e.2.2) - (y - e.2.2) * (e.1.1 - e.2.1)
      = -((x - e.1.1) * (e.2.2 - e.1.2) - (y - e.1.2) * (e.2.1 - e.1.1)) := by ring
  have hdot : (x - e.2.1) * (x - e.1.1) + (y - e.2.2) * (y - e.1.2)
      = (x - e.1.1) * (x - e.2.1) + (y - e.1.2) * (y - e.2.2) := by ring
  rw [hcross, abs_neg, hdot]

theorem crossesEdge_swap (x y : ℚ) (e : (ℚ × ℚ) × (ℚ × ℚ)) :
    crossesEdge x y e.swap = crossesEdge x y e := by
  unfold crossesEdge
  simp only [Prod.fst_swap, Prod.snd_swap]
  by_cases hy : e.1.2 = e.2.2
  · simp [hy]
  · have hsw := intersects_swap x y e.1.1 e.1.2 e.2.1 e.2.2 hy
    by_cases hA : e.1.2 > y <;> by_cases hB : e.2.2 > y <;>
      by_cases hI : x < ((e.2.1 - e.1.1) * (y - e.1.2)) / (e.2.2 - e.1.2) + e.1.1 <;>
      simp [hA, hB, hI, ← hsw]

theorem edgesInside_map_swap (x y : ℚ) (edges : List ((ℚ × ℚ) × (ℚ × ℚ))) :
    edgesInside x y (edges.map Prod.swap) = edgesInside x y edges := by
  unfold edgesInside
  rw [List.any_map, List.countP_map]
  have h1 : (onEdge x y ∘ Prod.swap) = onEdge x y := funext fun e => onEdge_swap x y e
  have h2 : (crossesEdge x y ∘ Prod.swap) = crossesEdge x y :=
    funext fun e => crossesEdge_swap x y e
  rw [h1, h2]

theorem loopEdges_append (pj a : ℚ × ℚ) (l : List (ℚ × ℚ)) :
    loopEdges pj (l ++ [a]) = loopEdges pj l ++ [(a, l.getLastD pj)] := by
  induction l generalizing pj with
  | nil => rfl
  | cons p rest ih =>
    rw [List.cons_append]
    simp only [loopEdges, List.getLastD_cons, List.cons_append, List.cons.injEq, true_and]
    exact ih p

theorem ringEdges_cons (a : ℚ × ℚ) (l : List (ℚ × ℚ)) :
    ringEdges (a :: l) = (a, l.getLastD a) :: loopEdges a l := by
  simp only [ringEdges, loopEdges, List.getLastD_cons]

theorem ringEdges_rotate_one (a : ℚ × ℚ) (l : List (ℚ × ℚ)) :
    (ringEdges (l ++ [a])).Perm (ringEdges (a :: l)) := by
  have hlast : (l ++ [a]).getLastD (0, 0) = a := by
    rw [List.getLastD_eq_getLast?, List.getLast?_append]
    simp
  rw [ringEdges_cons]
  unfold ringEdges
  rw [hlast, loopEdges_append]
  exact List.perm_append_singleton _ _

theorem pointInRing_rotate (x y : ℚ) (ring : Ring) (n : ℕ) :
    pointInRing x y (ring.rotate n) = pointInRing x y ring := by
  induction n generalizing ring with
  | zero => rw [List.rotate_zero]
  | succ n ih =>
    cases ring with
    | nil => rw [List.rotate_nil]
    | cons a l =>
      rw [List.rotate_cons_succ, ih, pointInRing_eq_edgesInside, pointInRing_eq_edgesInside]
      exact edgesInside_perm x y _ _ (ringEdges_rotate_one a l)

theorem loopEdges_reverse (c : ℚ × ℚ) (l : List (ℚ × ℚ)) (h : ℚ × ℚ) (t : List (ℚ × ℚ))
    (hrev : (c :: l).reverse = h :: t) :
    loopEdges h t = ((loopEdges c l).map Prod.swap).reverse ∧ t.getLastD h = c ∧
      h = l.getLastD c := by
  induction l generalizing c h t with
  | nil =>
    simp only [List.reverse_cons, List.reverse_nil, List.nil_append, List.cons.injEq] at hrev
    obtain ⟨rfl, rfl⟩ := hrev
    exact ⟨rfl, rfl, rfl⟩
  | cons q l' ih =>
    rw [List.reverse_cons] at hrev
    cases hq : (q :: l').reverse with
    | nil => simp at hq
    | cons h' t' =>
      rw [hq, List.cons_append, List.cons.injEq] at hrev
      obtain ⟨rfl, rfl⟩ := hrev
      obtain ⟨h1, h2, h3⟩ := ih q h' t' hq
      refine ⟨?_, ?_, ?_⟩
      · rw [loopEdges_append, h1, h2]
        simp [loopEdges]
      · rw [List.getLastD_eq_getLast?, List.getLast?_append]
        simp
      · rw [h3, List.getLastD_cons]

theorem pointInRing_reverse (x y : ℚ) (ring : Ring) :
    pointInRing x y ring.reverse = pointInRing x y ring := by
  cases ring with
  | nil => rfl
  | cons c l =>
    rw [pointInRing_eq_edgesInside, pointInRing_eq_edgesInside]
    cases hrev : (c :: l).reverse with
    | nil => simp at hrev
    | cons h t =>
      obtain ⟨h1, h2, h3⟩ := loopEdges_reverse c l h t hrev
      rw [ringEdges_cons, ringEdges_cons, h1, h2, ← edgesInside_map_swap x y
        ((c, l.getLastD c) :: loopEdges c l)]
      apply edgesInside_perm
      rw [List.map_cons, h3]
      exact List.Perm.cons _ (List.reverse_perm _)

/-- C22: over exact arithmetic `pointInRing` gives the same answer for a
ring, for every cyclic rotation of its point list and for its reversal. -/
theorem pointInRing_rotate_reverse (x y : ℚ) (ring : Ring) :
    (∀ n : ℕ, pointInRing x y (ring.rotate n) = pointInRing x y ring) ∧
    pointInRing x y ring.reverse = pointInRing x y ring ∧
    (∀ ring' : Ring, ring.IsRotated ring' → pointInRing x y ring' = pointInRing x y ring) :=
  ⟨pointInRing_rotate x y ring, pointInRing_reverse x y ring,
    fun _ ⟨n, hn⟩ => hn ▸ pointInRing_rotate x y ring n⟩

/-! ## CSV round trip -/

theorem parseCsvLoop_nil (result : List String) (current : List Char) (inQuotes : Bool) :
    parseCsvLoop [] result current inQuotes = result ++ [jsTrim (String.mk current)] := by
  simp [parseCsvLoop]

theorem parseCsvLoop_quote_quote (rest : List Char) (result : List String)
    (current : List Char) :
    parseCsvLoop ('"' :: '"' :: rest) result current true =
      parseCsvLoop rest result (current ++ ['"']) true := by
  simp [parseCsvLoop]

theorem parseCsvLoop_quote_close (tail : List Char) (result : List String)
    (current : List Char) (htail : ∀ c rest, tail = c :: rest → c ≠ '"') :
    parseCsvLoop ('"' :: tail) result current true = parseCsvLoop tail result current false := by
  cases tail with
  | nil => simp [parseCsvLoop]
  | cons c rest =>
    have hc := htail c rest rfl
    simp [parseCsvLoop, hc]

theorem parseCsvLoop_quote_open (rest : List Char) (result : List String)
    (current : List Char) :
    parseCsvLoop ('"' :: rest) result current false = parseCsvLoop rest result current true := by
  cases rest with
  | nil => simp [parseCsvLoop]
  | cons c rest => simp [parseCsvLoop]

theorem parseCsvLoop_comma (rest : List Char) (result : List String) (current : List Char) :
    parseCsvLoop (',' :: rest) result current false =
      parseCsvLoop rest (result ++ [jsTrim (String.mk current)]) [] false := by
  cases rest <;> simp [parseCsvLoop]

theorem parseCsvLoop_quoted_char (ch : Char) (rest : List Char) (result : List String)
    (current : List Char) (hch : ch ≠ '"') :
    parseCsvLoop (ch :: rest) result current true =
      parseCsvLoop rest result (current ++ [ch]) true := by
  cases rest <;> simp [parseCsvLoop, hch]

theorem parseCsvLoop_inside (cs : List Char) (tail : List Char) (result : List String)
    (current : List Char) (htail : ∀ c rest, tail = c :: rest → c ≠ '"') :
    parseCsvLoop ((cs.flatMap fun c => if c = '"' then ['"', '"'] else [c]) ++ '"' :: tail)
        result current true =
      parseCsvLoop tail result (current ++ cs) false := by
  induction cs generalizing current with
  | nil =>
    simp only [List.flatMap_nil, List.nil_append, List.append_nil]
    exact parseCsvLoop_quote_close tail result current htail
  | cons c cs' ih =>
    by_cases hq : c = '"'
    · subst hq
      simp only [List.flatMap_cons, ↓reduceIte, List.cons_append, List.nil_append]
      rw [parseCsvLoop_quote_quote, ih]
      simp
    · simp only [List.flatMap_cons, hq, ↓reduceIte, List.cons_append, List.nil_append]
      rw [parseCsvLoop_quoted_char _ _ _ _ hq, ih]
      simp

theorem parseCsvLoop_field (field : String) (tail : List Char) (result : List String)
    (htail : ∀ c rest, tail = c :: rest → c ≠ '"') :
    parseCsvLoop (csvQuote field ++ tail) result [] false =
      parseCsvLoop tail result field.toList false := by
  unfold csvQuote csvEscape
  rw [List.cons_append, List.append_assoc, List.singleton_append, parseCsvLoop_quote_open]
  have hin := parseCsvLoop_inside field.toList tail result [] htail
  rw [List.nil_append] at hin
  exact hin

theorem intercalate_cons_cons (sep a b : List Char) (rest : List (List Char)) :
    List.intercalate sep (a :: b :: rest) = a ++ sep ++ List.intercalate sep (b :: rest) := by
  simp [List.intercalate, List.intersperse]

theorem parseCsvLoop_fields (fields : List String) (hne : fields ≠ [])
    (htrim : ∀ f ∈ fields, jsTrim f = f) (result : List String) :
    parseCsvLoop (List.intercalate [','] (fields.map csvQuote)) result [] false =
      result ++ fields := by
  induction fields generalizing result with
  | nil => exact absurd rfl hne
  | cons f rest ih =>
    have hf : jsTrim (String.mk f.toList) = f := htrim f (List.mem_cons_self _ _)
    cases rest with
    | nil =>
      have h := parseCsvLoop_field f [] result (by intro c rest h; cases h)
      simp only [List.map_cons, List.map_nil, List.intercalate, List.intersperse,
        List.flatten_cons, List.flatten_nil] at h ⊢
      rw [h, parseCsvLoop_nil, hf]
    | cons g gs =>
      rw [List.map_cons, List.map_cons, intercalate_cons_cons, List.append_assoc,
        parseCsvLoop_field f _ result (by
          intro c rest h
          rw [List.singleton_append, List.cons.injEq] at h
          rw [← h.1]; decide)]
      rw [List.singleton_append, parseCsvLoop_comma]
      rw [← List.map_cons, ih (by simp) (fun f' hf' => htrim f' (List.mem_cons_of_mem _ hf')),
        hf]
      simp

/-- C23: for a non-empty list of fields without leading or trailing
whitespace, the line that wraps each field in double quotes, doubles every
embedded double quote and joins the fields with commas is parsed back by
`parseCsvLine` to exactly the original fields. -/
theorem parseCsvLine_roundtrip (fields : List String) (hne : fields ≠ [])
    (htrim : ∀ f ∈ fields, jsTrim f = f) :
    parseCsvLine (csvLine fields) = fields := by
  unfold parseCsvLine csvLine
  have := parseCsvLoop_fields fields hne htrim []
  simpa using this

theorem parseCsvLine_roundtrip_witness :
    (["a,b", "", "say \"hi\""] : List String) ≠ [] ∧
    (∀ f ∈ (["a,b", "", "say \"hi\""] : List String), jsTrim f = f) ∧
    parseCsvLine (csvLine ["a,b", "", "say \"hi\""]) = ["a,b", "", "say \"hi\""] :=
  ⟨by decide, by decide,
    parseCsvLine_roundtrip ["a,b", "", "say \"hi\""] (by decide) (by decide)⟩

/-! ## Double arithmetic: where the statements over exact arithmetic stop -/

theorem MATH_PI_eq : MATH_PI = ⟨884279719003555, -48⟩ := by decide!

theorem estimateLabelBoxDbl_sample :
    estimateLabelBoxDbl 100 100 "01" 8.6 =
      { left := ⟨99844451895083, -40⟩, right := ⟨120057873660117, -40⟩,
        top := ⟨3145482864741581, -45⟩, bottom := ⟨101, 0⟩ } := by decide!

/-- C10 (as stated, refuted): in double arithmetic
`estimateLabelBox(100, 100, "01", 8.6)` has `left = 90.80799999999999` and
`right = 109.19200000000001`, so `right - left = 18.384000000000015` is not
the width `18.384` (with the product taken in the order of the text or in the
order of the code), and `bottom - top = 11.599999999999994` is not
`fontSize + 3 = 11.6`. -/
theorem estimateLabelBox_size_counterexample :
    (estimateLabelBoxDbl 100 100 "01" 8.6).right - (estimateLabelBoxDbl 100 100 "01" 8.6).left
        ≠ Dbl.max 14 (Dbl.ofNat (jsLength "01") * 8.6 * 0.72 + 6) ∧
    (estimateLabelBoxDbl 100 100 "01" 8.6).right - (estimateLabelBoxDbl 100 100 "01" 8.6).left
        ≠ Dbl.max 14 (Dbl.ofNat (jsLength "01") * (8.6 * 0.72) + 6) ∧
    (estimateLabelBoxDbl 100 100 "01" 8.6).right.toRat -
        (estimateLabelBoxDbl 100 100 "01" 8.6).left.toRat
        ≠ (Dbl.max 14 (Dbl.ofNat (jsLength "01") * 8.6 * 0.72 + 6)).toRat ∧
    (estimateLabelBoxDbl 100 100 "01" 8.6).bottom - (estimateLabelBoxDbl 100 100 "01" 8.6).top
        ≠ (8.6 : Dbl) + 3 := by
  have hw : Dbl.max 14 (Dbl.ofNat (jsLength "01") * 8.6 * 0.72 + 6)
      = ⟨1293658992962175, -46⟩ := by decide!
  refine ⟨by decide!, by decide!, ?_, by decide!⟩
  rw [estimateLabelBoxDbl_sample, hw]
  simp only [Dbl.toRat]
  norm_num

theorem createProjectorDbl_sample :
    (createProjectorDbl tanQuarterPi logBelowOne flatBoundsDbl 0 0).x
        = ⟨387028092977151, -44⟩ ∧
    (createProjectorDbl tanQuarterPi logBelowOne flatBoundsDbl 0 0).y = ⟨225, 1⟩ := by
  decide!

/-- C15 (as stated, refuted): in double arithmetic, with the bounds
`{ minX: 0, maxX: 5.375, minY: -1/1024, maxY: 1/1024 }` the point
`(lon, lat) = (0, 0)` has its `projectGeoPoint` image within the bounds, the
scale is `151.8139534883721`, and the projector returns
`x = 21.999999999999943`, which is below `PADDING = 22`.  The `x` coordinate
does not depend on the values of `Math.tan` and `Math.log`. -/
theorem createProjector_inside_margins_counterexample :
    (Dbl.lt flatBoundsDbl.minX flatBoundsDbl.maxX = true ∧
      Dbl.lt flatBoundsDbl.minY flatBoundsDbl.maxY = true) ∧
    (Dbl.le flatBoundsDbl.minX (projectGeoPointDbl tanQuarterPi logBelowOne 0 0).x = true ∧
      Dbl.le (projectGeoPointDbl tanQuarterPi logBelowOne 0 0).x flatBoundsDbl.maxX = true ∧
      Dbl.le flatBoundsDbl.minY (projectGeoPointDbl tanQuarterPi logBelowOne 0 0).y = true ∧
      Dbl.le (projectGeoPointDbl tanQuarterPi logBelowOne 0 0).y flatBoundsDbl.maxY = true) ∧
    (createProjectorDbl tanQuarterPi logBelowOne flatBoundsDbl 0 0).x
      = ⟨387028092977151, -44⟩ ∧
    Dbl.lt (createProjectorDbl tanQuarterPi logBelowOne flatBoundsDbl 0 0).x 22 = true ∧
    (createProjectorDbl tanQuarterPi logBelowOne flatBoundsDbl 0 0).x.toRat < 22 ∧
    (∀ tan log : Dbl → Dbl,
      (createProjectorDbl tan log flatBoundsDbl 0 0).x =
        (createProjectorDbl tanQuarterPi logBelowOne flatBoundsDbl 0 0).x) := by
  refine ⟨by decide!, by decide!, by decide!, by decide!, ?_, fun _ _ => rfl⟩
  have h : (createProjectorDbl tanQuarterPi logBelowOne flatBoundsDbl 0 0).x
      = ⟨387028092977151, -44⟩ := by decide!
  rw [h]
  simp only [Dbl.toRat]
  norm_num

theorem Dbl_lt_irrefl (x : Dbl) : Dbl.lt x x = false := by
  simp [Dbl.lt]

/-- C16 (as stated, refuted): in double arithmetic the latitudes `10` and
`10.000000000000002` give the same argument `Math.PI / 4 + latRad / 2` of
`Math.tan`, so whatever `Math.tan` and `Math.log` return, the two points get
the same canvas `y`: the point of greater latitude is not strictly higher. -/
theorem createProjector_lat_monotone_counterexample :
    (Dbl.lt unitBoundsDbl.minX unitBoundsDbl.maxX = true ∧
      Dbl.lt unitBoundsDbl.minY unitBoundsDbl.maxY = true) ∧
    (Dbl.lt (-85) 10 = true ∧ Dbl.lt 10 10.000000000000002 = true ∧
      Dbl.lt 10.000000000000002 85 = true) ∧
    MATH_PI / 4 + ((10 : Dbl) * MATH_PI) / 180 / 2 =
      MATH_PI / 4 + ((10.000000000000002 : Dbl) * MATH_PI) / 180 / 2 ∧
    (∀ tan log : Dbl → Dbl,
      (createProjectorDbl tan log unitBoundsDbl 0 10.000000000000002).y =
          (createProjectorDbl tan log unitBoundsDbl 0 10).y ∧
      Dbl.lt (createProjectorDbl tan log unitBoundsDbl 0 10.000000000000002).y
          (createProjectorDbl tan log unitBoundsDbl 0 10).y = false) := by
  have harg : MATH_PI / 4 + ((10 : Dbl) * MATH_PI) / 180 / 2 =
      MATH_PI / 4 + ((10.000000000000002 : Dbl) * MATH_PI) / 180 / 2 := by decide!
  have hy : ∀ tan log : Dbl → Dbl,
      (createProjectorDbl tan log unitBoundsDbl 0 10.000000000000002).y =
        (createProjectorDbl tan log unitBoundsDbl 0 10).y := by
    intro tan log
    simp only [createProjectorDbl, projectGeoPointDbl]
    rw [harg]
  refine ⟨by decide!, by decide!, harg, fun tan log => ⟨hy tan log, ?_⟩⟩
  rw [hy tan log]
  exact Dbl_lt_irrefl _

/-- Why the statement on short rings is made over exact arithmetic: in double
arithmetic the two crossing tests of a two-point ring can round differently.
On the ring `[[831.915, 758.114], [120.646, 306.787]]` the point
`(120.64599999999996, 306.787)` passes no segment test, the first crossing
test is false and the second true, so `pointInRing` returns true. -/
theorem pointInRingDbl_two_point_sample :
    pointInRingDbl 120.64599999999996 306.787 [(831.915, 758.114), (120.646, 306.787)]
      = true ∧
    isPointOnSegmentDbl 120.64599999999996 306.787 831.915 758.114 120.646 306.787 = false ∧
    isPointOnSegmentDbl 120.64599999999996 306.787 120.646 306.787 831.915 758.114 = false ∧
    isPointOnSegmentDbl 120.64599999999996 306.787 831.915 758.114 831.915 758.114 = false ∧
    isPointOnSegmentDbl 120.64599999999996 306.787 120.646 306.787 120.646 306.787 = false := by
  decide!

end MapErm
